import Mathlib

/-!
vtabledump: a shallow embedding of `src/vtabledump.cc`

The development follows the program text of `vtabledump.cc`:

* `BinaryReader` (lines 17-53): the cursor over the file bytes;
* the ELF file header, the section lookup by name and the symbol table
  (lines 106-209 of `main`);
* the vtable dump: candidate selection and the entry walk (lines 216-317).

Conventions of the embedding.

* The file is a `List UInt8`.  `std::size_t` and `std::uint64_t` are 64 bits wide: every
  expression the program evaluates in those types is reduced modulo `WORD = 2 ^ 64`.
* `read_core_type` reinterprets the bytes under the cursor in the byte order of the host
  (the program has no byte swap); the host byte order is the argument `host`.
* `BinaryReader::data` is a reference to the file vector, which is never modified: the
  vector is passed to every operation as `data`, the mutable members are the record
  `BinaryReader`.
* A run can end in four ways that are not a normal return: the two error exits of `main`,
  a failed `assert` (assertions are active: the program is built without `NDEBUG`), and an
  operation whose behaviour C++ leaves undefined (a load outside the vector, a string
  without terminator, ...).  They are the constructors of `Fault`.
* The loop of the entry walk has no bound in the program; its model takes a number of
  passes (`fuel`) and returns `none` when that number is used up.
* Memory is not a resource of the model: an allocation the library accepts succeeds.  The
  one allocation the library can refuse on account of its size alone is the vector `syms`
  of line 188, whose constructor throws above `max_size()`.
* `llvm::itaniumDemangle` and the `--filter` regular expression are arguments
  (`demangle`, `filter`); printing is represented by the printed data (`VTable`).
-/

namespace VTableDump

/-! ## Machine integers and bytes -/

/-- Number of values of `std::size_t` and `std::uint64_t`. -/
def WORD : Nat := 2 ^ 64

/-- Byte order of the host that runs the program. -/
inductive Endian
  | little
  | big
  deriving DecidableEq, Repr

/-- Little-endian value of a byte sequence. -/
def leValue : List UInt8 → Nat
  | [] => 0
  | b :: bs => b.toNat + 256 * leValue bs

/-- Value of an unsigned integer object whose storage holds `bs`, on a host of the given
byte order: `*reinterpret_cast<const T*>(&data[cur])`. -/
def hostValue (host : Endian) (bs : List UInt8) : Nat :=
  match host with
  | .little => leValue bs
  | .big => leValue bs.reverse

/-! ## Ways a run can stop early -/

/-- The five `assert`s of `main`. -/
inductive Assertion
  /-- Line 149: `shstrtabhdr.sh_offset + shstrtabhdr.sh_size < file.size()`. -/
  | shstrtabInFile
  /-- Line 162: `shdr.sh_name < shstrtabhdr.sh_size`. -/
  | sectionName
  /-- Line 184: `sh_strtab.sh_offset + sh_strtab.sh_size < file.size()`. -/
  | strtabInFile
  /-- Line 207: `sym.st_name < sh_strtab.sh_size`. -/
  | symbolName
  /-- Line 266: `off < file.size()`. -/
  | walkOffset
  deriving DecidableEq, Repr

/-- Operations whose behaviour is undefined in C++. -/
inductive Undefined
  /-- Line 49: `read_core_type` loads an object that is not inside the vector. -/
  | loadOutsideBuffer
  /-- Lines 147, 159: the `int` product `e_shentsize * i` does not fit in `int`. -/
  | intOverflow
  /-- Lines 150, 185: `file[off]` with `off >= file.size()`. -/
  | indexOutsideBuffer
  /-- A C string function reaches the end of the vector before a terminator. -/
  | unterminatedString
  /-- Line 188: `sh_size / sh_entsize` with `sh_entsize == 0`. -/
  | divisionByZero
  /-- Line 237: `&demangle_buf[11]` lies behind the terminator of the demangled name. -/
  | indexOutsideName
  deriving DecidableEq, Repr

/-- Every way a run stops that is not the normal return of `main`. -/
inductive Fault
  /-- Lines 111-114: "File is not an ELF object", `EXIT_FAILURE`. -/
  | notAnObjectFile
  /-- Lines 174-177: "File is missing one or more required sections", `EXIT_FAILURE`. -/
  | missingRequiredSection
  /-- A failed `assert`: the process is aborted. -/
  | assertFailed (a : Assertion)
  /-- The run executed an operation without defined behaviour. -/
  | undefinedBehaviour (u : Undefined)
  /-- Line 188: the constructor of `syms` throws `std::length_error`; nothing catches it
  and the process is aborted. -/
  | lengthError
  deriving DecidableEq, Repr

/-! ## `BinaryReader` (lines 17-53) -/

/-- The mutable members of `BinaryReader`: `cur` and `is_32bit`. -/
structure BinaryReader where
  cur : Nat
  is_32bit : Bool
  deriving DecidableEq, Repr

/-- Line 23: the constructor, `cur(0), is_32bit(false)`. -/
def BinaryReader.new : BinaryReader := { cur := 0, is_32bit := false }

/-- Line 25. -/
def BinaryReader.set_is_32 (r : BinaryReader) (is_32bit : Bool) : BinaryReader :=
  { r with is_32bit := is_32bit }

/-- Line 27: `cur = off`, for an `off` of type `size_t`. -/
def BinaryReader.seek (r : BinaryReader) (off : Nat) : BinaryReader :=
  { r with cur := off }

/-- Lines 43-52, for `sizeof(T) = sizeofT`.  The guard compares the `size_t` sum
`cur + sizeof(T)` with `data.size()`.  When the guard does not fire the object at
`&data[cur]` is loaded, which is defined only if all its bytes are elements of the
vector. -/
def read_core_type (host : Endian) (data : List UInt8) (sizeofT : Nat) (r : BinaryReader) :
    Except Fault (Nat × BinaryReader) :=
  if (r.cur + sizeofT) % WORD > data.length then
    .ok (0, r)
  else if r.cur + sizeofT ≤ data.length then
    .ok (hostValue host ((data.drop r.cur).take sizeofT),
         { r with cur := (r.cur + sizeofT) % WORD })
  else
    .error (.undefinedBehaviour .loadOutsideBuffer)

/-- Line 29. -/
def read_u8 (host : Endian) (data : List UInt8) (r : BinaryReader) :
    Except Fault (Nat × BinaryReader) :=
  read_core_type host data 1 r

/-- Line 30. -/
def read_u16 (host : Endian) (data : List UInt8) (r : BinaryReader) :
    Except Fault (Nat × BinaryReader) :=
  read_core_type host data 2 r

/-- Line 31. -/
def read_u32 (host : Endian) (data : List UInt8) (r : BinaryReader) :
    Except Fault (Nat × BinaryReader) :=
  read_core_type host data 4 r

/-- Line 32. -/
def read_u64 (host : Endian) (data : List UInt8) (r : BinaryReader) :
    Except Fault (Nat × BinaryReader) :=
  read_core_type host data 8 r

/-- Line 34: `(is_32bit) ? read_u32() : read_u64()`. -/
def read_ptr (host : Endian) (data : List UInt8) (r : BinaryReader) :
    Except Fault (Nat × BinaryReader) :=
  if r.is_32bit then read_u32 host data r else read_u64 host data r

/-- Lines 36-40: `len` calls of `read_u8`, stored in order. -/
def read_bytes (host : Endian) (data : List UInt8) :
    Nat → BinaryReader → Except Fault (List Nat × BinaryReader)
  | 0, r => .ok ([], r)
  | len + 1, r => do
    let (b, r) ← read_u8 host data r
    let (bs, r) ← read_bytes host data len r
    .ok (b :: bs, r)

/-! ## C strings inside the file -/

/-- The characters of the string that starts at the head of `bs`, up to its terminator;
`none` when `bs` holds no terminator. -/
def cstrOf : List UInt8 → Option (List UInt8)
  | [] => none
  | b :: bs => if b = 0 then some [] else (cstrOf bs).map (b :: ·)

/-- The string a `const char*` to `&file[p]` denotes. -/
def cstr (data : List UInt8) (p : Nat) : Option (List UInt8) :=
  cstrOf (data.drop p)

/-- The test `std::strcmp(&file[p], lit) == 0` for a literal `lit` that holds no
terminator of its own: the characters are compared in order until one differs or both
strings end; a comparison that reaches the end of the vector reads outside it. -/
def strcmp_eq (data : List UInt8) : Nat → List UInt8 → Except Fault Bool
  | p, [] =>
    match data[p]? with
    | none => .error (.undefinedBehaviour .unterminatedString)
    | some b => .ok (b == 0)
  | p, c :: cs =>
    match data[p]? with
    | none => .error (.undefinedBehaviour .unterminatedString)
    | some b => if b = c then strcmp_eq data (p + 1) cs else .ok false

/-- The test `std::strncmp(&file[p], lit, n) == 0` for a literal `lit` of `n` characters,
none of them the terminator: the characters are compared in order until one differs. -/
def strncmp_eq (data : List UInt8) : Nat → List UInt8 → Except Fault Bool
  | _, [] => .ok true
  | p, c :: cs =>
    match data[p]? with
    | none => .error (.undefinedBehaviour .unterminatedString)
    | some b => if b = c then strncmp_eq data (p + 1) cs else .ok false

/-! ## ELF constants and records

The program takes these from `llvm/BinaryFormat/ELF.h`, a header of the LLVM library
that is not part of the repository. -/

/-- Modelled from the spec: the constant `ELF::ElfMagic` of `llvm/BinaryFormat/ELF.h`,
the magic signature; its first four bytes are `0x7f 'E' 'L' 'F'`. -/
def ElfMagic : List Nat := [0x7f, 0x45, 0x4c, 0x46]

/-- Modelled from the spec: the constant `ELF::EI_CLASS` of `llvm/BinaryFormat/ELF.h`,
the index of the class byte in the identity block. -/
def EI_CLASS : Nat := 4

/-- Modelled from the spec: the constant `ELF::ELFCLASS32` of `llvm/BinaryFormat/ELF.h`,
the class byte that selects 32-bit addressing. -/
def ELFCLASS32 : Nat := 1

/-- Modelled from the spec: the type `ELF::Elf64_Ehdr` of `llvm/BinaryFormat/ELF.h`, with
the members that lines 107-130 assign.  The members from `e_ehsize` to `e_shstrndx` have
the 16-bit type `Elf64_Half`, `e_shoff` has the 64-bit type `Elf64_Off`. -/
structure Elf64_Ehdr where
  e_ident : List Nat
  e_type : Nat
  e_machine : Nat
  e_version : Nat
  e_entry : Nat
  e_phoff : Nat
  e_shoff : Nat
  e_flags : Nat
  e_ehsize : Nat
  e_phentsize : Nat
  e_phnum : Nat
  e_shentsize : Nat
  e_shnum : Nat
  e_shstrndx : Nat
  deriving DecidableEq, Repr

/-- Modelled from the spec: the type `ELF::Elf64_Shdr` of `llvm/BinaryFormat/ELF.h`, with
the members that lines 134-143 assign. -/
structure Elf64_Shdr where
  sh_name : Nat
  sh_type : Nat
  sh_flags : Nat
  sh_addr : Nat
  sh_offset : Nat
  sh_size : Nat
  sh_link : Nat
  sh_info : Nat
  sh_addralign : Nat
  sh_entsize : Nat
  deriving DecidableEq, Repr

/-- Modelled from the spec: the type `ELF::Elf64_Sym` of `llvm/BinaryFormat/ELF.h`, with
the members that lines 193-205 assign. -/
structure Elf64_Sym where
  st_name : Nat
  st_info : Nat
  st_other : Nat
  st_shndx : Nat
  st_value : Nat
  st_size : Nat
  deriving DecidableEq, Repr

/-- An element of `syms`: the record and the `const char*` to its name, kept as the index
into the file vector the pointer refers to. -/
abbrev Symbol := Elf64_Sym × Nat

/-! ## The file header (lines 106-130) -/

/-- Lines 109-114: the identity bytes and the magic test. -/
def read_ident (host : Endian) (data : List UInt8) (r : BinaryReader) :
    Except Fault (List Nat × BinaryReader) := do
  let (e_ident, r) ← read_bytes host data 16 r
  if e_ident.take 4 ≠ ElfMagic then
    .error .notAnObjectFile
  else
    .ok (e_ident, r)

/-- Whether the class byte selects the 32-bit layout:
`ehdr.e_ident[ELF::EI_CLASS] == ELF::ELFCLASS32`. -/
def is_class32 (e_ident : List Nat) : Bool :=
  e_ident.getD EI_CLASS 0 == ELFCLASS32

/-- Lines 116-130: the remaining header fields. -/
def read_ehdr_fields (host : Endian) (data : List UInt8) (e_ident : List Nat)
    (r : BinaryReader) : Except Fault (Elf64_Ehdr × BinaryReader) := do
  let r := r.set_is_32 (is_class32 e_ident)
  let (e_type, r) ← read_u16 host data r
  let (e_machine, r) ← read_u16 host data r
  let (e_version, r) ← read_u32 host data r
  let (e_entry, r) ← read_ptr host data r
  let (e_phoff, r) ← read_ptr host data r
  let (e_shoff, r) ← read_ptr host data r
  let (e_flags, r) ← read_u32 host data r
  let (e_ehsize, r) ← read_u16 host data r
  let (e_phentsize, r) ← read_u16 host data r
  let (e_phnum, r) ← read_u16 host data r
  let (e_shentsize, r) ← read_u16 host data r
  let (e_shnum, r) ← read_u16 host data r
  let (e_shstrndx, r) ← read_u16 host data r
  .ok ({ e_ident, e_type, e_machine, e_version, e_entry, e_phoff, e_shoff, e_flags,
         e_ehsize, e_phentsize, e_phnum, e_shentsize, e_shnum, e_shstrndx }, r)

/-- Lines 104-130: the reader is created and the file header is read. -/
def read_ehdr (host : Endian) (data : List UInt8) :
    Except Fault (Elf64_Ehdr × BinaryReader) := do
  let (e_ident, r) ← read_ident host data BinaryReader.new
  read_ehdr_fields host data e_ident r

/-! ## Section headers (lines 132-177) -/

/-- Lines 133-144: the helper `read_shdr`. -/
def read_shdr (host : Endian) (data : List UInt8) (r : BinaryReader) :
    Except Fault (Elf64_Shdr × BinaryReader) := do
  let (sh_name, r) ← read_u32 host data r
  let (sh_type, r) ← read_u32 host data r
  let (sh_flags, r) ← read_ptr host data r
  let (sh_addr, r) ← read_ptr host data r
  let (sh_offset, r) ← read_ptr host data r
  let (sh_size, r) ← read_ptr host data r
  let (sh_link, r) ← read_u32 host data r
  let (sh_info, r) ← read_u32 host data r
  let (sh_addralign, r) ← read_ptr host data r
  let (sh_entsize, r) ← read_ptr host data r
  .ok ({ sh_name, sh_type, sh_flags, sh_addr, sh_offset, sh_size, sh_link, sh_info,
         sh_addralign, sh_entsize }, r)

/-- The seek target `ehdr.e_shoff + ehdr.e_shentsize * i` of lines 147 and 159.  The two
factors have type `Elf64_Half`, so the product is computed in `int`; the sum is computed
in `Elf64_Off`. -/
def shdr_offset (ehdr : Elf64_Ehdr) (i : Nat) : Except Fault Nat :=
  if ehdr.e_shentsize * i < 2 ^ 31 then
    .ok ((ehdr.e_shoff + ehdr.e_shentsize * i) % WORD)
  else
    .error (.undefinedBehaviour .intOverflow)

/-- Lines 147 and 148, 159 and 160: seek to section header `i` and read it. -/
def read_shdr_at (host : Endian) (data : List UInt8) (ehdr : Elf64_Ehdr) (i : Nat)
    (r : BinaryReader) : Except Fault (Elf64_Shdr × BinaryReader) := do
  let off ← shdr_offset ehdr i
  read_shdr host data (r.seek off)

/-- Lines 149 and 150, 184 and 185: the assertion on a string table section and the
pointer to its first byte. -/
def check_strtab (data : List UInt8) (a : Assertion) (hdr : Elf64_Shdr) : Except Fault Unit :=
  if ¬ ((hdr.sh_offset + hdr.sh_size) % WORD < data.length) then
    .error (.assertFailed a)
  else if ¬ (hdr.sh_offset < data.length) then
    .error (.undefinedBehaviour .indexOutsideBuffer)
  else
    .ok ()

/-- The three optionals `sho_text`, `sho_symtab`, `sho_strtab` of lines 154-156. -/
structure Found where
  sho_text : Option Elf64_Shdr
  sho_symtab : Option Elf64_Shdr
  sho_strtab : Option Elf64_Shdr
  deriving DecidableEq, Repr

/-- The literal ".text". -/
def dot_text : List UInt8 := [0x2e, 0x74, 0x65, 0x78, 0x74]

/-- The literal ".symtab". -/
def dot_symtab : List UInt8 := [0x2e, 0x73, 0x79, 0x6d, 0x74, 0x61, 0x62]

/-- The literal ".strtab". -/
def dot_strtab : List UInt8 := [0x2e, 0x73, 0x74, 0x72, 0x74, 0x61, 0x62]

/-- Lines 159-171: the body of the section loop for index `i`. -/
def scan_step (host : Endian) (data : List UInt8) (ehdr : Elf64_Ehdr)
    (shstrtabhdr : Elf64_Shdr) (st : Found × BinaryReader) (i : Nat) :
    Except Fault (Found × BinaryReader) := do
  let (shdr, r) ← read_shdr_at host data ehdr i st.2
  if ¬ (shdr.sh_name < shstrtabhdr.sh_size) then
    .error (.assertFailed .sectionName)
  else do
    let name := shstrtabhdr.sh_offset + shdr.sh_name
    let is_text ← strcmp_eq data name dot_text
    if is_text then
      .ok ({ st.1 with sho_text := some shdr }, r)
    else do
      let is_symtab ← strcmp_eq data name dot_symtab
      if is_symtab then
        .ok ({ st.1 with sho_symtab := some shdr }, r)
      else do
        let is_strtab ← strcmp_eq data name dot_strtab
        if is_strtab then
          .ok ({ st.1 with sho_strtab := some shdr }, r)
        else
          .ok (st.1, r)

/-- Lines 158-172: the loop `for (i = 0; i < ehdr.e_shnum; ++i)`. -/
def scan_sections (host : Endian) (data : List UInt8) (ehdr : Elf64_Ehdr)
    (shstrtabhdr : Elf64_Shdr) (r : BinaryReader) : Except Fault (Found × BinaryReader) :=
  (List.range ehdr.e_shnum).foldlM (scan_step host data ehdr shstrtabhdr)
    ({ sho_text := none, sho_symtab := none, sho_strtab := none }, r)

/-- The three section headers the rest of `main` uses (lines 180-182). -/
structure Sections where
  sh_text : Elf64_Shdr
  sh_symtab : Elf64_Shdr
  sh_strtab : Elf64_Shdr
  deriving DecidableEq, Repr

/-- Lines 174-182: the test that all three optionals hold a header. -/
def require_sections (f : Found) : Except Fault Sections :=
  match f.sho_text, f.sho_symtab, f.sho_strtab with
  | some sh_text, some sh_symtab, some sh_strtab => .ok { sh_text, sh_symtab, sh_strtab }
  | _, _, _ => .error .missingRequiredSection

/-- Lines 146-182: the section header string table is located, the section headers are
scanned by name, and the three required headers are returned. -/
def find_sections (host : Endian) (data : List UInt8) (ehdr : Elf64_Ehdr)
    (r : BinaryReader) : Except Fault (Sections × BinaryReader) := do
  let (shstrtabhdr, r) ← read_shdr_at host data ehdr ehdr.e_shstrndx r
  check_strtab data .shstrtabInFile shstrtabhdr
  let (found, r) ← scan_sections host data ehdr shstrtabhdr r
  let secs ← require_sections found
  .ok (secs, r)

/-! ## The symbol table (lines 184-209) -/

/-- Lines 192-206: one symbol record, in the field order of the file class. -/
def read_sym (host : Endian) (data : List UInt8) (ehdr : Elf64_Ehdr) (r : BinaryReader) :
    Except Fault (Elf64_Sym × BinaryReader) :=
  if is_class32 ehdr.e_ident then do
    let (st_name, r) ← read_u32 host data r
    let (st_value, r) ← read_ptr host data r
    let (st_size, r) ← read_ptr host data r
    let (st_info, r) ← read_u8 host data r
    let (st_other, r) ← read_u8 host data r
    let (st_shndx, r) ← read_u16 host data r
    .ok ({ st_name, st_info, st_other, st_shndx, st_value, st_size }, r)
  else do
    let (st_name, r) ← read_u32 host data r
    let (st_info, r) ← read_u8 host data r
    let (st_other, r) ← read_u8 host data r
    let (st_shndx, r) ← read_u16 host data r
    let (st_value, r) ← read_ptr host data r
    let (st_size, r) ← read_ptr host data r
    .ok ({ st_name, st_info, st_other, st_shndx, st_value, st_size }, r)

/-- Lines 189-209: the loop over the `n` elements of `syms`, from the current cursor. -/
def read_syms (host : Endian) (data : List UInt8) (ehdr : Elf64_Ehdr)
    (sh_strtab : Elf64_Shdr) : Nat → BinaryReader → Except Fault (List Symbol × BinaryReader)
  | 0, r => .ok ([], r)
  | n + 1, r => do
    let (sym, r) ← read_sym host data ehdr r
    if ¬ (sym.st_name < sh_strtab.sh_size) then
      .error (.assertFailed .symbolName)
    else do
      let (rest, r) ← read_syms host data ehdr sh_strtab n r
      .ok ((sym, sh_strtab.sh_offset + sym.st_name) :: rest, r)

/-- Line 188: the number of elements of `syms`, `sh_symtab.sh_size / sh_symtab.sh_entsize`,
a `uint64_t` division. -/
def symbol_count (sh_symtab : Elf64_Shdr) : Except Fault Nat :=
  if sh_symtab.sh_entsize = 0 then
    .error (.undefinedBehaviour .divisionByZero)
  else
    .ok (sh_symtab.sh_size / sh_symtab.sh_entsize)

/-- The number of elements above which the constructor of
`std::vector<std::pair<ELF::Elf64_Sym, const char*>>` throws `std::length_error`:
`max_size()`, which for the 32-byte element (a 24-byte `Elf64_Sym` and a pointer) is
`PTRDIFF_MAX / 32` where `std::size_t` has 64 bits. -/
def vector_max_size : Nat := (2 ^ 63 - 1) / 32

/-- Line 188: the construction of `syms` with `n` elements. -/
def make_syms (n : Nat) : Except Fault Unit :=
  if n > vector_max_size then .error .lengthError else .ok ()

/-- Lines 184-209: the symbols, read with the reader as the section scan left it. -/
def parse_symbols (host : Endian) (data : List UInt8) (ehdr : Elf64_Ehdr) (secs : Sections)
    (r : BinaryReader) : Except Fault (List Symbol × BinaryReader) := do
  check_strtab data .strtabInFile secs.sh_strtab
  let n ← symbol_count secs.sh_symtab
  make_syms n
  read_syms host data ehdr secs.sh_strtab n r

/-- What lines 104-209 leave behind for the dump. -/
structure Parsed where
  ehdr : Elf64_Ehdr
  secs : Sections
  syms : List Symbol
  bin : BinaryReader
  deriving DecidableEq, Repr

/-- Lines 104-209 of `main`. -/
def parse (host : Endian) (data : List UInt8) : Except Fault Parsed := do
  let (ehdr, r) ← read_ehdr host data
  let (secs, r) ← find_sections host data ehdr r
  let (syms, r) ← parse_symbols host data ehdr secs r
  .ok { ehdr, secs, syms, bin := r }

/-! ## The vtable dump (lines 216-317) -/

/-- One printed member of a table: the demangled name (`demangle_buf`) and the raw name
(`func_sym->second`). -/
structure Member where
  name : List UInt8
  name_mangled : List UInt8
  deriving DecidableEq, Repr

/-- One printed table: the class name, the raw name of the vtable symbol, the members. -/
structure VTable where
  classname : List UInt8
  classname_mangled : List UInt8
  members : List Member
  deriving DecidableEq, Repr

/-- The literal "_ZTV". -/
def ZTV : List UInt8 := [0x5f, 0x5a, 0x54, 0x56]

/-- The literal "vtable for ", the label line 237 skips. -/
def vtable_for : List UInt8 :=
  [0x76, 0x74, 0x61, 0x62, 0x6c, 0x65, 0x20, 0x66, 0x6f, 0x72, 0x20]

/-- Line 219: `ptr_size`. -/
def ptr_size (ehdr : Elf64_Ehdr) : Nat :=
  if is_class32 ehdr.e_ident then 4 else 8

/-- Line 273, negated: the value passes the test "address points to valid code".  The
upper end `sh_text.sh_offset + sh_text.sh_size` is a `uint64_t` sum. -/
def in_code (sh_text : Elf64_Shdr) (value : Nat) : Bool :=
  !(decide (value < sh_text.sh_offset) ||
    decide (value ≥ (sh_text.sh_offset + sh_text.sh_size) % WORD))

/-- Line 278: `std::find_if` over `syms` with the test `s.first.st_value == value`. -/
def find_func_sym (syms : List Symbol) (value : Nat) : Option Symbol :=
  syms.find? (fun s => s.1.st_value == value)

/-- Line 265: the offset of the slot of index `i`, a `size_t` expression. -/
def slot_offset (ptr_size : Nat) (sym : Symbol) (i : Nat) : Nat :=
  (sym.1.st_value + (i + 3) * ptr_size) % WORD

/-- How one pass through the body of the walk loop ends. -/
inductive SlotResult
  /-- Line 274: `break`, the value is not a code address. -/
  | nonCode
  /-- Line 280: `continue`, no symbol has this value. -/
  | noSymbol
  /-- Line 289: `break`, the demangler rejected the name. -/
  | demangleFailed
  /-- Lines 292-310: the member is printed. -/
  | entry (m : Member)
  /-- The assertion of line 266 failed, or the behaviour is undefined. -/
  | fault (f : Fault)
  deriving DecidableEq, Repr

/-- Lines 272-310: what the loop body does with the value read from the slot. -/
def slot_entry (demangle : List UInt8 → Option (List UInt8)) (data : List UInt8)
    (syms : List Symbol) (sh_text : Elf64_Shdr) (value : Nat) : SlotResult :=
  if ¬ in_code sh_text value then
    .nonCode
  else
    match find_func_sym syms value with
    | none => .noSymbol
    | some func_sym =>
      match cstr data func_sym.2 with
      | none => .fault (.undefinedBehaviour .unterminatedString)
      | some mangled =>
        match demangle mangled with
        | none => .demangleFailed
        | some name => .entry { name := name, name_mangled := mangled }

/-- Lines 265-310: the body of the walk loop for index `i`. -/
def walk_slot (host : Endian) (demangle : List UInt8 → Option (List UInt8))
    (data : List UInt8) (syms : List Symbol) (sh_text : Elf64_Shdr) (ptr_size : Nat)
    (sym : Symbol) (i : Nat) (r : BinaryReader) : SlotResult × BinaryReader :=
  let off := slot_offset ptr_size sym i
  if ¬ (off < data.length) then
    (.fault (.assertFailed .walkOffset), r)
  else
    match read_ptr host data (r.seek off) with
    | .error f => (.fault f, r.seek off)
    | .ok (value, r) => (slot_entry demangle data syms sh_text value, r)

/-- Why the walk loop was left. -/
inductive Stop
  | nonCode
  | demangleFailed
  | fault (f : Fault)
  deriving DecidableEq, Repr

/-- The state when the walk loop is left: the members printed, the value of `i`, the
reason, and the reader. -/
structure WalkResult where
  members : List Member
  last : Nat
  stop : Stop
  bin : BinaryReader
  deriving DecidableEq, Repr

/-- Lines 264-311: the loop `for (size_t i = 0; ; ++i)`, entered at index `i` with the
members `acc` already printed.  The loop has no bound of its own; `fuel` bounds the
number of passes, and `none` means the fuel ran out. -/
def walk_from (host : Endian) (demangle : List UInt8 → Option (List UInt8))
    (data : List UInt8) (syms : List Symbol) (sh_text : Elf64_Shdr) (ptr_size : Nat)
    (sym : Symbol) : Nat → Nat → BinaryReader → List Member → Option WalkResult
  | 0, _, _, _ => none
  | fuel + 1, i, r, acc =>
    match walk_slot host demangle data syms sh_text ptr_size sym i r with
    | (.nonCode, r) => some { members := acc, last := i, stop := .nonCode, bin := r }
    | (.noSymbol, r) =>
      walk_from host demangle data syms sh_text ptr_size sym fuel (i + 1) r acc
    | (.demangleFailed, r) =>
      some { members := acc, last := i, stop := .demangleFailed, bin := r }
    | (.entry m, r) =>
      walk_from host demangle data syms sh_text ptr_size sym fuel (i + 1) r (acc ++ [m])
    | (.fault f, r) => some { members := acc, last := i, stop := .fault f, bin := r }

/-- Lines 263-311: the walk of one candidate. -/
def walk (host : Endian) (demangle : List UInt8 → Option (List UInt8))
    (data : List UInt8) (syms : List Symbol) (sh_text : Elf64_Shdr) (ptr_size : Nat)
    (sym : Symbol) (fuel : Nat) (r : BinaryReader) : Option WalkResult :=
  walk_from host demangle data syms sh_text ptr_size sym fuel 0 r []

/-- Lines 222-242: the tests a symbol passes before its table is walked.  The result is
`none` after one of the three `continue`s, else the class name and the raw name. -/
def select_candidate (demangle : List UInt8 → Option (List UInt8))
    (filter : Option (List UInt8 → Bool)) (data : List UInt8) (sym : Symbol) :
    Except Fault (Option (List UInt8 × List UInt8)) :=
  match strncmp_eq data sym.2 ZTV with
  | .error f => .error f
  | .ok false => .ok none
  | .ok true =>
    match cstr data sym.2 with
    | none => .error (.undefinedBehaviour .unterminatedString)
    | some mangled =>
      match demangle mangled with
      | none => .ok none
      | some demangle_buf =>
        if demangle_buf.length < 11 then
          .error (.undefinedBehaviour .indexOutsideName)
        else
          let classname := demangle_buf.drop 11
          match filter with
          | some regex_match =>
            if ¬ regex_match classname then .ok none else .ok (some (classname, mangled))
          | none => .ok (some (classname, mangled))

/-- What a run printed and how it ended: `fault = none` is the return of `EXIT_SUCCESS`. -/
structure Output where
  tables : List VTable
  fault : Option Fault
  deriving DecidableEq, Repr

/-- Lines 221-317: the loop over `syms`, from the symbols still to visit, the reader and
the tables printed so far.  `none` means a walk ran out of fuel. -/
def dump (host : Endian) (demangle : List UInt8 → Option (List UInt8))
    (filter : Option (List UInt8 → Bool)) (data : List UInt8) (syms : List Symbol)
    (sh_text : Elf64_Shdr) (ptr_size : Nat) (fuel : Nat) :
    List Symbol → BinaryReader → List VTable → Option Output
  | [], _, out => some { tables := out, fault := none }
  | sym :: rest, r, out =>
    match select_candidate demangle filter data sym with
    | .error f => some { tables := out, fault := some f }
    | .ok none => dump host demangle filter data syms sh_text ptr_size fuel rest r out
    | .ok (some (classname, mangled)) =>
      match walk host demangle data syms sh_text ptr_size sym fuel r with
      | none => none
      | some w =>
        let table : VTable :=
          { classname := classname, classname_mangled := mangled, members := w.members }
        match w.stop with
        | .fault f => some { tables := out ++ [table], fault := some f }
        | _ =>
          dump host demangle filter data syms sh_text ptr_size fuel rest w.bin
            (out ++ [table])

/-- The program: lines 104-327 of `main` on the loaded file. -/
def run (host : Endian) (demangle : List UInt8 → Option (List UInt8))
    (filter : Option (List UInt8 → Bool)) (fuel : Nat) (data : List UInt8) :
    Option Output :=
  match parse host data with
  | .error f => some { tables := [], fault := some f }
  | .ok p =>
    dump host demangle filter data p.syms p.secs.sh_text (ptr_size p.ehdr) fuel
      p.syms p.bin []

/-! ## Vocabulary of the statements -/

/-- A result satisfies `Q` when it is a value and `E` when it is a fault. -/
def Spec {α : Type} (Q : α → Prop) (E : Fault → Prop) (x : Except Fault α) : Prop :=
  match x with
  | .ok a => Q a
  | .error e => E e

/-- The fault is a failed assertion, an uncaught exception or undefined behaviour: not
one of the two error exits of `main`. -/
def Fault.isAbort (e : Fault) : Prop :=
  e ≠ .notAnObjectFile ∧ e ≠ .missingRequiredSection

/-- What every sequence of reads guarantees: the width flag is kept, and a fault is an
abort. -/
def Reads {α : Type} (r : BinaryReader) (x : Except Fault (α × BinaryReader)) : Prop :=
  Spec (fun p => p.2.is_32bit = r.is_32bit) Fault.isAbort x


/-- The magic signature as file bytes: `0x7f 'E' 'L' 'F'`. -/
def ElfMagicBytes : List UInt8 := [0x7f, 0x45, 0x4c, 0x46]

/-- The name of section header `i`: the string at `&shstrtab[shdr.sh_name]` for the header
that line 160 reads at index `i` (`none` when the header or the string cannot be read). -/
def section_name (host : Endian) (data : List UInt8) (ehdr : Elf64_Ehdr)
    (shstrtabhdr : Elf64_Shdr) (r : BinaryReader) (i : Nat) : Option (List UInt8) :=
  match read_shdr_at host data ehdr i r with
  | .ok (shdr, _) => cstr data (shstrtabhdr.sh_offset + shdr.sh_name)
  | .error _ => none

/-- The section header of the highest index below `m` whose name is `lit`. -/
def last_named (host : Endian) (data : List UInt8) (ehdr : Elf64_Ehdr)
    (shstrtabhdr : Elf64_Shdr) (r : BinaryReader) (lit : List UInt8) :
    Nat → Option Elf64_Shdr
  | 0 => none
  | m + 1 =>
    if section_name host data ehdr shstrtabhdr r m = some lit then
      match read_shdr_at host data ehdr m r with
      | .ok (shdr, _) => some shdr
      | .error _ => none
    else
      last_named host data ehdr shstrtabhdr r lit m

/-- Among the `e_shnum` section headers there is one named `lit`. -/
def has_section (host : Endian) (data : List UInt8) (ehdr : Elf64_Ehdr)
    (shstrtabhdr : Elf64_Shdr) (r : BinaryReader) (lit : List UInt8) : Prop :=
  ∃ i, i < ehdr.e_shnum ∧ section_name host data ehdr shstrtabhdr r i = some lit

/-- Section header `i` can be read and its name offset passes the assertion of line
162. -/
def name_in_bounds (host : Endian) (data : List UInt8) (ehdr : Elf64_Ehdr)
    (shstrtabhdr : Elf64_Shdr) (r : BinaryReader) (i : Nat) : Bool :=
  match read_shdr_at host data ehdr i r with
  | .ok (shdr, _) => decide (shdr.sh_name < shstrtabhdr.sh_size)
  | .error _ => false

/-- The bytes from `p` to the end of the buffer are an initial part of `lit`: a
comparison of the string at `p` with `lit` finds no difference inside the buffer and
reads past its end. -/
def reads_past_end (data : List UInt8) (p : Nat) (lit : List UInt8) : Bool :=
  data.drop p == lit.take (data.length - p)

/-- The name of section header `i` is cut off by the end of the buffer while it agrees
with one of the three required names: a comparison of lines 165-169 reads past the end
of the buffer. -/
def name_cut (host : Endian) (data : List UInt8) (ehdr : Elf64_Ehdr)
    (shstrtabhdr : Elf64_Shdr) (r : BinaryReader) (i : Nat) : Bool :=
  match read_shdr_at host data ehdr i r with
  | .ok (shdr, _) =>
    reads_past_end data (shstrtabhdr.sh_offset + shdr.sh_name) dot_text ||
    reads_past_end data (shstrtabhdr.sh_offset + shdr.sh_name) dot_symtab ||
    reads_past_end data (shstrtabhdr.sh_offset + shdr.sh_name) dot_strtab
  | .error _ => false

/-- The number of bytes `read_ptr` loads: 4 with the 32-bit flag, else 8. -/
def ptr_width (r : BinaryReader) : Nat :=
  if r.is_32bit then 4 else 8

/-- The pointer-sized value stored at buffer offset `off`: the `w` bytes from `off` on, in
the byte order of the host; `none` when they do not all lie inside the buffer. -/
def ptr_at (host : Endian) (data : List UInt8) (w : Nat) (off : Nat) : Option Nat :=
  if off + w ≤ data.length then some (hostValue host ((data.drop off).take w)) else none

/-- The value the loop body of the walk obtains for index `i` (lines 265-270); `none` when
the assertion of line 266 fails or the load is undefined. -/
def slot_value (host : Endian) (data : List UInt8) (ptr_size : Nat) (sym : Symbol)
    (r : BinaryReader) (i : Nat) : Option Nat :=
  if slot_offset ptr_size sym i < data.length then
    match read_ptr host data (r.seek (slot_offset ptr_size sym i)) with
    | .ok (value, _) => some value
    | .error _ => none
  else
    none

/-- How the pass of index `i` ends, for a reader with the width flag of `r`. -/
def slot_result (host : Endian) (demangle : List UInt8 → Option (List UInt8))
    (data : List UInt8) (syms : List Symbol) (sh_text : Elf64_Shdr) (ptr_size : Nat)
    (sym : Symbol) (r : BinaryReader) (i : Nat) : SlotResult :=
  (walk_slot host demangle data syms sh_text ptr_size sym i r).1

/-- The loop goes on to the next index: the pass printed a member or found no symbol. -/
def continues : SlotResult → Bool
  | .entry _ => true
  | .noSymbol => true
  | _ => false

/-- The member a pass prints, if any. -/
def slot_members : SlotResult → List Member
  | .entry m => [m]
  | _ => []

/-- The members printed by the passes of index `i`, ..., `i + n - 1`, in order. -/
def members_of (f : Nat → SlotResult) : Nat → Nat → List Member
  | _, 0 => []
  | i, n + 1 => slot_members (f i) ++ members_of f (i + 1) n

/-- The header under which the table of `sym` is printed if the loop body reaches the
walk for it (lines 263-311); `none` if the symbol is passed over. -/
def selected (demangle : List UInt8 → Option (List UInt8))
    (filter : Option (List UInt8 → Bool)) (data : List UInt8) (sym : Symbol) :
    Option (List UInt8 × List UInt8) :=
  match select_candidate demangle filter data sym with
  | .ok (some header) => some header
  | _ => none

/-- The `w` bytes that store the value `v` in little-endian order. -/
def leBytes : Nat → Nat → List UInt8
  | 0, _ => []
  | w + 1, v => UInt8.ofNat (v % 256) :: leBytes w (v / 256)

/-- The `w` bytes that store the value `v` in the byte order of the host. -/
def hostBytes (host : Endian) (w v : Nat) : List UInt8 :=
  match host with
  | .little => leBytes w v
  | .big => (leBytes w v).reverse

/-- The 16-byte layout of a symbol record in a 32-bit file, in the words of the
specification: name, value, size, info, other, section index. -/
def layout32 (host : Endian) (s : Elf64_Sym) : List UInt8 :=
  hostBytes host 4 s.st_name ++ hostBytes host 4 s.st_value ++ hostBytes host 4 s.st_size ++
    hostBytes host 1 s.st_info ++ hostBytes host 1 s.st_other ++ hostBytes host 2 s.st_shndx

/-- The 24-byte layout of a symbol record in a 64-bit file, in the words of the
specification: name, info, other, section index, value, size. -/
def layout64 (host : Endian) (s : Elf64_Sym) : List UInt8 :=
  hostBytes host 4 s.st_name ++ hostBytes host 1 s.st_info ++ hostBytes host 1 s.st_other ++
    hostBytes host 2 s.st_shndx ++ hostBytes host 8 s.st_value ++ hostBytes host 8 s.st_size

/-- The unsigned integer stored in the `w` bytes of the buffer from offset `off` on, in
the byte order of the host. -/
def int_at (host : Endian) (data : List UInt8) (off w : Nat) : Nat :=
  hostValue host ((data.drop off).take w)

/-- The number of passes of a walk that read a slot (lines 269-270): every pass up to
the one at which the loop is left, except a pass that fails the assertion of line 266,
which comes before the read. -/
def slot_reads (w : WalkResult) : Nat :=
  if w.stop = .fault (.assertFailed .walkOffset) then w.last else w.last + 1

/-! ## Concrete inputs -/

/-- A relocatable 32-bit little-endian object of 296 bytes.  After the 52-byte header come
`.text` (offset 52, 8 bytes), `.symtab` (offset 60, three records of 16 bytes: the null
symbol, `a` with value 52 and `b` with value 56, both of size 4, info 0x12, section 1),
`.strtab` (offset 108, 27 bytes, which also holds the section names) and, from offset 136
to the end of the file, the four section headers (null, `.text`, `.symtab`,
`.strtab`). -/
def elf32_example : List UInt8 := [
   0x7f, 0x45, 0x4c, 0x46, 0x01, 0x01, 0x01, 0x00, 0x00, 0x00, 0x00, 0x00, 0x00, 0x00, 0x00, 0x00,
   0x01, 0x00, 0x03, 0x00, 0x01, 0x00, 0x00, 0x00, 0x00, 0x00, 0x00, 0x00, 0x00, 0x00, 0x00, 0x00,
   0x88, 0x00, 0x00, 0x00, 0x00, 0x00, 0x00, 0x00, 0x34, 0x00, 0x00, 0x00, 0x00, 0x00, 0x28, 0x00,
   0x04, 0x00, 0x03, 0x00, 0xc3, 0xc3, 0xc3, 0xc3, 0xc3, 0xc3, 0xc3, 0xc3, 0x00, 0x00, 0x00, 0x00,
   0x00, 0x00, 0x00, 0x00, 0x00, 0x00, 0x00, 0x00, 0x00, 0x00, 0x00, 0x00, 0x17, 0x00, 0x00, 0x00,
   0x34, 0x00, 0x00, 0x00, 0x04, 0x00, 0x00, 0x00, 0x12, 0x00, 0x01, 0x00, 0x19, 0x00, 0x00, 0x00,
   0x38, 0x00, 0x00, 0x00, 0x04, 0x00, 0x00, 0x00, 0x12, 0x00, 0x01, 0x00, 0x00, 0x2e, 0x74, 0x65,
   0x78, 0x74, 0x00, 0x2e, 0x73, 0x79, 0x6d, 0x74, 0x61, 0x62, 0x00, 0x2e, 0x73, 0x74, 0x72, 0x74,
   0x61, 0x62, 0x00, 0x61, 0x00, 0x62, 0x00, 0x00, 0x00, 0x00, 0x00, 0x00, 0x00, 0x00, 0x00, 0x00,
   0x00, 0x00, 0x00, 0x00, 0x00, 0x00, 0x00, 0x00, 0x00, 0x00, 0x00, 0x00, 0x00, 0x00, 0x00, 0x00,
   0x00, 0x00, 0x00, 0x00, 0x00, 0x00, 0x00, 0x00, 0x00, 0x00, 0x00, 0x00, 0x00, 0x00, 0x00, 0x00,
   0x01, 0x00, 0x00, 0x00, 0x01, 0x00, 0x00, 0x00, 0x06, 0x00, 0x00, 0x00, 0x00, 0x00, 0x00, 0x00,
   0x34, 0x00, 0x00, 0x00, 0x08, 0x00, 0x00, 0x00, 0x00, 0x00, 0x00, 0x00, 0x00, 0x00, 0x00, 0x00,
   0x04, 0x00, 0x00, 0x00, 0x00, 0x00, 0x00, 0x00, 0x07, 0x00, 0x00, 0x00, 0x02, 0x00, 0x00, 0x00,
   0x00, 0x00, 0x00, 0x00, 0x00, 0x00, 0x00, 0x00, 0x3c, 0x00, 0x00, 0x00, 0x30, 0x00, 0x00, 0x00,
   0x03, 0x00, 0x00, 0x00, 0x01, 0x00, 0x00, 0x00, 0x04, 0x00, 0x00, 0x00, 0x10, 0x00, 0x00, 0x00,
   0x0f, 0x00, 0x00, 0x00, 0x03, 0x00, 0x00, 0x00, 0x00, 0x00, 0x00, 0x00, 0x00, 0x00, 0x00, 0x00,
   0x6c, 0x00, 0x00, 0x00, 0x1b, 0x00, 0x00, 0x00, 0x00, 0x00, 0x00, 0x00, 0x00, 0x00, 0x00, 0x00,
   0x01, 0x00, 0x00, 0x00, 0x00, 0x00, 0x00, 0x00]

/-- The 64-byte header of a 64-bit little-endian object whose `e_shoff` field is
`0xFFFFFFFFFFFFFFFF`. -/
def elf64_wild_shoff : List UInt8 := [
   0x7f, 0x45, 0x4c, 0x46, 0x02, 0x01, 0x01, 0x00, 0x00, 0x00, 0x00, 0x00, 0x00, 0x00, 0x00, 0x00,
   0x01, 0x00, 0x3e, 0x00, 0x01, 0x00, 0x00, 0x00, 0x00, 0x00, 0x00, 0x00, 0x00, 0x00, 0x00, 0x00,
   0x00, 0x00, 0x00, 0x00, 0x00, 0x00, 0x00, 0x00, 0xff, 0xff, 0xff, 0xff, 0xff, 0xff, 0xff, 0xff,
   0x00, 0x00, 0x00, 0x00, 0x40, 0x00, 0x00, 0x00, 0x00, 0x00, 0x40, 0x00, 0x00, 0x00, 0x00, 0x00]

/-- The file header of `elf32_example`. -/
def elf32_ehdr : Elf64_Ehdr :=
  { e_ident := [0x7f, 0x45, 0x4c, 0x46, 1, 1, 1, 0, 0, 0, 0, 0, 0, 0, 0, 0],
    e_type := 1, e_machine := 3, e_version := 1, e_entry := 0, e_phoff := 0, e_shoff := 136,
    e_flags := 0, e_ehsize := 52, e_phentsize := 0, e_phnum := 0, e_shentsize := 40,
    e_shnum := 4, e_shstrndx := 3 }

/-- The header of `.strtab` in `elf32_example`, which is also its section header string
table. -/
def elf32_strtab : Elf64_Shdr :=
  { sh_name := 15, sh_type := 3, sh_flags := 0, sh_addr := 0, sh_offset := 108,
    sh_size := 27, sh_link := 0, sh_info := 0, sh_addralign := 1, sh_entsize := 0 }

/-- A 36-byte buffer with a 32-bit little-endian vtable at offset 0: three reserved slots
(offsets 0-11), the slots 100, 104, 108 and 0 (offsets 12, 16, 20, 24), and the strings
"f", "g", "x", "h" at offsets 28, 30, 32, 34. -/
def vt_buf : List UInt8 := [
   0x00, 0x00, 0x00, 0x00, 0x00, 0x00, 0x00, 0x00, 0x00, 0x00, 0x00, 0x00,
   0x64, 0x00, 0x00, 0x00, 0x68, 0x00, 0x00, 0x00, 0x6c, 0x00, 0x00, 0x00,
   0x00, 0x00, 0x00, 0x00, 0x66, 0x00, 0x67, 0x00, 0x78, 0x00, 0x68, 0x00]

/-- A code section that covers the addresses 100 to 111. -/
def vt_text : Elf64_Shdr :=
  { sh_name := 1, sh_type := 1, sh_flags := 6, sh_addr := 0, sh_offset := 100, sh_size := 12,
    sh_link := 0, sh_info := 0, sh_addralign := 4, sh_entsize := 0 }

/-- A symbol with the given value whose name starts at the given offset of `vt_buf`. -/
def vt_symbol (value name : Nat) : Symbol :=
  ({ st_name := name - 28, st_info := 0x12, st_other := 0, st_shndx := 1, st_value := value,
     st_size := 4 }, name)

/-- The vtable symbol of `vt_buf`: its value is 0. -/
def vt_candidate : Symbol :=
  ({ st_name := 0, st_info := 0x11, st_other := 0, st_shndx := 2, st_value := 0,
     st_size := 28 }, 28)

/-- A demangler that accepts every name, unchanged. -/
def demangle_any : List UInt8 → Option (List UInt8) :=
  fun mangled => some mangled

/-- A demangler that rejects the name "x" and accepts every other name, unchanged. -/
def demangle_but_x : List UInt8 → Option (List UInt8) :=
  fun mangled => if mangled = [0x78] then none else some mangled

/-- A 29-byte buffer with a 32-bit little-endian vtable at offset 0: three reserved slots,
the slots 100 and 0 (offsets 12 and 16), and the strings "_ZTV1A" and "f" at offsets 20
and 27. -/
def dump_buf : List UInt8 := [
   0x00, 0x00, 0x00, 0x00, 0x00, 0x00, 0x00, 0x00, 0x00, 0x00, 0x00, 0x00,
   0x64, 0x00, 0x00, 0x00, 0x00, 0x00, 0x00, 0x00,
   0x5f, 0x5a, 0x54, 0x56, 0x31, 0x41, 0x00, 0x66, 0x00]

/-- A demangler that maps "_ZTV1A" to "vtable for A" and leaves every other name as it
is. -/
def demangle_A : List UInt8 → Option (List UInt8) :=
  fun mangled =>
    if mangled = [0x5f, 0x5a, 0x54, 0x56, 0x31, 0x41] then some (vtable_for ++ [0x41])
    else some mangled

/-- The file header of `elf32_example` with the class byte of a 64-bit object. -/
def elf64_ehdr : Elf64_Ehdr :=
  { elf32_ehdr with e_ident := [0x7f, 0x45, 0x4c, 0x46, 2, 1, 1, 0, 0, 0, 0, 0, 0, 0, 0, 0] }

/-- The content of the symbol `a` of `elf32_example`. -/
def sym_a : Elf64_Sym :=
  { st_name := 23, st_info := 0x12, st_other := 0, st_shndx := 1, st_value := 52,
    st_size := 4 }

/-- A 32-bit little-endian object of 316 bytes that passes header, section and symbol
parsing: `.text` (offset 52, 8 bytes), `.strtab` (offset 60, 32 bytes, also the section
header string table), the four section headers (offsets 92-251), `.symtab` right behind
them (offset 252, three records: the null symbol, `_ZTV1A` with value 300, `f` with value
52), and at offset 300, up to the end of the file, a vtable of three reserved slots and
one slot that holds 52. -/
def elf32_walk_off_end : List UInt8 := [
   0x7f, 0x45, 0x4c, 0x46, 0x01, 0x01, 0x01, 0x00, 0x00, 0x00, 0x00, 0x00, 0x00, 0x00, 0x00, 0x00,
   0x01, 0x00, 0x03, 0x00, 0x01, 0x00, 0x00, 0x00, 0x00, 0x00, 0x00, 0x00, 0x00, 0x00, 0x00, 0x00,
   0x5c, 0x00, 0x00, 0x00, 0x00, 0x00, 0x00, 0x00, 0x34, 0x00, 0x00, 0x00, 0x00, 0x00, 0x28, 0x00,
   0x04, 0x00, 0x02, 0x00, 0xc3, 0xc3, 0xc3, 0xc3, 0xc3, 0xc3, 0xc3, 0xc3, 0x00, 0x2e, 0x74, 0x65,
   0x78, 0x74, 0x00, 0x2e, 0x73, 0x79, 0x6d, 0x74, 0x61, 0x62, 0x00, 0x2e, 0x73, 0x74, 0x72, 0x74,
   0x61, 0x62, 0x00, 0x5f, 0x5a, 0x54, 0x56, 0x31, 0x41, 0x00, 0x66, 0x00, 0x00, 0x00, 0x00, 0x00,
   0x00, 0x00, 0x00, 0x00, 0x00, 0x00, 0x00, 0x00, 0x00, 0x00, 0x00, 0x00, 0x00, 0x00, 0x00, 0x00,
   0x00, 0x00, 0x00, 0x00, 0x00, 0x00, 0x00, 0x00, 0x00, 0x00, 0x00, 0x00, 0x00, 0x00, 0x00, 0x00,
   0x00, 0x00, 0x00, 0x00, 0x01, 0x00, 0x00, 0x00, 0x01, 0x00, 0x00, 0x00, 0x06, 0x00, 0x00, 0x00,
   0x00, 0x00, 0x00, 0x00, 0x34, 0x00, 0x00, 0x00, 0x08, 0x00, 0x00, 0x00, 0x00, 0x00, 0x00, 0x00,
   0x00, 0x00, 0x00, 0x00, 0x04, 0x00, 0x00, 0x00, 0x00, 0x00, 0x00, 0x00, 0x0f, 0x00, 0x00, 0x00,
   0x03, 0x00, 0x00, 0x00, 0x00, 0x00, 0x00, 0x00, 0x00, 0x00, 0x00, 0x00, 0x3c, 0x00, 0x00, 0x00,
   0x20, 0x00, 0x00, 0x00, 0x00, 0x00, 0x00, 0x00, 0x00, 0x00, 0x00, 0x00, 0x01, 0x00, 0x00, 0x00,
   0x00, 0x00, 0x00, 0x00, 0x07, 0x00, 0x00, 0x00, 0x02, 0x00, 0x00, 0x00, 0x00, 0x00, 0x00, 0x00,
   0x00, 0x00, 0x00, 0x00, 0xfc, 0x00, 0x00, 0x00, 0x30, 0x00, 0x00, 0x00, 0x02, 0x00, 0x00, 0x00,
   0x01, 0x00, 0x00, 0x00, 0x04, 0x00, 0x00, 0x00, 0x10, 0x00, 0x00, 0x00, 0x00, 0x00, 0x00, 0x00,
   0x00, 0x00, 0x00, 0x00, 0x00, 0x00, 0x00, 0x00, 0x00, 0x00, 0x00, 0x00, 0x17, 0x00, 0x00, 0x00,
   0x2c, 0x01, 0x00, 0x00, 0x10, 0x00, 0x00, 0x00, 0x11, 0x00, 0x04, 0x00, 0x1e, 0x00, 0x00, 0x00,
   0x34, 0x00, 0x00, 0x00, 0x08, 0x00, 0x00, 0x00, 0x12, 0x00, 0x01, 0x00, 0x00, 0x00, 0x00, 0x00,
   0x00, 0x00, 0x00, 0x00, 0x00, 0x00, 0x00, 0x00, 0x34, 0x00, 0x00, 0x00]

/-- A 32-bit little-endian object of 295 bytes whose last section is `.strtab` (offset
268, 27 bytes, also the section header string table): it ends with the last byte of the
file.  The section headers stand at offsets 52-211, `.text` at 212, `.symtab` at 220. -/
def elf32_strtab_at_end : List UInt8 := [
   0x7f, 0x45, 0x4c, 0x46, 0x01, 0x01, 0x01, 0x00, 0x00, 0x00, 0x00, 0x00, 0x00, 0x00, 0x00, 0x00,
   0x01, 0x00, 0x03, 0x00, 0x01, 0x00, 0x00, 0x00, 0x00, 0x00, 0x00, 0x00, 0x00, 0x00, 0x00, 0x00,
   0x34, 0x00, 0x00, 0x00, 0x00, 0x00, 0x00, 0x00, 0x34, 0x00, 0x00, 0x00, 0x00, 0x00, 0x28, 0x00,
   0x04, 0x00, 0x03, 0x00, 0x00, 0x00, 0x00, 0x00, 0x00, 0x00, 0x00, 0x00, 0x00, 0x00, 0x00, 0x00,
   0x00, 0x00, 0x00, 0x00, 0x00, 0x00, 0x00, 0x00, 0x00, 0x00, 0x00, 0x00, 0x00, 0x00, 0x00, 0x00,
   0x00, 0x00, 0x00, 0x00, 0x00, 0x00, 0x00, 0x00, 0x00, 0x00, 0x00, 0x00, 0x01, 0x00, 0x00, 0x00,
   0x01, 0x00, 0x00, 0x00, 0x06, 0x00, 0x00, 0x00, 0x00, 0x00, 0x00, 0x00, 0xd4, 0x00, 0x00, 0x00,
   0x08, 0x00, 0x00, 0x00, 0x00, 0x00, 0x00, 0x00, 0x00, 0x00, 0x00, 0x00, 0x04, 0x00, 0x00, 0x00,
   0x00, 0x00, 0x00, 0x00, 0x07, 0x00, 0x00, 0x00, 0x02, 0x00, 0x00, 0x00, 0x00, 0x00, 0x00, 0x00,
   0x00, 0x00, 0x00, 0x00, 0xdc, 0x00, 0x00, 0x00, 0x30, 0x00, 0x00, 0x00, 0x03, 0x00, 0x00, 0x00,
   0x01, 0x00, 0x00, 0x00, 0x04, 0x00, 0x00, 0x00, 0x10, 0x00, 0x00, 0x00, 0x0f, 0x00, 0x00, 0x00,
   0x03, 0x00, 0x00, 0x00, 0x00, 0x00, 0x00, 0x00, 0x00, 0x00, 0x00, 0x00, 0x0c, 0x01, 0x00, 0x00,
   0x1b, 0x00, 0x00, 0x00, 0x00, 0x00, 0x00, 0x00, 0x00, 0x00, 0x00, 0x00, 0x01, 0x00, 0x00, 0x00,
   0x00, 0x00, 0x00, 0x00, 0xc3, 0xc3, 0xc3, 0xc3, 0xc3, 0xc3, 0xc3, 0xc3, 0x00, 0x00, 0x00, 0x00,
   0x00, 0x00, 0x00, 0x00, 0x00, 0x00, 0x00, 0x00, 0x00, 0x00, 0x00, 0x00, 0x17, 0x00, 0x00, 0x00,
   0xd4, 0x00, 0x00, 0x00, 0x04, 0x00, 0x00, 0x00, 0x12, 0x00, 0x01, 0x00, 0x19, 0x00, 0x00, 0x00,
   0xd8, 0x00, 0x00, 0x00, 0x04, 0x00, 0x00, 0x00, 0x12, 0x00, 0x01, 0x00, 0x00, 0x2e, 0x74, 0x65,
   0x78, 0x74, 0x00, 0x2e, 0x73, 0x79, 0x6d, 0x74, 0x61, 0x62, 0x00, 0x2e, 0x73, 0x74, 0x72, 0x74,
   0x61, 0x62, 0x00, 0x61, 0x00, 0x62, 0x00]

/-- A 32-bit little-endian object of 312 bytes with five section headers (offsets
112-311): the null header, `.text` for the file offset 52, a second `.text` for the file
offset 60, `.symtab` (offset 68, one record) and `.strtab` (offset 84, 27 bytes, also the
section header string table). -/
def elf32_two_text : List UInt8 := [
   0x7f, 0x45, 0x4c, 0x46, 0x01, 0x01, 0x01, 0x00, 0x00, 0x00, 0x00, 0x00, 0x00, 0x00, 0x00, 0x00,
   0x01, 0x00, 0x03, 0x00, 0x01, 0x00, 0x00, 0x00, 0x00, 0x00, 0x00, 0x00, 0x00, 0x00, 0x00, 0x00,
   0x70, 0x00, 0x00, 0x00, 0x00, 0x00, 0x00, 0x00, 0x34, 0x00, 0x00, 0x00, 0x00, 0x00, 0x28, 0x00,
   0x05, 0x00, 0x04, 0x00, 0xc3, 0xc3, 0xc3, 0xc3, 0xc3, 0xc3, 0xc3, 0xc3, 0xc3, 0xc3, 0xc3, 0xc3,
   0xc3, 0xc3, 0xc3, 0xc3, 0x00, 0x00, 0x00, 0x00, 0x00, 0x00, 0x00, 0x00, 0x00, 0x00, 0x00, 0x00,
   0x00, 0x00, 0x00, 0x00, 0x00, 0x2e, 0x74, 0x65, 0x78, 0x74, 0x00, 0x2e, 0x73, 0x79, 0x6d, 0x74,
   0x61, 0x62, 0x00, 0x2e, 0x73, 0x74, 0x72, 0x74, 0x61, 0x62, 0x00, 0x61, 0x00, 0x62, 0x00, 0x00,
   0x00, 0x00, 0x00, 0x00, 0x00, 0x00, 0x00, 0x00, 0x00, 0x00, 0x00, 0x00, 0x00, 0x00, 0x00, 0x00,
   0x00, 0x00, 0x00, 0x00, 0x00, 0x00, 0x00, 0x00, 0x00, 0x00, 0x00, 0x00, 0x00, 0x00, 0x00, 0x00,
   0x00, 0x00, 0x00, 0x00, 0x00, 0x00, 0x00, 0x00, 0x01, 0x00, 0x00, 0x00, 0x01, 0x00, 0x00, 0x00,
   0x06, 0x00, 0x00, 0x00, 0x00, 0x00, 0x00, 0x00, 0x34, 0x00, 0x00, 0x00, 0x08, 0x00, 0x00, 0x00,
   0x00, 0x00, 0x00, 0x00, 0x00, 0x00, 0x00, 0x00, 0x04, 0x00, 0x00, 0x00, 0x00, 0x00, 0x00, 0x00,
   0x01, 0x00, 0x00, 0x00, 0x01, 0x00, 0x00, 0x00, 0x06, 0x00, 0x00, 0x00, 0x00, 0x00, 0x00, 0x00,
   0x3c, 0x00, 0x00, 0x00, 0x08, 0x00, 0x00, 0x00, 0x00, 0x00, 0x00, 0x00, 0x00, 0x00, 0x00, 0x00,
   0x04, 0x00, 0x00, 0x00, 0x00, 0x00, 0x00, 0x00, 0x07, 0x00, 0x00, 0x00, 0x02, 0x00, 0x00, 0x00,
   0x00, 0x00, 0x00, 0x00, 0x00, 0x00, 0x00, 0x00, 0x44, 0x00, 0x00, 0x00, 0x10, 0x00, 0x00, 0x00,
   0x04, 0x00, 0x00, 0x00, 0x01, 0x00, 0x00, 0x00, 0x04, 0x00, 0x00, 0x00, 0x10, 0x00, 0x00, 0x00,
   0x0f, 0x00, 0x00, 0x00, 0x03, 0x00, 0x00, 0x00, 0x00, 0x00, 0x00, 0x00, 0x00, 0x00, 0x00, 0x00,
   0x54, 0x00, 0x00, 0x00, 0x1b, 0x00, 0x00, 0x00, 0x00, 0x00, 0x00, 0x00, 0x00, 0x00, 0x00, 0x00,
   0x01, 0x00, 0x00, 0x00, 0x00, 0x00, 0x00, 0x00]

/-- A 54-byte buffer with two 32-bit little-endian vtables: at offset 0 three reserved
slots and the slot 100, at offset 16 three reserved slots and the slots 104 and 0; the
strings "_ZTV1A", "_ZTV1B", "x" and "f" stand at offsets 36, 43, 50 and 52. -/
def two_buf : List UInt8 := [
   0x00, 0x00, 0x00, 0x00, 0x00, 0x00, 0x00, 0x00, 0x00, 0x00, 0x00, 0x00, 0x64, 0x00, 0x00, 0x00,
   0x00, 0x00, 0x00, 0x00, 0x00, 0x00, 0x00, 0x00, 0x00, 0x00, 0x00, 0x00, 0x68, 0x00, 0x00, 0x00,
   0x00, 0x00, 0x00, 0x00, 0x5f, 0x5a, 0x54, 0x56, 0x31, 0x41, 0x00, 0x5f, 0x5a, 0x54, 0x56, 0x31,
   0x42, 0x00, 0x78, 0x00, 0x66, 0x00]

/-- The symbols of `two_buf`: the vtables `_ZTV1A` (value 0) and `_ZTV1B` (value 16), the
functions `x` (value 100) and `f` (value 104). -/
def two_syms : List Symbol :=
  [({ st_name := 0, st_info := 0x11, st_other := 0, st_shndx := 2, st_value := 0,
      st_size := 16 }, 36),
   ({ st_name := 7, st_info := 0x11, st_other := 0, st_shndx := 2, st_value := 16,
      st_size := 20 }, 43),
   ({ st_name := 14, st_info := 0x12, st_other := 0, st_shndx := 1, st_value := 100,
      st_size := 4 }, 50),
   ({ st_name := 16, st_info := 0x12, st_other := 0, st_shndx := 1, st_value := 104,
      st_size := 4 }, 52)]

/-- A demangler that maps "_ZTV1A" to "vtable for A" and "_ZTV1B" to "vtable for B",
rejects "x" and leaves every other name as it is. -/
def demangle_AB : List UInt8 → Option (List UInt8) :=
  fun mangled =>
    if mangled = [0x5f, 0x5a, 0x54, 0x56, 0x31, 0x41] then some (vtable_for ++ [0x41])
    else if mangled = [0x5f, 0x5a, 0x54, 0x56, 0x31, 0x42] then some (vtable_for ++ [0x42])
    else if mangled = [0x78] then none
    else some mangled

/-- The header of `.strtab` in `elf32_strtab_at_end`: offset 268, size 27. -/
def strtab_at_end : Elf64_Shdr :=
  { sh_name := 15, sh_type := 3, sh_flags := 0, sh_addr := 0, sh_offset := 268,
    sh_size := 27, sh_link := 0, sh_info := 0, sh_addralign := 1, sh_entsize := 0 }

/-- A string table header whose offset is `2 ^ 64 - 1` and whose size is 2. -/
def strtab_wrapped : Elf64_Shdr :=
  { sh_name := 15, sh_type := 3, sh_flags := 0, sh_addr := 0, sh_offset := 2 ^ 64 - 1,
    sh_size := 2, sh_link := 0, sh_info := 0, sh_addralign := 1, sh_entsize := 0 }

/-- The header of `.strtab` in `elf32_walk_off_end`: offset 60, size 32. -/
def walk_strtab : Elf64_Shdr :=
  { sh_name := 15, sh_type := 3, sh_flags := 0, sh_addr := 0, sh_offset := 60,
    sh_size := 32, sh_link := 0, sh_info := 0, sh_addralign := 1, sh_entsize := 0 }

/-- The header of `.symtab` in `elf32_walk_off_end`: offset 252, size 48, entry size 16. -/
def walk_symtab : Elf64_Shdr :=
  { sh_name := 7, sh_type := 2, sh_flags := 0, sh_addr := 0, sh_offset := 252,
    sh_size := 48, sh_link := 2, sh_info := 1, sh_addralign := 4, sh_entsize := 16 }

/-- The header of `.text` in `elf32_walk_off_end`: offset 52, size 8. -/
def walk_text : Elf64_Shdr :=
  { sh_name := 1, sh_type := 1, sh_flags := 6, sh_addr := 0, sh_offset := 52,
    sh_size := 8, sh_link := 0, sh_info := 0, sh_addralign := 4, sh_entsize := 0 }

/-- The record of the symbol `_ZTV1A` in `elf32_walk_off_end`. -/
def walk_ztv : Elf64_Sym :=
  { st_name := 23, st_info := 0x11, st_other := 0, st_shndx := 4, st_value := 300,
    st_size := 16 }

/-- The symbols of `elf32_walk_off_end`, as the program parses them. -/
def walk_syms : List Symbol :=
  [({ st_name := 0, st_info := 0, st_other := 0, st_shndx := 0, st_value := 0,
      st_size := 0 }, 60),
   (walk_ztv, 83),
   ({ st_name := 30, st_info := 0x12, st_other := 0, st_shndx := 1, st_value := 52,
      st_size := 8 }, 90)]

/-- The file header of `elf32_walk_off_end`. -/
def walk_ehdr : Elf64_Ehdr :=
  { elf32_ehdr with e_shoff := 92, e_shstrndx := 2 }

/-- What parsing leaves behind for `elf32_walk_off_end`. -/
def walk_parsed : Parsed :=
  { ehdr := walk_ehdr,
    secs := { sh_text := walk_text, sh_symtab := walk_symtab, sh_strtab := walk_strtab },
    syms := walk_syms,
    bin := { cur := 300, is_32bit := true } }

/-- A buffer of 17 zero bytes: two whole 8-byte slots and one more byte. -/
def wrap_buf : List UInt8 := List.replicate 17 0

/-- A code section that holds the address 0 only. -/
def wrap_text : Elf64_Shdr :=
  { sh_name := 1, sh_type := 1, sh_flags := 6, sh_addr := 0, sh_offset := 0, sh_size := 1,
    sh_link := 0, sh_info := 0, sh_addralign := 1, sh_entsize := 0 }

/-- A 64-bit symbol whose value is `2 ^ 64 - 24`: the offset of its first slot,
`st_value + 3 * 8`, wraps around to 0. -/
def wrap_sym : Symbol :=
  ({ st_name := 0, st_info := 0x11, st_other := 0, st_shndx := 2, st_value := 2 ^ 64 - 24,
     st_size := 24 }, 0)

/-- The file header of `elf32_two_text`. -/
def two_text_ehdr : Elf64_Ehdr :=
  { elf32_ehdr with e_shoff := 112, e_shnum := 5, e_shstrndx := 4 }

/-- The header of `.strtab` in `elf32_two_text`: offset 84, size 27. -/
def two_text_strtab : Elf64_Shdr :=
  { sh_name := 15, sh_type := 3, sh_flags := 0, sh_addr := 0, sh_offset := 84,
    sh_size := 27, sh_link := 0, sh_info := 0, sh_addralign := 1, sh_entsize := 0 }

/-- The object `elf32_two_text` with the name offset of its fourth header changed from
7 (".symtab") to 23 ("a"): two headers are named ".text" and none ".symtab". -/
def elf32_two_text_no_symtab : List UInt8 := [
   0x7f, 0x45, 0x4c, 0x46, 0x01, 0x01, 0x01, 0x00, 0x00, 0x00, 0x00, 0x00, 0x00, 0x00, 0x00, 0x00,
   0x01, 0x00, 0x03, 0x00, 0x01, 0x00, 0x00, 0x00, 0x00, 0x00, 0x00, 0x00, 0x00, 0x00, 0x00, 0x00,
   0x70, 0x00, 0x00, 0x00, 0x00, 0x00, 0x00, 0x00, 0x34, 0x00, 0x00, 0x00, 0x00, 0x00, 0x28, 0x00,
   0x05, 0x00, 0x04, 0x00, 0xc3, 0xc3, 0xc3, 0xc3, 0xc3, 0xc3, 0xc3, 0xc3, 0xc3, 0xc3, 0xc3, 0xc3,
   0xc3, 0xc3, 0xc3, 0xc3, 0x00, 0x00, 0x00, 0x00, 0x00, 0x00, 0x00, 0x00, 0x00, 0x00, 0x00, 0x00,
   0x00, 0x00, 0x00, 0x00, 0x00, 0x2e, 0x74, 0x65, 0x78, 0x74, 0x00, 0x2e, 0x73, 0x79, 0x6d, 0x74,
   0x61, 0x62, 0x00, 0x2e, 0x73, 0x74, 0x72, 0x74, 0x61, 0x62, 0x00, 0x61, 0x00, 0x62, 0x00, 0x00,
   0x00, 0x00, 0x00, 0x00, 0x00, 0x00, 0x00, 0x00, 0x00, 0x00, 0x00, 0x00, 0x00, 0x00, 0x00, 0x00,
   0x00, 0x00, 0x00, 0x00, 0x00, 0x00, 0x00, 0x00, 0x00, 0x00, 0x00, 0x00, 0x00, 0x00, 0x00, 0x00,
   0x00, 0x00, 0x00, 0x00, 0x00, 0x00, 0x00, 0x00, 0x01, 0x00, 0x00, 0x00, 0x01, 0x00, 0x00, 0x00,
   0x06, 0x00, 0x00, 0x00, 0x00, 0x00, 0x00, 0x00, 0x34, 0x00, 0x00, 0x00, 0x08, 0x00, 0x00, 0x00,
   0x00, 0x00, 0x00, 0x00, 0x00, 0x00, 0x00, 0x00, 0x04, 0x00, 0x00, 0x00, 0x00, 0x00, 0x00, 0x00,
   0x01, 0x00, 0x00, 0x00, 0x01, 0x00, 0x00, 0x00, 0x06, 0x00, 0x00, 0x00, 0x00, 0x00, 0x00, 0x00,
   0x3c, 0x00, 0x00, 0x00, 0x08, 0x00, 0x00, 0x00, 0x00, 0x00, 0x00, 0x00, 0x00, 0x00, 0x00, 0x00,
   0x04, 0x00, 0x00, 0x00, 0x00, 0x00, 0x00, 0x00, 0x17, 0x00, 0x00, 0x00, 0x02, 0x00, 0x00, 0x00,
   0x00, 0x00, 0x00, 0x00, 0x00, 0x00, 0x00, 0x00, 0x44, 0x00, 0x00, 0x00, 0x10, 0x00, 0x00, 0x00,
   0x04, 0x00, 0x00, 0x00, 0x01, 0x00, 0x00, 0x00, 0x04, 0x00, 0x00, 0x00, 0x10, 0x00, 0x00, 0x00,
   0x0f, 0x00, 0x00, 0x00, 0x03, 0x00, 0x00, 0x00, 0x00, 0x00, 0x00, 0x00, 0x00, 0x00, 0x00, 0x00,
   0x54, 0x00, 0x00, 0x00, 0x1b, 0x00, 0x00, 0x00, 0x00, 0x00, 0x00, 0x00, 0x00, 0x00, 0x00, 0x00,
   0x01, 0x00, 0x00, 0x00, 0x00, 0x00, 0x00, 0x00]

/-- A 64-bit little-endian object of 352 bytes: `.text` (offset 64, 8 bytes), `.strtab`
(offset 72, 23 bytes, also the section header string table) and the four section
headers (offsets 96-351), of which the last, `.symtab`, has `sh_size = 2 ^ 60` and
`sh_entsize = 1`. -/
def elf64_huge_symtab : List UInt8 := [
   0x7f, 0x45, 0x4c, 0x46, 0x02, 0x01, 0x01, 0x00, 0x00, 0x00, 0x00, 0x00, 0x00, 0x00, 0x00, 0x00,
   0x01, 0x00, 0x3e, 0x00, 0x01, 0x00, 0x00, 0x00, 0x00, 0x00, 0x00, 0x00, 0x00, 0x00, 0x00, 0x00,
   0x00, 0x00, 0x00, 0x00, 0x00, 0x00, 0x00, 0x00, 0x60, 0x00, 0x00, 0x00, 0x00, 0x00, 0x00, 0x00,
   0x00, 0x00, 0x00, 0x00, 0x40, 0x00, 0x00, 0x00, 0x00, 0x00, 0x40, 0x00, 0x04, 0x00, 0x02, 0x00,
   0xc3, 0xc3, 0xc3, 0xc3, 0xc3, 0xc3, 0xc3, 0xc3, 0x00, 0x2e, 0x74, 0x65, 0x78, 0x74, 0x00, 0x2e,
   0x73, 0x79, 0x6d, 0x74, 0x61, 0x62, 0x00, 0x2e, 0x73, 0x74, 0x72, 0x74, 0x61, 0x62, 0x00, 0x00,
   0x00, 0x00, 0x00, 0x00, 0x00, 0x00, 0x00, 0x00, 0x00, 0x00, 0x00, 0x00, 0x00, 0x00, 0x00, 0x00,
   0x00, 0x00, 0x00, 0x00, 0x00, 0x00, 0x00, 0x00, 0x00, 0x00, 0x00, 0x00, 0x00, 0x00, 0x00, 0x00,
   0x00, 0x00, 0x00, 0x00, 0x00, 0x00, 0x00, 0x00, 0x00, 0x00, 0x00, 0x00, 0x00, 0x00, 0x00, 0x00,
   0x00, 0x00, 0x00, 0x00, 0x00, 0x00, 0x00, 0x00, 0x00, 0x00, 0x00, 0x00, 0x00, 0x00, 0x00, 0x00,
   0x01, 0x00, 0x00, 0x00, 0x01, 0x00, 0x00, 0x00, 0x06, 0x00, 0x00, 0x00, 0x00, 0x00, 0x00, 0x00,
   0x00, 0x00, 0x00, 0x00, 0x00, 0x00, 0x00, 0x00, 0x40, 0x00, 0x00, 0x00, 0x00, 0x00, 0x00, 0x00,
   0x08, 0x00, 0x00, 0x00, 0x00, 0x00, 0x00, 0x00, 0x00, 0x00, 0x00, 0x00, 0x00, 0x00, 0x00, 0x00,
   0x04, 0x00, 0x00, 0x00, 0x00, 0x00, 0x00, 0x00, 0x00, 0x00, 0x00, 0x00, 0x00, 0x00, 0x00, 0x00,
   0x0f, 0x00, 0x00, 0x00, 0x03, 0x00, 0x00, 0x00, 0x00, 0x00, 0x00, 0x00, 0x00, 0x00, 0x00, 0x00,
   0x00, 0x00, 0x00, 0x00, 0x00, 0x00, 0x00, 0x00, 0x48, 0x00, 0x00, 0x00, 0x00, 0x00, 0x00, 0x00,
   0x17, 0x00, 0x00, 0x00, 0x00, 0x00, 0x00, 0x00, 0x00, 0x00, 0x00, 0x00, 0x00, 0x00, 0x00, 0x00,
   0x01, 0x00, 0x00, 0x00, 0x00, 0x00, 0x00, 0x00, 0x00, 0x00, 0x00, 0x00, 0x00, 0x00, 0x00, 0x00,
   0x07, 0x00, 0x00, 0x00, 0x02, 0x00, 0x00, 0x00, 0x00, 0x00, 0x00, 0x00, 0x00, 0x00, 0x00, 0x00,
   0x00, 0x00, 0x00, 0x00, 0x00, 0x00, 0x00, 0x00, 0x60, 0x01, 0x00, 0x00, 0x00, 0x00, 0x00, 0x00,
   0x00, 0x00, 0x00, 0x00, 0x00, 0x00, 0x00, 0x10, 0x02, 0x00, 0x00, 0x00, 0x01, 0x00, 0x00, 0x00,
   0x08, 0x00, 0x00, 0x00, 0x00, 0x00, 0x00, 0x00, 0x01, 0x00, 0x00, 0x00, 0x00, 0x00, 0x00, 0x00]

/-- A 32-bit little-endian object of 261 bytes: the four section headers (offsets
52-211), `.text` (offset 212), `.symtab` (offset 220, one record) and, up to the end of
the file, the bytes of `.strtab` (offset 236, also the section header string table):
the strings "", ".text", ".symtab", ".strtab" and the two characters ".t", which no
terminator follows.  The header of `.strtab` gives the size 24, and header 0 has the
name offset 23, that of ".t". -/
def elf32_cut_name : List UInt8 := [
   0x7f, 0x45, 0x4c, 0x46, 0x01, 0x01, 0x01, 0x00, 0x00, 0x00, 0x00, 0x00, 0x00, 0x00, 0x00, 0x00,
   0x01, 0x00, 0x03, 0x00, 0x01, 0x00, 0x00, 0x00, 0x00, 0x00, 0x00, 0x00, 0x00, 0x00, 0x00, 0x00,
   0x34, 0x00, 0x00, 0x00, 0x00, 0x00, 0x00, 0x00, 0x34, 0x00, 0x00, 0x00, 0x00, 0x00, 0x28, 0x00,
   0x04, 0x00, 0x03, 0x00, 0x17, 0x00, 0x00, 0x00, 0x00, 0x00, 0x00, 0x00, 0x00, 0x00, 0x00, 0x00,
   0x00, 0x00, 0x00, 0x00, 0x00, 0x00, 0x00, 0x00, 0x00, 0x00, 0x00, 0x00, 0x00, 0x00, 0x00, 0x00,
   0x00, 0x00, 0x00, 0x00, 0x00, 0x00, 0x00, 0x00, 0x00, 0x00, 0x00, 0x00, 0x01, 0x00, 0x00, 0x00,
   0x01, 0x00, 0x00, 0x00, 0x06, 0x00, 0x00, 0x00, 0x00, 0x00, 0x00, 0x00, 0xd4, 0x00, 0x00, 0x00,
   0x08, 0x00, 0x00, 0x00, 0x00, 0x00, 0x00, 0x00, 0x00, 0x00, 0x00, 0x00, 0x04, 0x00, 0x00, 0x00,
   0x00, 0x00, 0x00, 0x00, 0x07, 0x00, 0x00, 0x00, 0x02, 0x00, 0x00, 0x00, 0x00, 0x00, 0x00, 0x00,
   0x00, 0x00, 0x00, 0x00, 0xdc, 0x00, 0x00, 0x00, 0x10, 0x00, 0x00, 0x00, 0x03, 0x00, 0x00, 0x00,
   0x01, 0x00, 0x00, 0x00, 0x04, 0x00, 0x00, 0x00, 0x10, 0x00, 0x00, 0x00, 0x0f, 0x00, 0x00, 0x00,
   0x03, 0x00, 0x00, 0x00, 0x00, 0x00, 0x00, 0x00, 0x00, 0x00, 0x00, 0x00, 0xec, 0x00, 0x00, 0x00,
   0x18, 0x00, 0x00, 0x00, 0x00, 0x00, 0x00, 0x00, 0x00, 0x00, 0x00, 0x00, 0x01, 0x00, 0x00, 0x00,
   0x00, 0x00, 0x00, 0x00, 0xc3, 0xc3, 0xc3, 0xc3, 0xc3, 0xc3, 0xc3, 0xc3, 0x00, 0x00, 0x00, 0x00,
   0x00, 0x00, 0x00, 0x00, 0x00, 0x00, 0x00, 0x00, 0x00, 0x00, 0x00, 0x00, 0x00, 0x2e, 0x74, 0x65,
   0x78, 0x74, 0x00, 0x2e, 0x73, 0x79, 0x6d, 0x74, 0x61, 0x62, 0x00, 0x2e, 0x73, 0x74, 0x72, 0x74,
   0x61, 0x62, 0x00, 0x2e, 0x74]

/-- The file header of `elf32_cut_name`. -/
def cut_ehdr : Elf64_Ehdr :=
  { elf32_ehdr with e_shoff := 52, e_shstrndx := 3 }

/-- The header of `.strtab` in `elf32_cut_name`: offset 236, size 24. -/
def cut_strtab : Elf64_Shdr :=
  { sh_name := 15, sh_type := 3, sh_flags := 0, sh_addr := 0, sh_offset := 236,
    sh_size := 24, sh_link := 0, sh_info := 0, sh_addralign := 1, sh_entsize := 0 }

/-! # Theorems -/

/-! ## The `Except` monad -/

@[simp] theorem bind_ok_eq {α β : Type} (a : α) (f : α → Except Fault β) :
    (Except.ok a >>= f) = f a := rfl

@[simp] theorem bind_error_eq {α β : Type} (e : Fault) (f : α → Except Fault β) :
    ((Except.error e : Except Fault α) >>= f) = Except.error e := rfl

@[simp] theorem pure_eq_ok {α : Type} (a : α) : (pure a : Except Fault α) = Except.ok a := rfl

@[simp] theorem throw_eq_error {α : Type} (e : Fault) :
    (throw e : Except Fault α) = Except.error e := rfl

theorem spec_ok {α : Type} {Q : α → Prop} {E : Fault → Prop} {a : α} (h : Q a) :
    Spec Q E (.ok a) := h

theorem spec_error {α : Type} {Q : α → Prop} {E : Fault → Prop} {e : Fault} (h : E e) :
    Spec Q E (.error e : Except Fault α) := h

theorem spec_bind {α β : Type} {Q : α → Prop} {Q' : β → Prop} {E : Fault → Prop}
    {x : Except Fault α} {f : α → Except Fault β}
    (hx : Spec Q E x) (hf : ∀ a, Q a → Spec Q' E (f a)) : Spec Q' E (x >>= f) := by
  cases x with
  | ok a => exact hf a hx
  | error e => exact hx

theorem spec_mono {α : Type} {Q Q' : α → Prop} {E E' : Fault → Prop} {x : Except Fault α}
    (hx : Spec Q E x) (hQ : ∀ a, Q a → Q' a) (hE : ∀ e, E e → E' e) : Spec Q' E' x := by
  cases x with
  | ok a => exact hQ a hx
  | error e => exact hE e hx

theorem spec_of_ok {α : Type} {Q : α → Prop} {E : Fault → Prop} {x : Except Fault α} {a : α}
    (hx : Spec Q E x) (h : x = .ok a) : Q a := by
  subst h; exact hx

theorem spec_of_error {α : Type} {Q : α → Prop} {E : Fault → Prop} {x : Except Fault α}
    {e : Fault} (hx : Spec Q E x) (h : x = .error e) : E e := by
  subst h; exact hx

theorem isAbort_undefined (u : Undefined) : (Fault.undefinedBehaviour u).isAbort :=
  ⟨by simp, by simp⟩

theorem isAbort_assert (a : Assertion) : (Fault.assertFailed a).isAbort :=
  ⟨by simp, by simp⟩

theorem isAbort_length : Fault.lengthError.isAbort :=
  ⟨by simp, by simp⟩

/-! ## `BinaryReader` -/

theorem WORD_pos : 0 < WORD := by unfold WORD; positivity

/-- A load whose bytes lie inside the vector returns their value and advances the cursor. -/
theorem read_core_type_in (host : Endian) (data : List UInt8) (w : Nat) (r : BinaryReader)
    (h : r.cur + w ≤ data.length) (hs : data.length < WORD) :
    read_core_type host data w r =
      .ok (hostValue host ((data.drop r.cur).take w), { r with cur := r.cur + w }) := by
  have hm : (r.cur + w) % WORD = r.cur + w := Nat.mod_eq_of_lt (by omega)
  unfold read_core_type
  rw [hm, if_neg (by omega), if_pos h]

/-- When `cur + sizeof(T)` exceeds the size of the vector and is representable, the guard
fires: the result is zero and the reader is unchanged. -/
theorem read_core_type_out (host : Endian) (data : List UInt8) (w : Nat) (r : BinaryReader)
    (h : data.length < r.cur + w) (hw : r.cur + w < WORD) :
    read_core_type host data w r = .ok (0, r) := by
  have hm : (r.cur + w) % WORD = r.cur + w := Nat.mod_eq_of_lt hw
  unfold read_core_type
  rw [hm, if_pos h]

/-- When `cur + sizeof(T)` wraps around to a value within the size of the vector, the
guard does not fire and the load is outside the vector. -/
theorem read_core_type_wrapped (host : Endian) (data : List UInt8) (w : Nat)
    (r : BinaryReader) (hw : WORD ≤ r.cur + w) (hg : (r.cur + w) % WORD ≤ data.length)
    (hs : data.length < WORD) :
    read_core_type host data w r = .error (.undefinedBehaviour .loadOutsideBuffer) := by
  unfold read_core_type
  rw [if_neg (by omega), if_neg (by omega)]

theorem reads_core_type (host : Endian) (data : List UInt8) (w : Nat) (r : BinaryReader) :
    Reads r (read_core_type host data w r) := by
  unfold Reads read_core_type
  split
  · exact spec_ok rfl
  · split
    · exact spec_ok rfl
    · exact spec_error (isAbort_undefined _)

theorem reads_u8 (host : Endian) (data : List UInt8) (r : BinaryReader) :
    Reads r (read_u8 host data r) := reads_core_type host data 1 r

theorem reads_u16 (host : Endian) (data : List UInt8) (r : BinaryReader) :
    Reads r (read_u16 host data r) := reads_core_type host data 2 r

theorem reads_u32 (host : Endian) (data : List UInt8) (r : BinaryReader) :
    Reads r (read_u32 host data r) := reads_core_type host data 4 r

theorem reads_u64 (host : Endian) (data : List UInt8) (r : BinaryReader) :
    Reads r (read_u64 host data r) := reads_core_type host data 8 r

theorem reads_ptr (host : Endian) (data : List UInt8) (r : BinaryReader) :
    Reads r (read_ptr host data r) := by
  unfold read_ptr
  split
  · exact reads_u32 host data r
  · exact reads_u64 host data r

/-- Sequencing of reads: the flag of the first reader is the flag of the last. -/
theorem reads_bind {α β : Type} {r : BinaryReader} {x : Except Fault (α × BinaryReader)}
    {f : α × BinaryReader → Except Fault (β × BinaryReader)}
    (hx : Reads r x) (hf : ∀ a r', r'.is_32bit = r.is_32bit → Reads r' (f (a, r'))) :
    Reads r (x >>= f) := by
  refine spec_bind hx ?_
  rintro ⟨a, r'⟩ h
  exact spec_mono (hf a r' h) (fun p hp => hp.trans h) (fun _ he => he)

theorem reads_ok {α : Type} {r r' : BinaryReader} {a : α} (h : r'.is_32bit = r.is_32bit) :
    Reads r (.ok (a, r')) := h

theorem reads_bytes (host : Endian) (data : List UInt8) (len : Nat) (r : BinaryReader) :
    Reads r (read_bytes host data len r) := by
  induction len generalizing r with
  | zero => exact reads_ok rfl
  | succ n ih =>
    unfold read_bytes
    refine reads_bind (reads_u8 host data r) (fun b r1 h1 => ?_)
    refine reads_bind (ih r1) (fun bs r2 h2 => ?_)
    exact reads_ok rfl

theorem reads_shdr (host : Endian) (data : List UInt8) (r : BinaryReader) :
    Reads r (read_shdr host data r) := by
  unfold read_shdr
  refine reads_bind (reads_u32 host data r) (fun _ r h => ?_)
  refine reads_bind (reads_u32 host data r) (fun _ r h => ?_)
  refine reads_bind (reads_ptr host data r) (fun _ r h => ?_)
  refine reads_bind (reads_ptr host data r) (fun _ r h => ?_)
  refine reads_bind (reads_ptr host data r) (fun _ r h => ?_)
  refine reads_bind (reads_ptr host data r) (fun _ r h => ?_)
  refine reads_bind (reads_u32 host data r) (fun _ r h => ?_)
  refine reads_bind (reads_u32 host data r) (fun _ r h => ?_)
  refine reads_bind (reads_ptr host data r) (fun _ r h => ?_)
  refine reads_bind (reads_ptr host data r) (fun _ r h => ?_)
  exact reads_ok rfl

/-! ## Faults and the width flag through the parsing stages -/

theorem reads_shdr_at (host : Endian) (data : List UInt8) (ehdr : Elf64_Ehdr) (i : Nat)
    (r : BinaryReader) : Reads r (read_shdr_at host data ehdr i r) := by
  unfold read_shdr_at shdr_offset
  split
  · exact reads_shdr host data (r.seek _)
  · exact spec_error (isAbort_undefined _)

theorem spec_strcmp_eq (data : List UInt8) (p : Nat) (lit : List UInt8) :
    Spec (fun _ => True) Fault.isAbort (strcmp_eq data p lit) := by
  induction lit generalizing p with
  | nil =>
    unfold strcmp_eq
    split
    · exact spec_error (isAbort_undefined _)
    · exact spec_ok trivial
  | cons c cs ih =>
    unfold strcmp_eq
    split
    · exact spec_error (isAbort_undefined _)
    · split
      · exact ih _
      · exact spec_ok trivial

theorem reads_scan_step (host : Endian) (data : List UInt8) (ehdr : Elf64_Ehdr)
    (shstrtabhdr : Elf64_Shdr) (st : Found × BinaryReader) (i : Nat) :
    Reads st.2 (scan_step host data ehdr shstrtabhdr st i) := by
  unfold scan_step
  refine reads_bind (reads_shdr_at host data ehdr i st.2) (fun shdr r h => ?_)
  dsimp only
  split
  · exact spec_error (isAbort_assert _)
  · refine spec_bind (spec_strcmp_eq _ _ _) (fun b _ => ?_)
    split
    · exact reads_ok rfl
    · refine spec_bind (spec_strcmp_eq _ _ _) (fun b _ => ?_)
      split
      · exact reads_ok rfl
      · refine spec_bind (spec_strcmp_eq _ _ _) (fun b _ => ?_)
        split
        · exact reads_ok rfl
        · exact reads_ok rfl

theorem reads_foldlM {α β : Type} (step : α × BinaryReader → β → Except Fault (α × BinaryReader))
    (hstep : ∀ st i, Reads st.2 (step st i)) (l : List β) (st : α × BinaryReader) :
    Reads st.2 (l.foldlM step st) := by
  induction l generalizing st with
  | nil => exact reads_ok rfl
  | cons i l ih =>
    rw [List.foldlM_cons]
    refine spec_bind (hstep st i) (fun st' h => ?_)
    exact spec_mono (ih st') (fun p hp => hp.trans h) (fun _ he => he)

theorem reads_scan_sections (host : Endian) (data : List UInt8) (ehdr : Elf64_Ehdr)
    (shstrtabhdr : Elf64_Shdr) (r : BinaryReader) :
    Reads r (scan_sections host data ehdr shstrtabhdr r) :=
  reads_foldlM _ (reads_scan_step host data ehdr shstrtabhdr) _ (_, r)

theorem spec_check_strtab (data : List UInt8) (a : Assertion) (hdr : Elf64_Shdr) :
    Spec (fun _ => True) Fault.isAbort (check_strtab data a hdr) := by
  unfold check_strtab
  split
  · exact spec_error (isAbort_assert _)
  · split
    · exact spec_error (isAbort_undefined _)
    · exact spec_ok trivial

theorem spec_require_sections (f : Found) :
    Spec (fun _ => True) (fun e => e ≠ .notAnObjectFile) (require_sections f) := by
  unfold require_sections
  split
  · exact spec_ok trivial
  · exact spec_error (by simp)

theorem isAbort_ne_magic {e : Fault} (h : e.isAbort) : e ≠ .notAnObjectFile := h.1

/-- The section lookup keeps the width flag and never ends in the magic error. -/
theorem spec_find_sections (host : Endian) (data : List UInt8) (ehdr : Elf64_Ehdr)
    (r : BinaryReader) :
    Spec (fun p => p.2.is_32bit = r.is_32bit) (fun e => e ≠ .notAnObjectFile)
      (find_sections host data ehdr r) := by
  unfold find_sections
  refine spec_bind (spec_mono (reads_shdr_at host data ehdr _ r) (fun _ h => h)
    (fun _ => isAbort_ne_magic)) ?_
  rintro ⟨shstrtabhdr, r1⟩ h1
  refine spec_bind (spec_mono (spec_check_strtab data _ shstrtabhdr) (fun _ h => h)
    (fun _ => isAbort_ne_magic)) (fun _ _ => ?_)
  refine spec_bind (spec_mono (reads_scan_sections host data ehdr shstrtabhdr r1)
    (fun _ h => h) (fun _ => isAbort_ne_magic)) ?_
  rintro ⟨found, r2⟩ h2
  refine spec_bind (spec_require_sections found) (fun secs _ => ?_)
  exact spec_ok (h2.trans h1)

theorem reads_sym (host : Endian) (data : List UInt8) (ehdr : Elf64_Ehdr) (r : BinaryReader) :
    Reads r (read_sym host data ehdr r) := by
  unfold read_sym
  split
  · refine reads_bind (reads_u32 host data r) (fun _ r h => ?_)
    refine reads_bind (reads_ptr host data r) (fun _ r h => ?_)
    refine reads_bind (reads_ptr host data r) (fun _ r h => ?_)
    refine reads_bind (reads_u8 host data r) (fun _ r h => ?_)
    refine reads_bind (reads_u8 host data r) (fun _ r h => ?_)
    refine reads_bind (reads_u16 host data r) (fun _ r h => ?_)
    exact reads_ok rfl
  · refine reads_bind (reads_u32 host data r) (fun _ r h => ?_)
    refine reads_bind (reads_u8 host data r) (fun _ r h => ?_)
    refine reads_bind (reads_u8 host data r) (fun _ r h => ?_)
    refine reads_bind (reads_u16 host data r) (fun _ r h => ?_)
    refine reads_bind (reads_ptr host data r) (fun _ r h => ?_)
    refine reads_bind (reads_ptr host data r) (fun _ r h => ?_)
    exact reads_ok rfl

theorem reads_syms (host : Endian) (data : List UInt8) (ehdr : Elf64_Ehdr)
    (sh_strtab : Elf64_Shdr) (n : Nat) (r : BinaryReader) :
    Reads r (read_syms host data ehdr sh_strtab n r) := by
  induction n generalizing r with
  | zero => exact reads_ok rfl
  | succ n ih =>
    unfold read_syms
    refine reads_bind (reads_sym host data ehdr r) (fun sym r1 h1 => ?_)
    dsimp only
    split
    · exact spec_error (isAbort_assert _)
    · refine reads_bind (ih r1) (fun rest r2 h2 => ?_)
      exact reads_ok rfl

theorem reads_parse_symbols (host : Endian) (data : List UInt8) (ehdr : Elf64_Ehdr)
    (secs : Sections) (r : BinaryReader) :
    Reads r (parse_symbols host data ehdr secs r) := by
  unfold parse_symbols
  refine spec_bind (spec_check_strtab data _ _) (fun _ _ => ?_)
  unfold symbol_count
  split
  · exact spec_error (isAbort_undefined _)
  · simp only [bind_ok_eq]
    unfold make_syms
    split
    · exact spec_error isAbort_length
    · exact reads_syms host data ehdr secs.sh_strtab _ r

/-- The header fields are read with the width flag the class byte selects. -/
theorem spec_read_ehdr_fields (host : Endian) (data : List UInt8) (e_ident : List Nat)
    (r : BinaryReader) :
    Spec (fun p => p.2.is_32bit = is_class32 e_ident ∧ p.1.e_ident = e_ident) Fault.isAbort
      (read_ehdr_fields host data e_ident r) := by
  unfold read_ehdr_fields
  dsimp only
  refine spec_bind (reads_u16 host data _) ?_
  rintro ⟨v1, r1⟩ h1
  refine spec_bind (reads_u16 host data _) ?_
  rintro ⟨v2, r2⟩ h2
  refine spec_bind (reads_u32 host data _) ?_
  rintro ⟨v3, r3⟩ h3
  refine spec_bind (reads_ptr host data _) ?_
  rintro ⟨v4, r4⟩ h4
  refine spec_bind (reads_ptr host data _) ?_
  rintro ⟨v5, r5⟩ h5
  refine spec_bind (reads_ptr host data _) ?_
  rintro ⟨v6, r6⟩ h6
  refine spec_bind (reads_u32 host data _) ?_
  rintro ⟨v7, r7⟩ h7
  refine spec_bind (reads_u16 host data _) ?_
  rintro ⟨v8, r8⟩ h8
  refine spec_bind (reads_u16 host data _) ?_
  rintro ⟨v9, r9⟩ h9
  refine spec_bind (reads_u16 host data _) ?_
  rintro ⟨v10, r10⟩ h10
  refine spec_bind (reads_u16 host data _) ?_
  rintro ⟨v11, r11⟩ h11
  refine spec_bind (reads_u16 host data _) ?_
  rintro ⟨v12, r12⟩ h12
  refine spec_bind (reads_u16 host data _) ?_
  rintro ⟨v13, r13⟩ h13
  refine spec_ok ⟨?_, rfl⟩
  simp only [BinaryReader.set_is_32] at *
  simp_all

theorem spec_read_ident (host : Endian) (data : List UInt8) (r : BinaryReader) :
    Spec (fun p => p.2.is_32bit = r.is_32bit)
      (fun e => e.isAbort ∨ e = .notAnObjectFile) (read_ident host data r) := by
  unfold read_ident
  refine spec_bind (spec_mono (reads_bytes host data 16 r) (fun _ h => h)
    (fun _ h => Or.inl h)) ?_
  rintro ⟨e_ident, r1⟩ h1
  dsimp only
  split
  · exact spec_error (Or.inr rfl)
  · exact spec_ok h1

/-! ## Faults of the dump -/

theorem slot_entry_fault (demangle : List UInt8 → Option (List UInt8)) (data : List UInt8)
    (syms : List Symbol) (sh_text : Elf64_Shdr) (value : Nat) (f : Fault)
    (h : slot_entry demangle data syms sh_text value = .fault f) : f.isAbort := by
  unfold slot_entry at h
  split at h
  · simp at h
  · split at h
    · simp at h
    · split at h
      · simp only [SlotResult.fault.injEq] at h
        subst h; exact isAbort_undefined _
      · split at h <;> simp at h

theorem walk_slot_fault (host : Endian) (demangle : List UInt8 → Option (List UInt8))
    (data : List UInt8) (syms : List Symbol) (sh_text : Elf64_Shdr) (ptr_size : Nat)
    (sym : Symbol) (i : Nat) (r : BinaryReader) (f : Fault)
    (h : (walk_slot host demangle data syms sh_text ptr_size sym i r).1 = .fault f) :
    f.isAbort := by
  unfold walk_slot at h
  dsimp only at h
  split at h
  · simp only [SlotResult.fault.injEq] at h
    subst h; exact isAbort_assert _
  · split at h
    · next e he =>
      simp only [SlotResult.fault.injEq] at h
      subst h
      exact spec_of_error (reads_ptr host data _) he
    · exact slot_entry_fault demangle data syms sh_text _ f h

theorem walk_from_fault (host : Endian) (demangle : List UInt8 → Option (List UInt8))
    (data : List UInt8) (syms : List Symbol) (sh_text : Elf64_Shdr) (ptr_size : Nat)
    (sym : Symbol) (fuel i : Nat) (r : BinaryReader) (acc : List Member) (w : WalkResult)
    (f : Fault)
    (h : walk_from host demangle data syms sh_text ptr_size sym fuel i r acc = some w)
    (hf : w.stop = .fault f) : f.isAbort := by
  induction fuel generalizing i r acc with
  | zero => simp [walk_from] at h
  | succ fuel ih =>
    unfold walk_from at h
    split at h
    · simp only [Option.some.injEq] at h; subst h; simp at hf
    · exact ih _ _ _ h
    · simp only [Option.some.injEq] at h; subst h; simp at hf
    · exact ih _ _ _ h
    · next f' r' heq =>
      simp only [Option.some.injEq] at h; subst h
      simp only [Stop.fault.injEq] at hf; subst hf
      exact walk_slot_fault host demangle data syms sh_text ptr_size sym i r f'
        (by rw [heq])

theorem spec_strncmp_eq (data : List UInt8) (p : Nat) (lit : List UInt8) :
    Spec (fun _ => True) Fault.isAbort (strncmp_eq data p lit) := by
  induction lit generalizing p with
  | nil => exact spec_ok trivial
  | cons c cs ih =>
    unfold strncmp_eq
    split
    · exact spec_error (isAbort_undefined _)
    · split
      · exact ih _
      · exact spec_ok trivial

theorem spec_select_candidate (demangle : List UInt8 → Option (List UInt8))
    (filter : Option (List UInt8 → Bool)) (data : List UInt8) (sym : Symbol) :
    Spec (fun _ => True) Fault.isAbort (select_candidate demangle filter data sym) := by
  unfold select_candidate
  split
  · next f hf => exact spec_error (spec_of_error (spec_strncmp_eq data sym.2 ZTV) hf)
  · exact spec_ok trivial
  · split
    · exact spec_error (isAbort_undefined _)
    · split
      · exact spec_ok trivial
      · split
        · exact spec_error (isAbort_undefined _)
        · dsimp only
          split
          · split <;> exact spec_ok trivial
          · exact spec_ok trivial

/-- A run of the dump loop ends normally or in an abort, never in an error exit. -/
theorem dump_fault (host : Endian) (demangle : List UInt8 → Option (List UInt8))
    (filter : Option (List UInt8 → Bool)) (data : List UInt8) (syms : List Symbol)
    (sh_text : Elf64_Shdr) (ptr_size : Nat) (fuel : Nat) (todo : List Symbol)
    (r : BinaryReader) (out : List VTable) (o : Output) (f : Fault)
    (h : dump host demangle filter data syms sh_text ptr_size fuel todo r out = some o)
    (hf : o.fault = some f) : f.isAbort := by
  induction todo generalizing r out with
  | nil =>
    simp only [dump, Option.some.injEq] at h
    subst h; simp at hf
  | cons sym rest ih =>
    unfold dump at h
    split at h
    · next e he =>
      simp only [Option.some.injEq] at h; subst h
      simp only [Option.some.injEq] at hf; subst hf
      exact spec_of_error (spec_select_candidate demangle filter data sym) he
    · exact ih _ _ h
    · split at h
      · simp at h
      · next w hw =>
        dsimp only at h
        split at h
        · next f' hstop =>
          simp only [Option.some.injEq] at h; subst h
          simp only [Option.some.injEq] at hf; subst hf
          exact walk_from_fault host demangle data syms sh_text ptr_size sym fuel 0 r [] w f'
            hw hstop
        · exact ih _ _ h

/-! ## The walk loop -/

theorem seek_congr (r r' : BinaryReader) (h : r.is_32bit = r'.is_32bit) (off : Nat) :
    r.seek off = r'.seek off := by
  cases r; cases r'
  simp only [BinaryReader.seek, BinaryReader.mk.injEq, true_and]
  exact h

/-- A pass starts with a seek: how it ends depends on the reader through the width flag
only. -/
theorem slot_result_congr (host : Endian) (demangle : List UInt8 → Option (List UInt8))
    (data : List UInt8) (syms : List Symbol) (sh_text : Elf64_Shdr) (ptr_size : Nat)
    (sym : Symbol) (i : Nat) (r r' : BinaryReader) (h : r.is_32bit = r'.is_32bit) :
    slot_result host demangle data syms sh_text ptr_size sym r i =
      slot_result host demangle data syms sh_text ptr_size sym r' i := by
  unfold slot_result walk_slot
  dsimp only
  rw [seek_congr r r' h]
  split
  · rfl
  · split <;> rfl

/-- A pass keeps the width flag. -/
theorem walk_slot_flag (host : Endian) (demangle : List UInt8 → Option (List UInt8))
    (data : List UInt8) (syms : List Symbol) (sh_text : Elf64_Shdr) (ptr_size : Nat)
    (sym : Symbol) (i : Nat) (r : BinaryReader) :
    (walk_slot host demangle data syms sh_text ptr_size sym i r).2.is_32bit = r.is_32bit := by
  unfold walk_slot
  dsimp only
  split
  · rfl
  · split
    · rfl
    · next v r' heq =>
      have hrd := reads_ptr host data (r.seek (slot_offset ptr_size sym i))
      unfold Reads at hrd
      have hq := spec_of_ok hrd heq
      exact hq

/-- One pass that goes on: the loop continues at the next index with the member of the
pass appended. -/
theorem walk_from_step (host : Endian) (demangle : List UInt8 → Option (List UInt8))
    (data : List UInt8) (syms : List Symbol) (sh_text : Elf64_Shdr) (ptr_size : Nat)
    (sym : Symbol) (fuel i : Nat) (r : BinaryReader) (acc : List Member)
    (h : continues (slot_result host demangle data syms sh_text ptr_size sym r i) = true) :
    walk_from host demangle data syms sh_text ptr_size sym (fuel + 1) i r acc =
      walk_from host demangle data syms sh_text ptr_size sym fuel (i + 1)
        (walk_slot host demangle data syms sh_text ptr_size sym i r).2
        (acc ++ slot_members (slot_result host demangle data syms sh_text ptr_size sym r i)) := by
  unfold slot_result at h ⊢
  rw [walk_from]
  cases hw : walk_slot host demangle data syms sh_text ptr_size sym i r with
  | mk res r' =>
    rw [hw] at h
    cases res <;> simp [continues] at h <;> simp [slot_members]

/-- The passes of `n` indices that all go on. -/
theorem walk_from_steps (host : Endian) (demangle : List UInt8 → Option (List UInt8))
    (data : List UInt8) (syms : List Symbol) (sh_text : Elf64_Shdr) (ptr_size : Nat)
    (sym : Symbol) (n : Nat) (fuel i : Nat) (r : BinaryReader) (acc : List Member)
    (h : ∀ j, i ≤ j → j < i + n →
      continues (slot_result host demangle data syms sh_text ptr_size sym r j) = true) :
    ∃ r', r'.is_32bit = r.is_32bit ∧
      walk_from host demangle data syms sh_text ptr_size sym (fuel + n) i r acc =
        walk_from host demangle data syms sh_text ptr_size sym fuel (i + n) r'
          (acc ++ members_of (slot_result host demangle data syms sh_text ptr_size sym r) i n) := by
  induction n generalizing i r acc with
  | zero => exact ⟨r, rfl, by simp [members_of]⟩
  | succ n ih =>
    have h0 := h i (le_refl i) (by omega)
    have hflag := walk_slot_flag host demangle data syms sh_text ptr_size sym i r
    obtain ⟨r', hr', hw⟩ := ih (i + 1)
      (walk_slot host demangle data syms sh_text ptr_size sym i r).2
      (acc ++ slot_members (slot_result host demangle data syms sh_text ptr_size sym r i))
      (fun j h1 h2 => by
        rw [slot_result_congr host demangle data syms sh_text ptr_size sym j _ r hflag]
        exact h j (by omega) (by omega))
    refine ⟨r', hr'.trans hflag, ?_⟩
    rw [show fuel + (n + 1) = (fuel + n) + 1 by omega,
      walk_from_step host demangle data syms sh_text ptr_size sym (fuel + n) i r acc h0, hw]
    have hfun : slot_result host demangle data syms sh_text ptr_size sym
          (walk_slot host demangle data syms sh_text ptr_size sym i r).2 =
        slot_result host demangle data syms sh_text ptr_size sym r := by
      funext j
      exact slot_result_congr host demangle data syms sh_text ptr_size sym j _ r hflag
    rw [hfun, show i + (n + 1) = i + 1 + n by omega]
    simp [members_of, List.append_assoc]

/-- The loop is left in the pass of index `i` when that pass does not go on. -/
theorem walk_from_last (host : Endian) (demangle : List UInt8 → Option (List UInt8))
    (data : List UInt8) (syms : List Symbol) (sh_text : Elf64_Shdr) (ptr_size : Nat)
    (sym : Symbol) (fuel i : Nat) (r : BinaryReader) (acc : List Member)
    (h : continues (slot_result host demangle data syms sh_text ptr_size sym r i) = false) :
    walk_from host demangle data syms sh_text ptr_size sym (fuel + 1) i r acc =
      some { members := acc, last := i,
             stop := match slot_result host demangle data syms sh_text ptr_size sym r i with
               | .demangleFailed => .demangleFailed
               | .fault f => .fault f
               | _ => .nonCode,
             bin := (walk_slot host demangle data syms sh_text ptr_size sym i r).2 } := by
  unfold slot_result at h ⊢
  rw [walk_from]
  cases hw : walk_slot host demangle data syms sh_text ptr_size sym i r with
  | mk res r' =>
    rw [hw] at h
    cases res <;> simp [continues] at h <;> rfl

/-- The value a pass reads decides how it ends. -/
theorem slot_result_of_value (host : Endian) (demangle : List UInt8 → Option (List UInt8))
    (data : List UInt8) (syms : List Symbol) (sh_text : Elf64_Shdr) (ptr_size : Nat)
    (sym : Symbol) (i : Nat) (r : BinaryReader) (v : Nat)
    (h : slot_value host data ptr_size sym r i = some v) :
    slot_result host demangle data syms sh_text ptr_size sym r i =
      slot_entry demangle data syms sh_text v := by
  unfold slot_value at h
  unfold slot_result walk_slot
  dsimp only
  split at h
  · next hlt =>
    rw [if_neg (by simpa using hlt)]
    split at h
    · next value r' heq =>
      simp only [Option.some.injEq] at h
      subst h
      rw [heq]
    · simp at h
  · simp at h

theorem ptr_width_pos (r : BinaryReader) : 0 < ptr_width r := by
  unfold ptr_width; split <;> omega

/-- `read_ptr` on a slot that lies inside the buffer. -/
theorem read_ptr_in (host : Endian) (data : List UInt8) (r : BinaryReader)
    (h : r.cur + ptr_width r ≤ data.length) (hs : data.length < WORD) :
    read_ptr host data r =
      .ok (hostValue host ((data.drop r.cur).take (ptr_width r)),
           { r with cur := r.cur + ptr_width r }) := by
  unfold read_ptr read_u32 read_u64
  unfold ptr_width at h ⊢
  split
  · next h32 =>
    rw [if_pos h32] at h
    exact read_core_type_in host data 4 r h hs
  · next h32 =>
    rw [if_neg h32] at h
    exact read_core_type_in host data 8 r h hs

/-- A slot that lies inside the buffer: the pass reads the value stored there and leaves
the cursor behind the slot. -/
theorem walk_slot_of_ptr (host : Endian) (demangle : List UInt8 → Option (List UInt8))
    (data : List UInt8) (syms : List Symbol) (sh_text : Elf64_Shdr)
    (sym : Symbol) (i : Nat) (r : BinaryReader) (v : Nat) (hs : data.length < WORD)
    (h : ptr_at host data (ptr_width r) (sym.1.st_value + (i + 3) * ptr_width r) = some v) :
    walk_slot host demangle data syms sh_text (ptr_width r) sym i r =
      (slot_entry demangle data syms sh_text v,
       { cur := sym.1.st_value + (i + 3) * ptr_width r + ptr_width r,
         is_32bit := r.is_32bit }) := by
  unfold ptr_at at h
  split at h
  · next hle =>
    simp only [Option.some.injEq] at h
    have hpos := ptr_width_pos r
    have hoff : slot_offset (ptr_width r) sym i = sym.1.st_value + (i + 3) * ptr_width r := by
      unfold slot_offset
      exact Nat.mod_eq_of_lt (by omega)
    unfold walk_slot
    dsimp only
    rw [hoff, if_neg (by omega)]
    have hrd := read_ptr_in host data (r.seek (sym.1.st_value + (i + 3) * ptr_width r))
      (by simpa [BinaryReader.seek, ptr_width] using hle) hs
    have hwd : ptr_width (r.seek (sym.1.st_value + (i + 3) * ptr_width r)) = ptr_width r := rfl
    rw [hwd] at hrd
    rw [hrd]
    simp only [BinaryReader.seek, h]
  · simp at h

theorem slot_result_of_ptr (host : Endian) (demangle : List UInt8 → Option (List UInt8))
    (data : List UInt8) (syms : List Symbol) (sh_text : Elf64_Shdr)
    (sym : Symbol) (i : Nat) (r : BinaryReader) (v : Nat) (hs : data.length < WORD)
    (h : ptr_at host data (ptr_width r) (sym.1.st_value + (i + 3) * ptr_width r) = some v) :
    slot_result host demangle data syms sh_text (ptr_width r) sym r i =
      slot_entry demangle data syms sh_text v := by
  unfold slot_result
  rw [walk_slot_of_ptr host demangle data syms sh_text sym i r v hs h]

/-- The header is read with the width flag of its class byte. -/
theorem spec_read_ehdr (host : Endian) (data : List UInt8) :
    Spec (fun p => p.2.is_32bit = is_class32 p.1.e_ident) (fun _ => True)
      (read_ehdr host data) := by
  unfold read_ehdr
  refine spec_bind (spec_mono (spec_read_ident host data BinaryReader.new) (fun _ h => h)
    (fun _ _ => trivial)) ?_
  rintro ⟨e_ident, r⟩ -
  refine spec_mono (spec_read_ehdr_fields host data e_ident r) ?_ (fun _ _ => trivial)
  rintro ⟨ehdr, r'⟩ ⟨h1, h2⟩
  simp only at h1 h2 ⊢
  rw [h1, h2]

/-- After parsing, the pointer size of line 219 is the width of `read_ptr`: the walk of
`main` runs with `ptr_size = ptr_width bin`. -/
theorem parse_ptr_size (host : Endian) (data : List UInt8) (p : Parsed)
    (h : parse host data = .ok p) : ptr_size p.ehdr = ptr_width p.bin := by
  have key : Spec (fun p => ptr_size p.ehdr = ptr_width p.bin) (fun _ => True)
      (parse host data) := by
    unfold parse
    refine spec_bind (spec_read_ehdr host data) ?_
    rintro ⟨ehdr, r1⟩ h1
    refine spec_bind (spec_mono (spec_find_sections host data ehdr r1) (fun _ h => h)
      (fun _ _ => trivial)) ?_
    rintro ⟨secs, r2⟩ h2
    refine spec_bind (spec_mono (reads_parse_symbols host data ehdr secs r2) (fun _ h => h)
      (fun _ _ => trivial)) ?_
    rintro ⟨syms, r3⟩ h3
    refine spec_ok ?_
    simp only at h1 h2 h3 ⊢
    unfold ptr_size ptr_width
    rw [h3, h2, h1]
  have hq := spec_of_ok key h
  exact hq

/-! ## The walk loop returns -/

/-- While a slot lies inside the buffer the next slot is `ptr_size` bytes further on: the
sum does not wrap around. -/
theorem slot_offset_succ (data : List UInt8) (ptr_size : Nat) (sym : Symbol) (i : Nat)
    (hs : data.length + ptr_size ≤ WORD) (hoff : slot_offset ptr_size sym i < data.length) :
    slot_offset ptr_size sym (i + 1) = slot_offset ptr_size sym i + ptr_size := by
  unfold slot_offset at hoff ⊢
  have h1 : sym.1.st_value + (i + 1 + 3) * ptr_size =
      sym.1.st_value + (i + 3) * ptr_size + ptr_size := by ring
  rw [h1, ← Nat.mod_add_mod]
  generalize (sym.1.st_value + (i + 3) * ptr_size) % WORD = o at hoff ⊢
  exact Nat.mod_eq_of_lt (by omega)

/-- The walk entered at index `i`, when at most `n` further slots fit into the buffer,
returns for every fuel above `n`, and is left at index `i + n` at the latest; it is left
at that index only by the assertion of line 266. -/
theorem walk_from_bounded (host : Endian) (demangle : List UInt8 → Option (List UInt8))
    (data : List UInt8) (syms : List Symbol) (sh_text : Elf64_Shdr) (ptr_size : Nat)
    (sym : Symbol) (hs : data.length + ptr_size ≤ WORD) (n i : Nat) (r : BinaryReader)
    (acc : List Member)
    (hn : data.length ≤ slot_offset ptr_size sym i + n * ptr_size) :
    ∃ wr, (∀ fuel, n + 1 ≤ fuel →
        walk_from host demangle data syms sh_text ptr_size sym fuel i r acc = some wr) ∧
      wr.last ≤ i + n ∧
      (wr.stop ≠ .fault (.assertFailed .walkOffset) → wr.last + 1 ≤ i + n) := by
  induction n generalizing i r acc with
  | zero =>
    have hoff : ¬ slot_offset ptr_size sym i < data.length := by omega
    have hslot : walk_slot host demangle data syms sh_text ptr_size sym i r =
        (.fault (.assertFailed .walkOffset), r) := by
      unfold walk_slot
      dsimp only
      rw [if_pos hoff]
    refine ⟨⟨acc, i, .fault (.assertFailed .walkOffset), r⟩, ?_, le_refl _,
      fun h => absurd rfl h⟩
    intro fuel hf
    obtain ⟨k, rfl⟩ : ∃ k, fuel = k + 1 := ⟨fuel - 1, by omega⟩
    rw [walk_from, hslot]
  | succ n ih =>
    by_cases hoff : slot_offset ptr_size sym i < data.length
    · have hnext := slot_offset_succ data ptr_size sym i hs hoff
      have hmul : (n + 1) * ptr_size = n * ptr_size + ptr_size := by ring
      have hn' : data.length ≤ slot_offset ptr_size sym (i + 1) + n * ptr_size := by
        rw [hnext]
        rw [hmul] at hn
        omega
      cases hslot : walk_slot host demangle data syms sh_text ptr_size sym i r with
      | mk res r1 =>
        cases res with
        | nonCode =>
          refine ⟨⟨acc, i, .nonCode, r1⟩, ?_, by dsimp only; omega,
            fun _ => by dsimp only; omega⟩
          intro fuel hf
          obtain ⟨k, rfl⟩ : ∃ k, fuel = k + 1 := ⟨fuel - 1, by omega⟩
          rw [walk_from, hslot]
        | noSymbol =>
          obtain ⟨wr, hwr, h1, h2⟩ := ih (i + 1) r1 acc hn'
          refine ⟨wr, ?_, by omega, fun h => by have := h2 h; omega⟩
          intro fuel hf
          obtain ⟨k, rfl⟩ : ∃ k, fuel = k + 1 := ⟨fuel - 1, by omega⟩
          rw [walk_from, hslot]
          exact hwr k (by omega)
        | demangleFailed =>
          refine ⟨⟨acc, i, .demangleFailed, r1⟩, ?_, by dsimp only; omega,
            fun _ => by dsimp only; omega⟩
          intro fuel hf
          obtain ⟨k, rfl⟩ : ∃ k, fuel = k + 1 := ⟨fuel - 1, by omega⟩
          rw [walk_from, hslot]
        | entry m =>
          obtain ⟨wr, hwr, h1, h2⟩ := ih (i + 1) r1 (acc ++ [m]) hn'
          refine ⟨wr, ?_, by omega, fun h => by have := h2 h; omega⟩
          intro fuel hf
          obtain ⟨k, rfl⟩ : ∃ k, fuel = k + 1 := ⟨fuel - 1, by omega⟩
          rw [walk_from, hslot]
          exact hwr k (by omega)
        | fault f =>
          refine ⟨⟨acc, i, .fault f, r1⟩, ?_, by dsimp only; omega,
            fun _ => by dsimp only; omega⟩
          intro fuel hf
          obtain ⟨k, rfl⟩ : ∃ k, fuel = k + 1 := ⟨fuel - 1, by omega⟩
          rw [walk_from, hslot]
    · have hslot : walk_slot host demangle data syms sh_text ptr_size sym i r =
          (.fault (.assertFailed .walkOffset), r) := by
        unfold walk_slot
        dsimp only
        rw [if_pos hoff]
      refine ⟨⟨acc, i, .fault (.assertFailed .walkOffset), r⟩, ?_, by dsimp only; omega,
        fun h => absurd rfl h⟩
      intro fuel hf
      obtain ⟨k, rfl⟩ : ∃ k, fuel = k + 1 := ⟨fuel - 1, by omega⟩
      rw [walk_from, hslot]

/-- The symbols `main` builds do not depend on the file offset of `.symtab`: between the
section scan and the symbol loop the reader is not moved. -/
theorem parse_symbols_ignores_symtab_offset (host : Endian) (data : List UInt8)
    (ehdr : Elf64_Ehdr) (secs : Sections) (r : BinaryReader) (off : Nat) :
    parse_symbols host data ehdr
        { secs with sh_symtab := { secs.sh_symtab with sh_offset := off } } r =
      parse_symbols host data ehdr secs r := rfl

set_option maxRecDepth 100000 in
/-- C1 (fails on the code): on the well-formed file `elf32_example`, whose `.symtab` at
file offset 60 holds the three records null, `a` (name offset 23, value 52, size 4,
info 0x12, section 1) and `b` (name offset 25, value 56, size 4, info 0x12, section 1),
the program builds three symbols that are all zero and all named by the empty string at
offset 108: it reads them at the cursor the section scan left (296, the end of the file),
not at the offset of `.symtab`.  Reading three records at offset 60 gives the records of
the section, with the names `a` and `b`. -/
theorem C1_symbols_read_at_stale_cursor :
    (parse .little elf32_example).map (fun p => (p.secs.sh_symtab.sh_offset,
        p.secs.sh_symtab.sh_size, p.secs.sh_symtab.sh_entsize, p.bin.cur, p.syms)) =
      .ok (60, 48, 16, 296,
        [({ st_name := 0, st_info := 0, st_other := 0, st_shndx := 0, st_value := 0,
            st_size := 0 }, 108),
         ({ st_name := 0, st_info := 0, st_other := 0, st_shndx := 0, st_value := 0,
            st_size := 0 }, 108),
         ({ st_name := 0, st_info := 0, st_other := 0, st_shndx := 0, st_value := 0,
            st_size := 0 }, 108)]) ∧
    (parse .little elf32_example >>= fun p =>
        read_syms .little elf32_example p.ehdr p.secs.sh_strtab 3
          (p.bin.seek p.secs.sh_symtab.sh_offset)).map (fun q => q.1) =
      .ok [({ st_name := 0, st_info := 0, st_other := 0, st_shndx := 0, st_value := 0,
              st_size := 0 }, 108),
           ({ st_name := 23, st_info := 0x12, st_other := 0, st_shndx := 1, st_value := 52,
              st_size := 4 }, 131),
           ({ st_name := 25, st_info := 0x12, st_other := 0, st_shndx := 1, st_value := 56,
              st_size := 4 }, 133)] ∧
    cstr elf32_example 108 = some [] ∧
    cstr elf32_example 131 = some [0x61] ∧
    cstr elf32_example 133 = some [0x62] := by
  refine ⟨by rfl, by rfl, by rfl, by rfl, by rfl⟩

/-! ## C7: the bounds guard of `read_core_type` -/

set_option maxRecDepth 100000 in
/-- C7 (fails on the code): with the cursor at `2 ^ 64 - 1` and an 8-byte read over an
8-byte buffer, `cursor + w` exceeds the buffer length, yet the read does not return zero:
the `size_t` sum wraps to 7, the guard does not fire and the object is loaded from
outside the buffer.  `main` reaches this state on `elf64_wild_shoff`, where line 147
seeks to `e_shoff = 2 ^ 64 - 1` and `read_shdr` starts with `read_u32`. -/
theorem C7_guard_wraps_around :
    (2 ^ 64 - 1) + 8 > ([0, 0, 0, 0, 0, 0, 0, 0] : List UInt8).length ∧
    read_core_type .little [0, 0, 0, 0, 0, 0, 0, 0] 8 { cur := 2 ^ 64 - 1, is_32bit := false } =
      .error (.undefinedBehaviour .loadOutsideBuffer) ∧
    parse .little elf64_wild_shoff = .error (.undefinedBehaviour .loadOutsideBuffer) := by
  refine ⟨by decide, by rfl, by rfl⟩

/-! ## C2: the magic test -/

theorem hostValue_singleton (host : Endian) (b : UInt8) : hostValue host [b] = b.toNat := by
  cases host <;> simp [hostValue, leValue]

/-- A one-byte read inside the vector. -/
theorem read_u8_lt (host : Endian) (data : List UInt8) (r : BinaryReader)
    (h : r.cur < data.length) (hw : r.cur + 1 < WORD) :
    read_u8 host data r = .ok ((data.getD r.cur 0).toNat, { r with cur := r.cur + 1 }) := by
  have hm : (r.cur + 1) % WORD = r.cur + 1 := Nat.mod_eq_of_lt hw
  unfold read_u8 read_core_type
  rw [hm, if_neg (by omega), if_pos (by omega)]
  have hd : List.take 1 (List.drop r.cur data) = [data.getD r.cur 0] := by
    rw [List.getD_eq_getElem _ _ h, List.drop_eq_getElem_cons h]
    rfl
  rw [hd, hostValue_singleton]

/-- A one-byte read at or behind the end of the vector. -/
theorem read_u8_ge (host : Endian) (data : List UInt8) (r : BinaryReader)
    (h : data.length ≤ r.cur) (hw : r.cur + 1 < WORD) :
    read_u8 host data r = .ok (0, r) :=
  read_core_type_out host data 1 r (by omega) hw

theorem getD_toNat_of_le (data : List UInt8) (n : Nat) (h : data.length ≤ n) :
    (data.getD n 0).toNat = 0 := by
  rw [List.getD_eq_default _ _ h]; rfl

/-- `read_bytes` away from the end of the address space: byte `j` of the result is the
file byte under the cursor plus `j`, or zero where the file has ended. -/
theorem read_bytes_spec (host : Endian) (data : List UInt8) (len : Nat) (r : BinaryReader)
    (hw : r.cur + len < WORD) :
    ∃ bs r', read_bytes host data len r = .ok (bs, r') ∧ bs.length = len ∧
      (∀ j, j < len → bs.getD j 0 = (data.getD (r.cur + j) 0).toNat) ∧
      r'.cur = max r.cur (min (r.cur + len) data.length) ∧ r'.is_32bit = r.is_32bit := by
  induction len generalizing r with
  | zero =>
    refine ⟨[], r, rfl, rfl, ?_, ?_, rfl⟩
    · intro j hj; omega
    · simp
  | succ n ih =>
    unfold read_bytes
    by_cases hc : r.cur < data.length
    · rw [read_u8_lt host data r hc (by omega)]
      obtain ⟨bs, r', hbs, hlen, hget, hcur, hflag⟩ :=
        ih { r with cur := r.cur + 1 } (by simp only; omega)
      refine ⟨(data.getD r.cur 0).toNat :: bs, r', ?_, by simp [hlen], ?_, ?_, hflag⟩
      · simp [hbs]
      · intro j hj
        cases j with
        | zero => simp
        | succ j =>
          have := hget j (by omega)
          simp only [List.getD_cons_succ]
          rw [this]
          congr 2
          simp only; omega
      · rw [hcur]; simp only; omega
    · rw [read_u8_ge host data r (by omega) (by omega)]
      obtain ⟨bs, r', hbs, hlen, hget, hcur, hflag⟩ := ih r (by omega)
      refine ⟨0 :: bs, r', ?_, by simp [hlen], ?_, ?_, hflag⟩
      · simp [hbs]
      · intro j hj
        rw [getD_toNat_of_le data _ (by omega)]
        cases j with
        | zero => simp
        | succ j =>
          have := hget j (by omega)
          simp only [List.getD_cons_succ]
          rw [this, getD_toNat_of_le data _ (by omega)]
      · rw [hcur]; omega

theorem toNat_eq_iff (a : UInt8) (n : Nat) (h : n < 256) :
    a.toNat = n ↔ a = UInt8.ofNat n := by
  constructor
  · intro ha
    apply UInt8.ext
    rw [ha]
    show n = (UInt8.ofNat n).toNat
    rw [show (UInt8.ofNat n).toNat = n % 256 from rfl, Nat.mod_eq_of_lt h]
  · intro ha
    rw [ha, show (UInt8.ofNat n).toNat = n % 256 from rfl, Nat.mod_eq_of_lt h]

/-- The first four identity bytes equal the magic exactly when the first four file bytes
do; a file of fewer than four bytes never passes. -/
theorem ident_magic_iff (data : List UInt8) (bs : List Nat) (hlen : bs.length = 16)
    (hget : ∀ j, j < 16 → bs.getD j 0 = (data.getD j 0).toNat) :
    bs.take 4 = ElfMagic ↔ data.take 4 = ElfMagicBytes := by
  obtain _ | ⟨b0, _ | ⟨b1, _ | ⟨b2, _ | ⟨b3, rest⟩⟩⟩⟩ := bs <;> simp at hlen
  have h0 := hget 0 (by omega)
  have h1 := hget 1 (by omega)
  have h2 := hget 2 (by omega)
  have h3 := hget 3 (by omega)
  simp only [List.getD_cons_zero, List.getD_cons_succ] at h0 h1 h2 h3
  subst h0 h1 h2 h3
  obtain _ | ⟨a0, _ | ⟨a1, _ | ⟨a2, _ | ⟨a3, tl⟩⟩⟩⟩ := data <;>
    simp [ElfMagic, ElfMagicBytes, toNat_eq_iff]

/-- The identity stage on a fresh reader: it fails, with the magic error, exactly when the
first four file bytes are not the magic. -/
theorem read_ident_new (host : Endian) (data : List UInt8) :
    (data.take 4 ≠ ElfMagicBytes →
      read_ident host data BinaryReader.new = .error .notAnObjectFile) ∧
    (data.take 4 = ElfMagicBytes →
      ∃ e_ident r, read_ident host data BinaryReader.new = .ok (e_ident, r)) := by
  obtain ⟨bs, r', hbs, hlen, hget, -, -⟩ :=
    read_bytes_spec host data 16 BinaryReader.new (by simp [BinaryReader.new, WORD])
  have hget' : ∀ j, j < 16 → bs.getD j 0 = (data.getD j 0).toNat := by
    intro j hj
    have := hget j hj
    simpa [BinaryReader.new] using this
  have hiff := ident_magic_iff data bs hlen hget'
  constructor
  · intro hne
    unfold read_ident
    rw [hbs]
    simp only [bind_ok_eq]
    rw [if_pos (fun h => hne (hiff.mp h))]
  · intro heq
    refine ⟨bs, r', ?_⟩
    unfold read_ident
    rw [hbs]
    simp only [bind_ok_eq]
    rw [if_neg (fun h => h (hiff.mpr heq))]

/-- Once the magic test has passed, the parsing stages cannot end in the magic error. -/
theorem spec_parse_of_magic (host : Endian) (data : List UInt8)
    (h : data.take 4 = ElfMagicBytes) :
    Spec (fun _ => True) (fun e => e ≠ .notAnObjectFile) (parse host data) := by
  obtain ⟨e_ident, r, hid⟩ := (read_ident_new host data).2 h
  unfold parse read_ehdr
  rw [hid]
  simp only [bind_ok_eq]
  refine spec_bind (spec_mono (spec_read_ehdr_fields host data e_ident r) (fun _ h => h)
    (fun _ => isAbort_ne_magic)) ?_
  rintro ⟨ehdr, r1⟩ -
  refine spec_bind (spec_find_sections host data ehdr r1) ?_
  rintro ⟨secs, r2⟩ -
  refine spec_bind (spec_mono (reads_parse_symbols host data ehdr secs r2) (fun _ h => h)
    (fun _ => isAbort_ne_magic)) ?_
  rintro ⟨syms, r3⟩ -
  exact spec_ok trivial

/-- C2: for every input buffer, of any length, the run ends with the not-an-object-file
error if and only if the first four bytes of the buffer are not `0x7f 'E' 'L' 'F'` (a
buffer of fewer than four bytes has no such first four bytes).  When it ends this way
the failure is that of the identity stage (lines 109-114, which run before the first
`read_shdr` of line 148) and nothing has been printed. -/
theorem C2_not_an_object_file (host : Endian) (demangle : List UInt8 → Option (List UInt8))
    (filter : Option (List UInt8 → Bool)) (fuel : Nat) (data : List UInt8) :
    ((∃ out, run host demangle filter fuel data =
        some { tables := out, fault := some .notAnObjectFile }) ↔
      data.take 4 ≠ ElfMagicBytes) ∧
    (data.take 4 ≠ ElfMagicBytes →
      read_ident host data BinaryReader.new = .error .notAnObjectFile ∧
      run host demangle filter fuel data =
        some { tables := [], fault := some .notAnObjectFile }) := by
  have hfail : data.take 4 ≠ ElfMagicBytes →
      read_ident host data BinaryReader.new = .error .notAnObjectFile ∧
      run host demangle filter fuel data =
        some { tables := [], fault := some .notAnObjectFile } := by
    intro hne
    have hid := (read_ident_new host data).1 hne
    refine ⟨hid, ?_⟩
    have hp : parse host data = .error .notAnObjectFile := by
      unfold parse read_ehdr
      rw [hid]
      rfl
    unfold run
    rw [hp]
  refine ⟨⟨?_, fun hne => ⟨[], (hfail hne).2⟩⟩, hfail⟩
  rintro ⟨out, hrun⟩ heq
  have hspec := spec_parse_of_magic host data heq
  unfold run at hrun
  cases hp : parse host data with
  | error e =>
    rw [hp] at hrun hspec
    simp only [Option.some.injEq, Output.mk.injEq] at hrun
    exact hspec hrun.2
  | ok p =>
    rw [hp] at hrun
    exact (dump_fault host demangle filter data _ _ _ fuel _ _ _ _ _ hrun rfl).1 rfl

/-! ## C3: the section lookup by name -/

/-- Reading a section header starts with a seek: only the width flag of the reader
matters. -/
theorem read_shdr_at_congr (host : Endian) (data : List UInt8) (ehdr : Elf64_Ehdr) (i : Nat)
    (r r' : BinaryReader) (h : r.is_32bit = r'.is_32bit) :
    read_shdr_at host data ehdr i r = read_shdr_at host data ehdr i r' := by
  unfold read_shdr_at
  have : ∀ off, r.seek off = r'.seek off := by
    intro off
    cases r; cases r'
    simp only [BinaryReader.seek, BinaryReader.mk.injEq, true_and]
    exact h
  simp only [this]

theorem section_name_congr (host : Endian) (data : List UInt8) (ehdr : Elf64_Ehdr)
    (shstrtabhdr : Elf64_Shdr) (i : Nat) (r r' : BinaryReader)
    (h : r.is_32bit = r'.is_32bit) :
    section_name host data ehdr shstrtabhdr r i =
      section_name host data ehdr shstrtabhdr r' i := by
  unfold section_name
  rw [read_shdr_at_congr host data ehdr i r r' h]

theorem last_named_succ (host : Endian) (data : List UInt8) (ehdr : Elf64_Ehdr)
    (shstrtabhdr : Elf64_Shdr) (r : BinaryReader) (lit : List UInt8) (m : Nat) :
    last_named host data ehdr shstrtabhdr r lit (m + 1) =
      if section_name host data ehdr shstrtabhdr r m = some lit then
        match read_shdr_at host data ehdr m r with
        | .ok (shdr, _) => some shdr
        | .error _ => none
      else
        last_named host data ehdr shstrtabhdr r lit m := rfl

theorem last_named_congr (host : Endian) (data : List UInt8) (ehdr : Elf64_Ehdr)
    (shstrtabhdr : Elf64_Shdr) (lit : List UInt8) (m : Nat) (r r' : BinaryReader)
    (h : r.is_32bit = r'.is_32bit) :
    last_named host data ehdr shstrtabhdr r lit m =
      last_named host data ehdr shstrtabhdr r' lit m := by
  induction m with
  | zero => rfl
  | succ m ih =>
    rw [last_named_succ, last_named_succ,
      section_name_congr host data ehdr shstrtabhdr m r r' h,
      read_shdr_at_congr host data ehdr m r r' h, ih]

theorem lits_distinct : dot_text ≠ dot_symtab ∧ dot_text ≠ dot_strtab ∧
    dot_symtab ≠ dot_strtab := by
  refine ⟨by decide, by decide, by decide⟩

theorem lits_no_terminator : (0 : UInt8) ∉ dot_text ∧ (0 : UInt8) ∉ dot_symtab ∧
    (0 : UInt8) ∉ dot_strtab := by
  refine ⟨by decide, by decide, by decide⟩

/-- What `strcmp` with a literal returns: it reads past the end of the buffer when the
bytes up to the end agree with the literal, and otherwise tells whether the string at
the pointer is the literal. -/
theorem strcmp_eq_eq (data : List UInt8) (p : Nat) (lit : List UInt8)
    (hlit : (0 : UInt8) ∉ lit) :
    strcmp_eq data p lit =
      if reads_past_end data p lit = true then
        .error (.undefinedBehaviour .unterminatedString)
      else .ok (decide (cstr data p = some lit)) := by
  induction lit generalizing p with
  | nil =>
    unfold strcmp_eq reads_past_end cstr
    cases hget : data[p]? with
    | none =>
      have hlen : data.length ≤ p := by
        rw [List.getElem?_eq_none_iff] at hget
        exact hget
      simp [List.drop_eq_nil_of_le hlen]
    | some b =>
      have hlt : p < data.length := by
        rcases Nat.lt_or_ge p data.length with h | h
        · exact h
        · rw [List.getElem?_eq_none_iff.mpr h] at hget
          simp at hget
      have hb : data[p] = b := by
        rw [List.getElem?_eq_getElem hlt] at hget
        simpa using hget
      rw [List.drop_eq_getElem_cons hlt, hb]
      by_cases hb0 : b = 0
      · simp [cstrOf, hb0]
      · simp [cstrOf, hb0]
  | cons c cs ih =>
    have hc : c ≠ 0 := by
      intro h
      exact hlit (by simp [h])
    have hcs : (0 : UInt8) ∉ cs := by
      intro h
      exact hlit (by simp [h])
    unfold strcmp_eq
    cases hget : data[p]? with
    | none =>
      have hlen : data.length ≤ p := by
        rw [List.getElem?_eq_none_iff] at hget
        exact hget
      have h0 : data.length - p = 0 := by omega
      simp [reads_past_end, List.drop_eq_nil_of_le hlen, h0]
    | some b =>
      have hlt : p < data.length := by
        rcases Nat.lt_or_ge p data.length with h | h
        · exact h
        · rw [List.getElem?_eq_none_iff.mpr h] at hget
          simp at hget
      have hb : data[p] = b := by
        rw [List.getElem?_eq_getElem hlt] at hget
        simpa using hget
      have hk : data.length - p = (data.length - (p + 1)) + 1 := by omega
      have hrpe : reads_past_end data p (c :: cs) =
          (decide (b = c) && reads_past_end data (p + 1) cs) := by
        unfold reads_past_end
        rw [List.drop_eq_getElem_cons hlt, hb, hk, List.take_succ_cons]
        by_cases hbc : b = c
        · subst hbc
          simp
        · simp [hbc]
      have hcstr : cstr data p =
          if b = 0 then some [] else (cstr data (p + 1)).map (b :: ·) := by
        unfold cstr
        rw [List.drop_eq_getElem_cons hlt, hb]
        rfl
      dsimp only
      rw [hrpe, hcstr]
      by_cases hbc : b = c
      · subst hbc
        rw [if_pos rfl, ih (p + 1) hcs, if_neg hc]
        simp only [decide_True, Bool.true_and]
        congr 2
        cases cstr data (p + 1) <;> simp
      · rw [if_neg hbc]
        simp only [hbc, decide_False, Bool.false_and, Bool.false_eq_true, if_false]
        by_cases hb0 : b = 0
        · simp [hb0]
        · rw [if_neg hb0]
          cases cstr data (p + 1) <;> simp [hbc]

theorem cstrOf_none (l : List UInt8) (h : (0 : UInt8) ∉ l) : cstrOf l = none := by
  induction l with
  | nil => rfl
  | cons b bs ih =>
    have hb : b ≠ 0 := by
      intro hb
      exact h (by simp [hb])
    have hbs : (0 : UInt8) ∉ bs := by
      intro hbs
      exact h (by simp [hbs])
    simp [cstrOf, hb, ih hbs]

/-- A name that the end of the buffer cuts off is no terminated string. -/
theorem cstr_none_of_reads_past_end (data : List UInt8) (p : Nat) (lit : List UInt8)
    (hlit : (0 : UInt8) ∉ lit) (h : reads_past_end data p lit = true) :
    cstr data p = none := by
  unfold reads_past_end at h
  rw [beq_iff_eq] at h
  unfold cstr
  rw [h]
  exact cstrOf_none _ (fun hmem => hlit (List.mem_of_mem_take hmem))

/-- One pass of the section loop on a header whose name offset is in bounds and whose
name is not cut off by the end of the buffer. -/
theorem scan_step_eq (host : Endian) (data : List UInt8) (ehdr : Elf64_Ehdr)
    (shstrtabhdr : Elf64_Shdr) (st : Found × BinaryReader) (i : Nat) (shdr : Elf64_Shdr)
    (r' : BinaryReader)
    (hread : read_shdr_at host data ehdr i st.2 = .ok (shdr, r'))
    (hname : shdr.sh_name < shstrtabhdr.sh_size)
    (h1 : reads_past_end data (shstrtabhdr.sh_offset + shdr.sh_name) dot_text = false)
    (h2 : reads_past_end data (shstrtabhdr.sh_offset + shdr.sh_name) dot_symtab = false)
    (h3 : reads_past_end data (shstrtabhdr.sh_offset + shdr.sh_name) dot_strtab = false) :
    scan_step host data ehdr shstrtabhdr st i =
      .ok (if cstr data (shstrtabhdr.sh_offset + shdr.sh_name) = some dot_text then
             { st.1 with sho_text := some shdr }
           else if cstr data (shstrtabhdr.sh_offset + shdr.sh_name) = some dot_symtab then
             { st.1 with sho_symtab := some shdr }
           else if cstr data (shstrtabhdr.sh_offset + shdr.sh_name) = some dot_strtab then
             { st.1 with sho_strtab := some shdr }
           else st.1, r') := by
  have hl := lits_no_terminator
  unfold scan_step
  rw [hread]
  simp only [bind_ok_eq, hname, not_true_eq_false, if_false,
    strcmp_eq_eq _ _ _ hl.1, strcmp_eq_eq _ _ _ hl.2.1, strcmp_eq_eq _ _ _ hl.2.2,
    h1, h2, h3, Bool.false_eq_true, decide_eq_true_eq]
  split_ifs <;> rfl

/-- One pass of the section loop on a header whose name the end of the buffer cuts off
while it agrees with a required name: a comparison reads past the end. -/
theorem scan_step_cut (host : Endian) (data : List UInt8) (ehdr : Elf64_Ehdr)
    (shstrtabhdr : Elf64_Shdr) (st : Found × BinaryReader) (i : Nat) (shdr : Elf64_Shdr)
    (r' : BinaryReader)
    (hread : read_shdr_at host data ehdr i st.2 = .ok (shdr, r'))
    (hname : shdr.sh_name < shstrtabhdr.sh_size)
    (hcut : (reads_past_end data (shstrtabhdr.sh_offset + shdr.sh_name) dot_text ||
      reads_past_end data (shstrtabhdr.sh_offset + shdr.sh_name) dot_symtab ||
      reads_past_end data (shstrtabhdr.sh_offset + shdr.sh_name) dot_strtab) = true) :
    scan_step host data ehdr shstrtabhdr st i =
      .error (.undefinedBehaviour .unterminatedString) := by
  have hl := lits_no_terminator
  have hnone : cstr data (shstrtabhdr.sh_offset + shdr.sh_name) = none := by
    simp only [Bool.or_eq_true] at hcut
    rcases hcut with (h | h) | h
    · exact cstr_none_of_reads_past_end _ _ _ hl.1 h
    · exact cstr_none_of_reads_past_end _ _ _ hl.2.1 h
    · exact cstr_none_of_reads_past_end _ _ _ hl.2.2 h
  unfold scan_step
  rw [hread]
  simp only [bind_ok_eq, hname, not_true_eq_false, if_false,
    strcmp_eq_eq _ _ _ hl.1, strcmp_eq_eq _ _ _ hl.2.1, strcmp_eq_eq _ _ _ hl.2.2, hnone]
  simp only [Bool.or_eq_true] at hcut
  by_cases h1 : reads_past_end data (shstrtabhdr.sh_offset + shdr.sh_name) dot_text = true
  · simp [h1]
  · by_cases h2 :
        reads_past_end data (shstrtabhdr.sh_offset + shdr.sh_name) dot_symtab = true
    · simp [h1, h2]
    · have h3 : reads_past_end data (shstrtabhdr.sh_offset + shdr.sh_name) dot_strtab =
          true := by
        rcases hcut with (h | h) | h
        · exact absurd h h1
        · exact absurd h h2
        · exact h
      simp [h1, h2, h3]

theorem name_in_bounds_iff (host : Endian) (data : List UInt8) (ehdr : Elf64_Ehdr)
    (shstrtabhdr : Elf64_Shdr) (r : BinaryReader) (i : Nat) :
    name_in_bounds host data ehdr shstrtabhdr r i = true ↔
      ∃ shdr r', read_shdr_at host data ehdr i r = .ok (shdr, r') ∧
        shdr.sh_name < shstrtabhdr.sh_size := by
  unfold name_in_bounds
  cases hread : read_shdr_at host data ehdr i r with
  | error e => simp
  | ok p =>
    obtain ⟨shdr, r'⟩ := p
    simp only [decide_eq_true_eq, Except.ok.injEq, Prod.mk.injEq]
    constructor
    · intro h1
      exact ⟨shdr, r', ⟨rfl, rfl⟩, h1⟩
    · rintro ⟨shdr', r'', ⟨rfl, rfl⟩, h1⟩
      exact h1

theorem name_cut_congr (host : Endian) (data : List UInt8) (ehdr : Elf64_Ehdr)
    (shstrtabhdr : Elf64_Shdr) (i : Nat) (r r' : BinaryReader)
    (h : r.is_32bit = r'.is_32bit) :
    name_cut host data ehdr shstrtabhdr r i = name_cut host data ehdr shstrtabhdr r' i := by
  unfold name_cut
  rw [read_shdr_at_congr host data ehdr i r r' h]

/-- The state of the section loop after `m` passes, when every header up to `m` has its
name offset in bounds and no name is cut off: each optional holds the last header of
that name. -/
theorem scan_fold (host : Endian) (data : List UInt8) (ehdr : Elf64_Ehdr)
    (shstrtabhdr : Elf64_Shdr) (r1 : BinaryReader) (m : Nat)
    (hnames : ∀ i, i < m → name_in_bounds host data ehdr shstrtabhdr r1 i = true)
    (hcut : ∀ i, i < m → name_cut host data ehdr shstrtabhdr r1 i = false) :
    ∃ rm, (List.range m).foldlM (scan_step host data ehdr shstrtabhdr)
        ({ sho_text := none, sho_symtab := none, sho_strtab := none }, r1) =
      .ok ({ sho_text := last_named host data ehdr shstrtabhdr r1 dot_text m,
             sho_symtab := last_named host data ehdr shstrtabhdr r1 dot_symtab m,
             sho_strtab := last_named host data ehdr shstrtabhdr r1 dot_strtab m }, rm) ∧
      rm.is_32bit = r1.is_32bit := by
  induction m with
  | zero => exact ⟨r1, rfl, rfl⟩
  | succ m ih =>
    obtain ⟨rm, hfold, hflag⟩ := ih (fun i hi => hnames i (by omega))
      (fun i hi => hcut i (by omega))
    obtain ⟨shdr, r', hread, hname⟩ :=
      (name_in_bounds_iff host data ehdr shstrtabhdr r1 m).mp (hnames m (by omega))
    have hc := hcut m (by omega)
    unfold name_cut at hc
    rw [hread] at hc
    simp only [Bool.or_eq_false_iff] at hc
    have hread' : read_shdr_at host data ehdr m rm = .ok (shdr, r') := by
      rw [read_shdr_at_congr host data ehdr m rm r1 hflag, hread]
    have hr' : r'.is_32bit = r1.is_32bit := by
      have hrd := reads_shdr_at host data ehdr m r1
      unfold Reads at hrd
      have hq := spec_of_ok hrd hread
      exact hq
    refine ⟨r', ?_, hr'⟩
    rw [List.range_succ, List.foldlM_append, hfold]
    simp only [bind_ok_eq, List.foldlM_cons, List.foldlM_nil]
    rw [scan_step_eq host data ehdr shstrtabhdr _ m shdr r' hread' hname hc.1.1 hc.1.2 hc.2]
    have hsn : section_name host data ehdr shstrtabhdr r1 m =
        cstr data (shstrtabhdr.sh_offset + shdr.sh_name) := by
      unfold section_name; rw [hread]
    simp only [bind_ok_eq, pure_eq_ok]
    have hd := lits_distinct
    simp only [last_named_succ, hsn, hread]
    generalize cstr data (shstrtabhdr.sh_offset + shdr.sh_name) = s
    by_cases h1 : s = some dot_text
    · subst h1
      simp [hd.1, hd.2.1]
    · by_cases h2 : s = some dot_symtab
      · subst h2
        simp [hd.1.symm, hd.2.2]
      · by_cases h3 : s = some dot_strtab
        · subst h3
          simp [hd.2.1.symm, hd.2.2.symm]
        · simp [h1, h2, h3]

/-- The section loop over `m` headers with name offsets in bounds, one of which has a
name that is cut off: a comparison reads past the end of the buffer. -/
theorem scan_fold_cut (host : Endian) (data : List UInt8) (ehdr : Elf64_Ehdr)
    (shstrtabhdr : Elf64_Shdr) (r1 : BinaryReader) (m : Nat)
    (hnames : ∀ i, i < m → name_in_bounds host data ehdr shstrtabhdr r1 i = true)
    (hcut : ∃ i, i < m ∧ name_cut host data ehdr shstrtabhdr r1 i = true) :
    (List.range m).foldlM (scan_step host data ehdr shstrtabhdr)
        ({ sho_text := none, sho_symtab := none, sho_strtab := none }, r1) =
      .error (.undefinedBehaviour .unterminatedString) := by
  induction m with
  | zero =>
    obtain ⟨i, hi, -⟩ := hcut
    omega
  | succ m ih =>
    rw [List.range_succ, List.foldlM_append]
    by_cases hbefore : ∃ i, i < m ∧ name_cut host data ehdr shstrtabhdr r1 i = true
    · rw [ih (fun i hi => hnames i (by omega)) hbefore]
      rfl
    · have hnone : ∀ i, i < m → name_cut host data ehdr shstrtabhdr r1 i = false := by
        intro i hi
        cases hc : name_cut host data ehdr shstrtabhdr r1 i with
        | false => rfl
        | true => exact absurd ⟨i, hi, hc⟩ hbefore
      have hm : name_cut host data ehdr shstrtabhdr r1 m = true := by
        obtain ⟨i, hi, hc⟩ := hcut
        have him : i = m := by
          rcases Nat.lt_or_ge i m with h | h
          · rw [hnone i h] at hc
            simp at hc
          · omega
        rw [← him]
        exact hc
      obtain ⟨rm, hfold, hflag⟩ := scan_fold host data ehdr shstrtabhdr r1 m
        (fun i hi => hnames i (by omega)) hnone
      obtain ⟨shdr, r', hread, hname⟩ :=
        (name_in_bounds_iff host data ehdr shstrtabhdr r1 m).mp (hnames m (by omega))
      unfold name_cut at hm
      rw [hread] at hm
      have hread' : read_shdr_at host data ehdr m rm = .ok (shdr, r') := by
        rw [read_shdr_at_congr host data ehdr m rm r1 hflag, hread]
      rw [hfold]
      simp only [bind_ok_eq, List.foldlM_cons, List.foldlM_nil]
      rw [scan_step_cut host data ehdr shstrtabhdr _ m shdr r' hread' hname hm]
      rfl

/-- A header of the name exists below `m` exactly when `last_named` finds one. -/
theorem last_named_isSome (host : Endian) (data : List UInt8) (ehdr : Elf64_Ehdr)
    (shstrtabhdr : Elf64_Shdr) (r : BinaryReader) (lit : List UInt8) (m : Nat) :
    (last_named host data ehdr shstrtabhdr r lit m).isSome ↔
      ∃ i, i < m ∧ section_name host data ehdr shstrtabhdr r i = some lit := by
  induction m with
  | zero => simp [last_named]
  | succ m ih =>
    rw [last_named_succ]
    by_cases hm : section_name host data ehdr shstrtabhdr r m = some lit
    · rw [if_pos hm]
      have : ∃ shdr r', read_shdr_at host data ehdr m r = .ok (shdr, r') := by
        unfold section_name at hm
        split at hm
        · next shdr r' heq => exact ⟨shdr, r', heq⟩
        · simp at hm
      obtain ⟨shdr, r', hread⟩ := this
      rw [hread]
      simp only [Option.isSome_some, true_iff]
      exact ⟨m, by omega, hm⟩
    · rw [if_neg hm, ih]
      constructor
      · rintro ⟨i, hi, hn⟩
        exact ⟨i, by omega, hn⟩
      · rintro ⟨i, hi, hn⟩
        have : i ≠ m := by
          rintro rfl
          exact hm hn
        exact ⟨i, by omega, hn⟩

theorem require_sections_ok_iff (f : Found) :
    (∃ secs, require_sections f = .ok secs) ↔
      f.sho_text.isSome ∧ f.sho_symtab.isSome ∧ f.sho_strtab.isSome := by
  obtain ⟨t, s, st⟩ := f
  cases t <;> cases s <;> cases st <;> simp [require_sections]

theorem require_sections_error (f : Found)
    (h : ¬ (f.sho_text.isSome ∧ f.sho_symtab.isSome ∧ f.sho_strtab.isSome)) :
    require_sections f = .error .missingRequiredSection := by
  obtain ⟨t, s, st⟩ := f
  cases t <;> cases s <;> cases st <;> simp [require_sections] at h ⊢

theorem require_sections_error_eq (f : Found) (e : Fault)
    (h : require_sections f = .error e) : e = .missingRequiredSection := by
  obtain ⟨t, s, st⟩ := f
  cases t <;> cases s <;> cases st <;> simp [require_sections] at h <;> exact h.symm

/-- The section lookup when every header can be read with its name offset in bounds and
no name is cut off: it returns the headers `last_named` finds, or reports that one is
missing. -/
theorem find_sections_last_named (host : Endian) (data : List UInt8) (ehdr : Elf64_Ehdr)
    (r0 : BinaryReader) (shstrtabhdr : Elf64_Shdr) (r1 : BinaryReader)
    (hshstr : read_shdr_at host data ehdr ehdr.e_shstrndx r0 = .ok (shstrtabhdr, r1))
    (hbounds : check_strtab data .shstrtabInFile shstrtabhdr = .ok ())
    (hnames : ∀ i, i < ehdr.e_shnum →
      name_in_bounds host data ehdr shstrtabhdr r0 i = true)
    (hcut : ∀ i, i < ehdr.e_shnum → name_cut host data ehdr shstrtabhdr r0 i = false) :
    ∃ rm, find_sections host data ehdr r0 =
      (require_sections
        { sho_text := last_named host data ehdr shstrtabhdr r0 dot_text ehdr.e_shnum,
          sho_symtab := last_named host data ehdr shstrtabhdr r0 dot_symtab ehdr.e_shnum,
          sho_strtab := last_named host data ehdr shstrtabhdr r0 dot_strtab ehdr.e_shnum }
        >>= fun secs => .ok (secs, rm)) := by
  have hflag : r1.is_32bit = r0.is_32bit := by
    have hrd := reads_shdr_at host data ehdr ehdr.e_shstrndx r0
    unfold Reads at hrd
    have hq := spec_of_ok hrd hshstr
    exact hq
  have hnames1 : ∀ i, i < ehdr.e_shnum →
      name_in_bounds host data ehdr shstrtabhdr r1 i = true := by
    intro i hi
    have h := hnames i hi
    unfold name_in_bounds at h ⊢
    rw [read_shdr_at_congr host data ehdr i r1 r0 hflag]
    exact h
  have hcut1 : ∀ i, i < ehdr.e_shnum →
      name_cut host data ehdr shstrtabhdr r1 i = false := by
    intro i hi
    rw [name_cut_congr host data ehdr shstrtabhdr i r1 r0 hflag]
    exact hcut i hi
  obtain ⟨rm, hfold, -⟩ := scan_fold host data ehdr shstrtabhdr r1 ehdr.e_shnum hnames1 hcut1
  refine ⟨rm, ?_⟩
  rw [← last_named_congr host data ehdr shstrtabhdr dot_text ehdr.e_shnum r1 r0 hflag,
    ← last_named_congr host data ehdr shstrtabhdr dot_symtab ehdr.e_shnum r1 r0 hflag,
    ← last_named_congr host data ehdr shstrtabhdr dot_strtab ehdr.e_shnum r1 r0 hflag]
  unfold find_sections scan_sections
  rw [hshstr]
  simp only [bind_ok_eq, hbounds, hfold]

/-- The section lookup when every header can be read with its name offset in bounds and
one name is cut off by the end of the buffer: a comparison reads past the end. -/
theorem find_sections_cut (host : Endian) (data : List UInt8) (ehdr : Elf64_Ehdr)
    (r0 : BinaryReader) (shstrtabhdr : Elf64_Shdr) (r1 : BinaryReader)
    (hshstr : read_shdr_at host data ehdr ehdr.e_shstrndx r0 = .ok (shstrtabhdr, r1))
    (hbounds : check_strtab data .shstrtabInFile shstrtabhdr = .ok ())
    (hnames : ∀ i, i < ehdr.e_shnum →
      name_in_bounds host data ehdr shstrtabhdr r0 i = true)
    (hcut : ∃ i, i < ehdr.e_shnum ∧ name_cut host data ehdr shstrtabhdr r0 i = true) :
    find_sections host data ehdr r0 =
      .error (.undefinedBehaviour .unterminatedString) := by
  have hflag : r1.is_32bit = r0.is_32bit := by
    have hrd := reads_shdr_at host data ehdr ehdr.e_shstrndx r0
    unfold Reads at hrd
    have hq := spec_of_ok hrd hshstr
    exact hq
  have hnames1 : ∀ i, i < ehdr.e_shnum →
      name_in_bounds host data ehdr shstrtabhdr r1 i = true := by
    intro i hi
    have h := hnames i hi
    unfold name_in_bounds at h ⊢
    rw [read_shdr_at_congr host data ehdr i r1 r0 hflag]
    exact h
  have hcut1 : ∃ i, i < ehdr.e_shnum ∧ name_cut host data ehdr shstrtabhdr r1 i = true := by
    obtain ⟨i, hi, hc⟩ := hcut
    exact ⟨i, hi, by rw [name_cut_congr host data ehdr shstrtabhdr i r1 r0 hflag]; exact hc⟩
  have hfold := scan_fold_cut host data ehdr shstrtabhdr r1 ehdr.e_shnum hnames1 hcut1
  unfold find_sections scan_sections
  rw [hshstr]
  simp only [bind_ok_eq, hbounds, hfold]
  rfl

/-- The section lookup for an input that passes the magic check (the header is read),
whose section header string table passes the bounds check of lines 149-150 and whose
`e_shnum` section headers all have their name offset in bounds.  The behaviour is
undefined exactly when the end of the file cuts a name off while it agrees with one of
the three required names (a `strcmp` of lines 165-169 then reads past the buffer).  The
lookup succeeds if and only if that is not so and one header is named ".text", one
".symtab" and one ".strtab"; and if no name is cut off and one of the three names is
absent, the lookup, and with it the run, ends with the missing-required-section error
and no output. -/
theorem sections_by_name (host : Endian) (demangle : List UInt8 → Option (List UInt8))
    (filter : Option (List UInt8 → Bool)) (fuel : Nat) (data : List UInt8)
    (ehdr : Elf64_Ehdr) (r0 : BinaryReader) (shstrtabhdr : Elf64_Shdr) (r1 : BinaryReader)
    (hmagic : read_ehdr host data = .ok (ehdr, r0))
    (hshstr : read_shdr_at host data ehdr ehdr.e_shstrndx r0 = .ok (shstrtabhdr, r1))
    (hbounds : check_strtab data .shstrtabInFile shstrtabhdr = .ok ())
    (hnames : ∀ i, i < ehdr.e_shnum →
      name_in_bounds host data ehdr shstrtabhdr r0 i = true) :
    (find_sections host data ehdr r0 = .error (.undefinedBehaviour .unterminatedString) ↔
      ∃ i, i < ehdr.e_shnum ∧ name_cut host data ehdr shstrtabhdr r0 i = true) ∧
    ((∃ secs r', find_sections host data ehdr r0 = .ok (secs, r')) ↔
      (∀ i, i < ehdr.e_shnum → name_cut host data ehdr shstrtabhdr r0 i = false) ∧
      has_section host data ehdr shstrtabhdr r0 dot_text ∧
      has_section host data ehdr shstrtabhdr r0 dot_symtab ∧
      has_section host data ehdr shstrtabhdr r0 dot_strtab) ∧
    ((∀ i, i < ehdr.e_shnum → name_cut host data ehdr shstrtabhdr r0 i = false) →
      ¬ (has_section host data ehdr shstrtabhdr r0 dot_text ∧
        has_section host data ehdr shstrtabhdr r0 dot_symtab ∧
        has_section host data ehdr shstrtabhdr r0 dot_strtab) →
      find_sections host data ehdr r0 = .error .missingRequiredSection ∧
      run host demangle filter fuel data =
        some { tables := [], fault := some .missingRequiredSection }) := by
  have hsome : ∀ lit, (last_named host data ehdr shstrtabhdr r0 lit ehdr.e_shnum).isSome ↔
      has_section host data ehdr shstrtabhdr r0 lit := fun lit =>
    last_named_isSome host data ehdr shstrtabhdr r0 lit ehdr.e_shnum
  have hok := require_sections_ok_iff
    { sho_text := last_named host data ehdr shstrtabhdr r0 dot_text ehdr.e_shnum,
      sho_symtab := last_named host data ehdr shstrtabhdr r0 dot_symtab ehdr.e_shnum,
      sho_strtab := last_named host data ehdr shstrtabhdr r0 dot_strtab ehdr.e_shnum }
  simp only [hsome] at hok
  have hdich : (∃ i, i < ehdr.e_shnum ∧ name_cut host data ehdr shstrtabhdr r0 i = true) ∨
      ∀ i, i < ehdr.e_shnum → name_cut host data ehdr shstrtabhdr r0 i = false := by
    by_cases h : ∃ i, i < ehdr.e_shnum ∧ name_cut host data ehdr shstrtabhdr r0 i = true
    · exact Or.inl h
    · right
      intro i hi
      cases hc : name_cut host data ehdr shstrtabhdr r0 i with
      | false => rfl
      | true => exact absurd ⟨i, hi, hc⟩ h
  have hnocut : (∀ i, i < ehdr.e_shnum → name_cut host data ehdr shstrtabhdr r0 i = false) →
      ∃ rm, find_sections host data ehdr r0 =
        (require_sections
          { sho_text := last_named host data ehdr shstrtabhdr r0 dot_text ehdr.e_shnum,
            sho_symtab := last_named host data ehdr shstrtabhdr r0 dot_symtab ehdr.e_shnum,
            sho_strtab := last_named host data ehdr shstrtabhdr r0 dot_strtab ehdr.e_shnum }
          >>= fun secs => .ok (secs, rm)) := fun hcut =>
    find_sections_last_named host data ehdr r0 shstrtabhdr r1 hshstr hbounds hnames hcut
  refine ⟨⟨?_, ?_⟩, ⟨?_, ?_⟩, ?_⟩
  · intro hub
    rcases hdich with h | h
    · exact h
    · obtain ⟨rm, hfind⟩ := hnocut h
      rw [hfind] at hub
      cases hreq : require_sections
        { sho_text := last_named host data ehdr shstrtabhdr r0 dot_text ehdr.e_shnum,
          sho_symtab := last_named host data ehdr shstrtabhdr r0 dot_symtab ehdr.e_shnum,
          sho_strtab := last_named host data ehdr shstrtabhdr r0 dot_strtab ehdr.e_shnum }
        with
      | ok s => rw [hreq] at hub; simp at hub
      | error e =>
        have he := require_sections_error_eq _ e hreq
        rw [hreq] at hub
        simp only [bind_error_eq, Except.error.injEq] at hub
        rw [he] at hub
        simp at hub
  · intro hcut
    exact find_sections_cut host data ehdr r0 shstrtabhdr r1 hshstr hbounds hnames hcut
  · rintro ⟨secs, r', h⟩
    rcases hdich with hc | hc
    · rw [find_sections_cut host data ehdr r0 shstrtabhdr r1 hshstr hbounds hnames hc] at h
      simp at h
    · refine ⟨hc, ?_⟩
      obtain ⟨rm, hfind⟩ := hnocut hc
      rw [hfind] at h
      rw [← hok]
      cases hreq : require_sections
        { sho_text := last_named host data ehdr shstrtabhdr r0 dot_text ehdr.e_shnum,
          sho_symtab := last_named host data ehdr shstrtabhdr r0 dot_symtab ehdr.e_shnum,
          sho_strtab := last_named host data ehdr shstrtabhdr r0 dot_strtab ehdr.e_shnum }
        with
      | ok s => exact ⟨s, rfl⟩
      | error e => rw [hreq] at h; simp at h
  · rintro ⟨hc, hall⟩
    obtain ⟨rm, hfind⟩ := hnocut hc
    obtain ⟨secs, hsecs⟩ := hok.mpr hall
    exact ⟨secs, rm, by rw [hfind, hsecs]; rfl⟩
  · intro hc habsent
    obtain ⟨rm, hfind⟩ := hnocut hc
    have herr : find_sections host data ehdr r0 = .error .missingRequiredSection := by
      rw [hfind, require_sections_error _ (by simpa only [hsome] using habsent)]
      rfl
    refine ⟨herr, ?_⟩
    have hp : parse host data = .error .missingRequiredSection := by
      unfold parse
      rw [hmagic]
      simp only [bind_ok_eq, herr]
      rfl
    unfold run
    rw [hp]

set_option maxRecDepth 100000 in
/-- The section lookup at `elf32_example`: the hypotheses hold there, no name is cut off
and the three names are present. -/
theorem sections_by_name_example :
    ((∃ secs r', find_sections .little elf32_example elf32_ehdr
        { cur := 52, is_32bit := true } = .ok (secs, r')) ↔
      (∀ i, i < elf32_ehdr.e_shnum → name_cut .little elf32_example elf32_ehdr elf32_strtab
        { cur := 52, is_32bit := true } i = false) ∧
      has_section .little elf32_example elf32_ehdr elf32_strtab
        { cur := 52, is_32bit := true } dot_text ∧
      has_section .little elf32_example elf32_ehdr elf32_strtab
        { cur := 52, is_32bit := true } dot_symtab ∧
      has_section .little elf32_example elf32_ehdr elf32_strtab
        { cur := 52, is_32bit := true } dot_strtab) ∧
    (∀ i, i < elf32_ehdr.e_shnum → name_cut .little elf32_example elf32_ehdr elf32_strtab
      { cur := 52, is_32bit := true } i = false) ∧
    has_section .little elf32_example elf32_ehdr elf32_strtab
      { cur := 52, is_32bit := true } dot_text :=
  ⟨(sections_by_name .little (fun _ => none) none 0 elf32_example elf32_ehdr
      { cur := 52, is_32bit := true } elf32_strtab { cur := 296, is_32bit := true }
      (by rfl) (by rfl) (by rfl) (by decide)).2.1,
    by decide, ⟨1, by decide, by rfl⟩⟩

set_option maxRecDepth 100000 in
/-- C3 (fails on the code): `elf32_cut_name` passes the magic check, its section header
string table passes the bounds check, the name offsets of its four headers are in
bounds, and the headers 1, 2 and 3 are named ".text", ".symtab" and ".strtab"; the
claim has section discovery succeed.  But the name of header 0 is the two characters
".t" at the end of the file, with no terminator: `strcmp(name, ".text")` of line 165
finds no difference in them and reads past the end of the buffer.  On every input that
meets the conditions of the claim and has no name cut off in this way, discovery
succeeds if and only if the three names are present, and the run ends with the
missing-required-section error if one is absent. -/
theorem C3_name_cut_off_by_end_of_file :
    (read_ehdr .little elf32_cut_name = .ok (cut_ehdr, { cur := 52, is_32bit := true }) ∧
      read_shdr_at .little elf32_cut_name cut_ehdr cut_ehdr.e_shstrndx
        { cur := 52, is_32bit := true } = .ok (cut_strtab, { cur := 212, is_32bit := true }) ∧
      check_strtab elf32_cut_name .shstrtabInFile cut_strtab = .ok () ∧
      (∀ i, i < cut_ehdr.e_shnum → name_in_bounds .little elf32_cut_name cut_ehdr cut_strtab
        { cur := 52, is_32bit := true } i = true) ∧
      section_name .little elf32_cut_name cut_ehdr cut_strtab
        { cur := 52, is_32bit := true } 1 = some dot_text ∧
      section_name .little elf32_cut_name cut_ehdr cut_strtab
        { cur := 52, is_32bit := true } 2 = some dot_symtab ∧
      section_name .little elf32_cut_name cut_ehdr cut_strtab
        { cur := 52, is_32bit := true } 3 = some dot_strtab ∧
      name_cut .little elf32_cut_name cut_ehdr cut_strtab
        { cur := 52, is_32bit := true } 0 = true ∧
      find_sections .little elf32_cut_name cut_ehdr { cur := 52, is_32bit := true } =
        .error (.undefinedBehaviour .unterminatedString) ∧
      run .little demangle_any none 10 elf32_cut_name =
        some { tables := [], fault := some (.undefinedBehaviour .unterminatedString) }) ∧
    (∀ (host : Endian) (demangle : List UInt8 → Option (List UInt8))
        (filter : Option (List UInt8 → Bool)) (fuel : Nat) (data : List UInt8)
        (ehdr : Elf64_Ehdr) (r0 : BinaryReader) (shstrtabhdr : Elf64_Shdr)
        (r1 : BinaryReader),
      read_ehdr host data = .ok (ehdr, r0) →
      read_shdr_at host data ehdr ehdr.e_shstrndx r0 = .ok (shstrtabhdr, r1) →
      check_strtab data .shstrtabInFile shstrtabhdr = .ok () →
      (∀ i, i < ehdr.e_shnum → name_in_bounds host data ehdr shstrtabhdr r0 i = true) →
      (find_sections host data ehdr r0 =
          .error (.undefinedBehaviour .unterminatedString) ↔
        ∃ i, i < ehdr.e_shnum ∧ name_cut host data ehdr shstrtabhdr r0 i = true) ∧
      ((∃ secs r', find_sections host data ehdr r0 = .ok (secs, r')) ↔
        (∀ i, i < ehdr.e_shnum → name_cut host data ehdr shstrtabhdr r0 i = false) ∧
        has_section host data ehdr shstrtabhdr r0 dot_text ∧
        has_section host data ehdr shstrtabhdr r0 dot_symtab ∧
        has_section host data ehdr shstrtabhdr r0 dot_strtab) ∧
      ((∀ i, i < ehdr.e_shnum → name_cut host data ehdr shstrtabhdr r0 i = false) →
        ¬ (has_section host data ehdr shstrtabhdr r0 dot_text ∧
          has_section host data ehdr shstrtabhdr r0 dot_symtab ∧
          has_section host data ehdr shstrtabhdr r0 dot_strtab) →
        find_sections host data ehdr r0 = .error .missingRequiredSection ∧
        run host demangle filter fuel data =
          some { tables := [], fault := some .missingRequiredSection })) := by
  refine ⟨⟨by rfl, by rfl, by rfl, by decide, by rfl, by rfl, by rfl, by rfl, by rfl,
    by rfl⟩, ?_⟩
  intro host demangle filter fuel data ehdr r0 shstrtabhdr r1 hmagic hshstr hbounds hnames
  exact sections_by_name host demangle filter fuel data ehdr r0 shstrtabhdr r1 hmagic
    hshstr hbounds hnames

/-! ## C4: the walk ends at the first slot that is not a code address -/

theorem slot_entry_entry (demangle : List UInt8 → Option (List UInt8)) (data : List UInt8)
    (syms : List Symbol) (sh_text : Elf64_Shdr) (v : Nat) (s : Symbol)
    (mangled name : List UInt8) (hc : in_code sh_text v = true)
    (hf : find_func_sym syms v = some s) (hn : cstr data s.2 = some mangled)
    (hd : demangle mangled = some name) :
    slot_entry demangle data syms sh_text v =
      .entry { name := name, name_mangled := mangled } := by
  unfold slot_entry
  simp [hc, hf, hn, hd]

theorem slot_entry_nonCode (demangle : List UInt8 → Option (List UInt8)) (data : List UInt8)
    (syms : List Symbol) (sh_text : Elf64_Shdr) (v : Nat) (hc : in_code sh_text v = false) :
    slot_entry demangle data syms sh_text v = .nonCode := by
  unfold slot_entry
  simp [hc]

theorem slot_entry_noSymbol (demangle : List UInt8 → Option (List UInt8)) (data : List UInt8)
    (syms : List Symbol) (sh_text : Elf64_Shdr) (v : Nat) (hc : in_code sh_text v = true)
    (hf : find_func_sym syms v = none) :
    slot_entry demangle data syms sh_text v = .noSymbol := by
  unfold slot_entry
  simp [hc, hf]

theorem slot_entry_demangleFailed (demangle : List UInt8 → Option (List UInt8))
    (data : List UInt8) (syms : List Symbol) (sh_text : Elf64_Shdr) (v : Nat) (s : Symbol)
    (mangled : List UInt8) (hc : in_code sh_text v = true)
    (hf : find_func_sym syms v = some s) (hn : cstr data s.2 = some mangled)
    (hd : demangle mangled = none) :
    slot_entry demangle data syms sh_text v = .demangleFailed := by
  unfold slot_entry
  simp [hc, hf, hn, hd]

theorem ptr_width_congr (r r' : BinaryReader) (h : r'.is_32bit = r.is_32bit) :
    ptr_width r' = ptr_width r := by
  unfold ptr_width; rw [h]

/-- When every pass prints a member, the members are those of the slots, in slot order. -/
theorem members_of_entries (f : Nat → SlotResult) (m : Nat → Member) (i n : Nat)
    (h : ∀ j, i ≤ j → j < i + n → f j = .entry (m j)) :
    members_of f i n = (List.range' i n).map m := by
  induction n generalizing i with
  | zero => rfl
  | succ n ih =>
    rw [members_of, h i (le_refl i) (by omega), ih (i + 1) (fun j h1 h2 => h j (by omega) (by omega))]
    simp [slot_members, List.range'_succ]

/-- The walk of a candidate whose passes below `k` all go on and whose pass `k` does not:
the loop is left in pass `k` with the members of the passes below `k`. -/
theorem walk_stops (host : Endian) (demangle : List UInt8 → Option (List UInt8))
    (data : List UInt8) (syms : List Symbol) (sh_text : Elf64_Shdr) (ptr_size : Nat)
    (sym : Symbol) (fuel k : Nat) (r : BinaryReader)
    (hprev : ∀ j, j < k →
      continues (slot_result host demangle data syms sh_text ptr_size sym r j) = true)
    (hk : continues (slot_result host demangle data syms sh_text ptr_size sym r k) = false)
    (hfuel : k < fuel) :
    ∃ r', r'.is_32bit = r.is_32bit ∧
      walk host demangle data syms sh_text ptr_size sym fuel r =
        some { members := members_of (slot_result host demangle data syms sh_text ptr_size sym r) 0 k,
               last := k,
               stop := match slot_result host demangle data syms sh_text ptr_size sym r k with
                 | .demangleFailed => .demangleFailed
                 | .fault f => .fault f
                 | _ => .nonCode,
               bin := (walk_slot host demangle data syms sh_text ptr_size sym k r').2 } := by
  obtain ⟨f', rfl⟩ : ∃ f', fuel = f' + 1 + k := ⟨fuel - k - 1, by omega⟩
  obtain ⟨r', hr', hw⟩ := walk_from_steps host demangle data syms sh_text ptr_size sym k
    (f' + 1) 0 r [] (fun j _ h2 => hprev j (by omega))
  refine ⟨r', hr', ?_⟩
  unfold walk
  have hres := slot_result_congr host demangle data syms sh_text ptr_size sym k r' r hr'
  rw [hw, Nat.zero_add, List.nil_append,
    walk_from_last host demangle data syms sh_text ptr_size sym _ k r' _ (by rw [hres]; exact hk),
    hres]

/-- The test of line 273 is membership in the interval
`[sh_offset, sh_offset + sh_size)` whenever the end of the interval is a `uint64_t`
value. -/
theorem in_code_iff_interval (sh_text : Elf64_Shdr) (v : Nat)
    (h : sh_text.sh_offset + sh_text.sh_size < WORD) :
    in_code sh_text v = true ↔
      sh_text.sh_offset ≤ v ∧ v < sh_text.sh_offset + sh_text.sh_size := by
  unfold in_code
  rw [Nat.mod_eq_of_lt h]
  simp only [Bool.not_eq_true', Bool.or_eq_false_iff, decide_eq_false_iff_not, not_lt, ge_iff_le,
    not_le]

/-- C4: for every candidate (value `base = sym.1.st_value`), pointer width `w` (4 or 8,
`ptr_width r`) and code section `sh_text`, in a buffer whose size is a `size_t` value: if
the pointer-sized values stored at the buffer offsets `base + (i + 3) * w` for `i < k`
all pass the code range test of line 273 and each resolves to a symbol whose name
demangles, and the value stored at `base + (k + 3) * w` fails the test, then (with more
than `k` passes of fuel) the walk returns exactly the `k` members of these slots, in slot
order, and the loop is left in the pass of index `k`: the cursor stands behind slot `k`,
so the slot of index `k + 1` and the slots behind it are not read. -/
theorem C4_walk_ends_at_first_non_code (host : Endian)
    (demangle : List UInt8 → Option (List UInt8)) (data : List UInt8) (syms : List Symbol)
    (sh_text : Elf64_Shdr) (sym : Symbol) (fuel k : Nat) (r : BinaryReader)
    (vals : Nat → Nat) (fsym : Nat → Symbol) (mangled name : Nat → List UInt8)
    (hsize : data.length < WORD)
    (hin : ∀ i, i < k →
      ptr_at host data (ptr_width r) (sym.1.st_value + (i + 3) * ptr_width r) = some (vals i) ∧
      in_code sh_text (vals i) = true ∧
      find_func_sym syms (vals i) = some (fsym i) ∧
      cstr data (fsym i).2 = some (mangled i) ∧
      demangle (mangled i) = some (name i))
    (hout : ptr_at host data (ptr_width r) (sym.1.st_value + (k + 3) * ptr_width r) =
        some (vals k) ∧ in_code sh_text (vals k) = false)
    (hfuel : k < fuel) :
    walk host demangle data syms sh_text (ptr_width r) sym fuel r =
      some { members := (List.range k).map
               (fun i => { name := name i, name_mangled := mangled i }),
             last := k,
             stop := .nonCode,
             bin := { cur := sym.1.st_value + (k + 3) * ptr_width r + ptr_width r,
                      is_32bit := r.is_32bit } } := by
  have hres : ∀ j, j < k →
      slot_result host demangle data syms sh_text (ptr_width r) sym r j =
        .entry { name := name j, name_mangled := mangled j } := by
    intro j hj
    obtain ⟨h1, h2, h3, h4, h5⟩ := hin j hj
    rw [slot_result_of_ptr host demangle data syms sh_text sym j r (vals j) hsize h1]
    exact slot_entry_entry demangle data syms sh_text (vals j) (fsym j) _ _ h2 h3 h4 h5
  have hlast : slot_result host demangle data syms sh_text (ptr_width r) sym r k = .nonCode := by
    rw [slot_result_of_ptr host demangle data syms sh_text sym k r (vals k) hsize hout.1]
    exact slot_entry_nonCode demangle data syms sh_text (vals k) hout.2
  obtain ⟨r', hr', hw⟩ := walk_stops host demangle data syms sh_text (ptr_width r) sym fuel k r
    (fun j hj => by rw [hres j hj]; rfl) (by rw [hlast]; rfl) hfuel
  rw [hw, hlast]
  have hwd := ptr_width_congr r r' hr'
  have hslot := walk_slot_of_ptr host demangle data syms sh_text sym k r' (vals k) hsize
    (by rw [hwd]; exact hout.1)
  rw [hwd] at hslot
  rw [hslot, members_of_entries _ (fun i => { name := name i, name_mangled := mangled i })
    0 k (fun j _ h2 => hres j (by omega)), hr', List.range_eq_range']

/-- C4 at `vt_buf`: with a symbol for each of the values 100, 104 and 108 the walk of
the table at offset 0 returns three members and is left in the pass of index 3. -/
theorem C4_walk_ends_at_first_non_code_witness :
    walk .little demangle_any vt_buf
        [vt_symbol 100 28, vt_symbol 104 34, vt_symbol 108 30] vt_text 4 vt_candidate 10
        { cur := 0, is_32bit := true } =
      some { members := [{ name := [0x66], name_mangled := [0x66] },
                         { name := [0x68], name_mangled := [0x68] },
                         { name := [0x67], name_mangled := [0x67] }],
             last := 3,
             stop := .nonCode,
             bin := { cur := 28, is_32bit := true } } :=
  C4_walk_ends_at_first_non_code .little demangle_any vt_buf
    [vt_symbol 100 28, vt_symbol 104 34, vt_symbol 108 30] vt_text vt_candidate 10 3
    { cur := 0, is_32bit := true }
    (fun i => [100, 104, 108, 0].getD i 0)
    (fun i => [vt_symbol 100 28, vt_symbol 104 34, vt_symbol 108 30].getD i vt_candidate)
    (fun i => [[0x66], [0x68], [0x67]].getD i [])
    (fun i => [[0x66], [0x68], [0x67]].getD i [])
    (by decide) (by decide) (by decide) (by decide)

/-! ## C5: a slot without a symbol is passed over -/

theorem find_func_sym_none (syms : List Symbol) (v : Nat)
    (h : ∀ s, s ∈ syms → s.1.st_value ≠ v) : find_func_sym syms v = none := by
  unfold find_func_sym
  rw [List.find?_eq_none]
  intro s hs
  simpa using h s hs

set_option maxRecDepth 100000 in
/-- C5 as stated fails: in `vt_buf` the slots are 100, 104, 108 (all code addresses) and
then 0; the symbol list holds a symbol of value 100 named "f" and one of value 108 named
"g", both names demangle, and no symbol has the value 104.  But the list starts with
another symbol of value 100 whose name "x" the demangler rejects: that one is looked up
for the first slot, and the walk ends there with no member at all. -/
theorem C5_counterexample :
    ptr_at .little vt_buf 4 (vt_candidate.1.st_value + (0 + 3) * 4) = some 100 ∧
    ptr_at .little vt_buf 4 (vt_candidate.1.st_value + (1 + 3) * 4) = some 104 ∧
    ptr_at .little vt_buf 4 (vt_candidate.1.st_value + (2 + 3) * 4) = some 108 ∧
    ptr_at .little vt_buf 4 (vt_candidate.1.st_value + (3 + 3) * 4) = some 0 ∧
    in_code vt_text 100 = true ∧ in_code vt_text 104 = true ∧ in_code vt_text 108 = true ∧
    in_code vt_text 0 = false ∧
    vt_symbol 100 28 ∈ [vt_symbol 100 32, vt_symbol 100 28, vt_symbol 108 30] ∧
    cstr vt_buf (vt_symbol 100 28).2 = some [0x66] ∧
    demangle_but_x [0x66] = some [0x66] ∧
    vt_symbol 108 30 ∈ [vt_symbol 100 32, vt_symbol 100 28, vt_symbol 108 30] ∧
    cstr vt_buf (vt_symbol 108 30).2 = some [0x67] ∧
    demangle_but_x [0x67] = some [0x67] ∧
    (∀ s, s ∈ [vt_symbol 100 32, vt_symbol 100 28, vt_symbol 108 30] → s.1.st_value ≠ 104) ∧
    walk .little demangle_but_x vt_buf
        [vt_symbol 100 32, vt_symbol 100 28, vt_symbol 108 30] vt_text 4 vt_candidate 10
        { cur := 0, is_32bit := true } =
      some { members := [], last := 0, stop := .demangleFailed,
             bin := { cur := 16, is_32bit := true } } := by
  refine ⟨by rfl, by rfl, by rfl, by rfl, by rfl, by rfl, by rfl, by rfl, by decide, by rfl,
    by rfl, by decide, by rfl, by rfl, by decide, by rfl⟩

/-- C5, amended: for every vtable whose slots hold the code addresses `A`, `X`, `B` and
then a value that is not a code address, where the symbol looked up for `A` (the first
symbol in table order of that value) and the one looked up for `B` have names that
demangle and no symbol has the value `X`, the walk yields exactly the members for `A`
and `B`, in that order: the slot without a symbol is passed over and the walk goes on at
the next index. -/
theorem C5_slot_without_symbol_is_skipped (host : Endian)
    (demangle : List UInt8 → Option (List UInt8)) (data : List UInt8) (syms : List Symbol)
    (sh_text : Elf64_Shdr) (sym : Symbol) (fuel : Nat) (r : BinaryReader)
    (A X B E : Nat) (sA sB : Symbol) (mA nA mB nB : List UInt8)
    (hsize : data.length < WORD)
    (hA : ptr_at host data (ptr_width r) (sym.1.st_value + (0 + 3) * ptr_width r) = some A)
    (hX : ptr_at host data (ptr_width r) (sym.1.st_value + (1 + 3) * ptr_width r) = some X)
    (hB : ptr_at host data (ptr_width r) (sym.1.st_value + (2 + 3) * ptr_width r) = some B)
    (hE : ptr_at host data (ptr_width r) (sym.1.st_value + (3 + 3) * ptr_width r) = some E)
    (hcA : in_code sh_text A = true) (hcX : in_code sh_text X = true)
    (hcB : in_code sh_text B = true) (hcE : in_code sh_text E = false)
    (hfA : find_func_sym syms A = some sA) (hmA : cstr data sA.2 = some mA)
    (hnA : demangle mA = some nA)
    (hfB : find_func_sym syms B = some sB) (hmB : cstr data sB.2 = some mB)
    (hnB : demangle mB = some nB)
    (hnoX : ∀ s, s ∈ syms → s.1.st_value ≠ X)
    (hfuel : 3 < fuel) :
    walk host demangle data syms sh_text (ptr_width r) sym fuel r =
      some { members := [{ name := nA, name_mangled := mA }, { name := nB, name_mangled := mB }],
             last := 3,
             stop := .nonCode,
             bin := { cur := sym.1.st_value + (3 + 3) * ptr_width r + ptr_width r,
                      is_32bit := r.is_32bit } } := by
  have h0 : slot_result host demangle data syms sh_text (ptr_width r) sym r 0 =
      .entry { name := nA, name_mangled := mA } := by
    rw [slot_result_of_ptr host demangle data syms sh_text sym 0 r A hsize hA]
    exact slot_entry_entry demangle data syms sh_text A sA _ _ hcA hfA hmA hnA
  have h1 : slot_result host demangle data syms sh_text (ptr_width r) sym r 1 = .noSymbol := by
    rw [slot_result_of_ptr host demangle data syms sh_text sym 1 r X hsize hX]
    exact slot_entry_noSymbol demangle data syms sh_text X hcX (find_func_sym_none syms X hnoX)
  have h2 : slot_result host demangle data syms sh_text (ptr_width r) sym r 2 =
      .entry { name := nB, name_mangled := mB } := by
    rw [slot_result_of_ptr host demangle data syms sh_text sym 2 r B hsize hB]
    exact slot_entry_entry demangle data syms sh_text B sB _ _ hcB hfB hmB hnB
  have h3 : slot_result host demangle data syms sh_text (ptr_width r) sym r 3 = .nonCode := by
    rw [slot_result_of_ptr host demangle data syms sh_text sym 3 r E hsize hE]
    exact slot_entry_nonCode demangle data syms sh_text E hcE
  obtain ⟨r', hr', hw⟩ := walk_stops host demangle data syms sh_text (ptr_width r) sym fuel 3 r
    (fun j hj => by
      obtain rfl | rfl | rfl : j = 0 ∨ j = 1 ∨ j = 2 := by omega
      · rw [h0]; rfl
      · rw [h1]; rfl
      · rw [h2]; rfl)
    (by rw [h3]; rfl) hfuel
  rw [hw, h3]
  have hwd := ptr_width_congr r r' hr'
  have hslot := walk_slot_of_ptr host demangle data syms sh_text sym 3 r' E hsize
    (by rw [hwd]; exact hE)
  rw [hwd] at hslot
  rw [hslot, hr']
  simp [members_of, slot_members, h0, h1, h2]

/-- C5, amended, at `vt_buf`: with symbols for 100 and 108 only, the walk returns the
members "f" and "g". -/
theorem C5_slot_without_symbol_is_skipped_witness :
    walk .little demangle_but_x vt_buf [vt_symbol 100 28, vt_symbol 108 30] vt_text 4
        vt_candidate 10 { cur := 0, is_32bit := true } =
      some { members := [{ name := [0x66], name_mangled := [0x66] },
                         { name := [0x67], name_mangled := [0x67] }],
             last := 3,
             stop := .nonCode,
             bin := { cur := 28, is_32bit := true } } :=
  C5_slot_without_symbol_is_skipped .little demangle_but_x vt_buf
    [vt_symbol 100 28, vt_symbol 108 30] vt_text vt_candidate 10
    { cur := 0, is_32bit := true } 100 104 108 0 (vt_symbol 100 28) (vt_symbol 108 30)
    [0x66] [0x66] [0x67] [0x67]
    (by decide) (by decide) (by decide) (by decide) (by decide) (by decide) (by decide)
    (by decide) (by decide) (by decide) (by decide) (by decide) (by decide) (by decide)
    (by decide) (by decide) (by decide)

/-! ## Candidate selection and the tables of a run -/

/-- `strncmp` with a literal of `n` characters succeeds exactly when the `n` bytes at the
pointer are the literal. -/
theorem strncmp_eq_true_iff (data : List UInt8) (p : Nat) (lit : List UInt8) :
    strncmp_eq data p lit = .ok true ↔ (data.drop p).take lit.length = lit := by
  induction lit generalizing p with
  | nil => simp [strncmp_eq]
  | cons c cs ih =>
    unfold strncmp_eq
    cases hget : data[p]? with
    | none =>
      have hlen : data.length ≤ p := by
        rw [List.getElem?_eq_none_iff] at hget
        exact hget
      simp [List.drop_eq_nil_of_le hlen]
    | some b =>
      have hlt : p < data.length := by
        rcases Nat.lt_or_ge p data.length with h | h
        · exact h
        · rw [List.getElem?_eq_none_iff.mpr h] at hget
          simp at hget
      have hb : data[p] = b := by
        rw [List.getElem?_eq_getElem hlt] at hget
        simpa using hget
      rw [List.drop_eq_getElem_cons hlt, hb]
      simp only [List.length_cons, List.take_succ_cons, List.cons.injEq]
      by_cases hbc : b = c
      · simp [hbc, ih]
      · simp [hbc]

theorem leBytes_length (w v : Nat) : (leBytes w v).length = w := by
  induction w generalizing v with
  | zero => rfl
  | succ w ih => simp [leBytes, ih]

theorem hostBytes_length (host : Endian) (w v : Nat) : (hostBytes host w v).length = w := by
  cases host <;> simp [hostBytes, leBytes_length]

theorem leValue_leBytes (w v : Nat) (h : v < 256 ^ w) : leValue (leBytes w v) = v := by
  induction w generalizing v with
  | zero =>
    simp only [pow_zero, Nat.lt_one_iff] at h
    simp [leBytes, leValue, h]
  | succ w ih =>
    have hdiv : v / 256 < 256 ^ w := by
      rw [Nat.div_lt_iff_lt_mul (by norm_num)]
      rw [pow_succ] at h
      exact h
    have hb : (UInt8.ofNat (v % 256)).toNat = v % 256 := by
      rw [show (UInt8.ofNat (v % 256)).toNat = v % 256 % 256 from rfl, Nat.mod_mod]
    rw [leBytes, leValue, ih _ hdiv, hb]
    omega

/-- Storing a value that fits in `w` bytes and loading it gives the value back. -/
theorem hostValue_hostBytes (host : Endian) (w v : Nat) (h : v < 256 ^ w) :
    hostValue host (hostBytes host w v) = v := by
  cases host
  · exact leValue_leBytes w v h
  · simp only [hostValue, hostBytes, List.reverse_reverse]
    exact leValue_leBytes w v h

/-- A read of `w` bytes where the buffer holds the stored form of `v` under the cursor. -/
theorem read_core_type_stored (host : Endian) (data a b : List UInt8) (w v : Nat)
    (r : BinaryReader) (hdata : data = a ++ (hostBytes host w v ++ b))
    (hcur : r.cur = a.length) (hv : v < 256 ^ w) (hs : data.length < WORD) :
    read_core_type host data w r = .ok (v, { r with cur := r.cur + w }) := by
  have hlen : r.cur + w ≤ data.length := by
    rw [hdata, hcur]
    simp only [List.length_append, hostBytes_length]
    omega
  rw [read_core_type_in host data w r hlen hs]
  have htake : List.take w (List.drop r.cur data) = hostBytes host w v := by
    rw [hdata, hcur, List.drop_left', List.take_left']
    · exact hostBytes_length host w v
    · rfl
  rw [htake, hostValue_hostBytes host w v hv]

/-- The 32-bit branch of `read_sym` on a stored record. -/
theorem read_sym_layout32 (host : Endian) (s : Elf64_Sym) (pre post : List UInt8)
    (ehdr : Elf64_Ehdr) (hclass : is_class32 ehdr.e_ident = true)
    (hname : s.st_name < 2 ^ 32) (hinfo : s.st_info < 2 ^ 8) (hother : s.st_other < 2 ^ 8)
    (hshndx : s.st_shndx < 2 ^ 16) (hvalue : s.st_value < 2 ^ 32) (hsz : s.st_size < 2 ^ 32)
    (hs : (pre ++ (layout32 host s ++ post)).length < WORD) :
    read_sym host (pre ++ (layout32 host s ++ post)) ehdr
        { cur := pre.length, is_32bit := true } =
      .ok (s, { cur := pre.length + 16, is_32bit := true }) := by
  generalize hdata : pre ++ (layout32 host s ++ post) = data at hs ⊢
  have hL := hostBytes_length host
  have r1 := read_core_type_stored host data pre _ 4 s.st_name
    { cur := pre.length, is_32bit := true }
    (by rw [← hdata]; simp only [layout32, List.append_assoc]; try rfl) rfl (by norm_num; exact hname) hs
  have r2 := read_core_type_stored host data (pre ++ hostBytes host 4 s.st_name) _ 4 s.st_value
    { cur := pre.length + 4, is_32bit := true }
    (by rw [← hdata]; simp only [layout32, List.append_assoc]; try rfl)
    (by simp [hL]) (by norm_num; exact hvalue) hs
  have r3 := read_core_type_stored host data
    (pre ++ hostBytes host 4 s.st_name ++ hostBytes host 4 s.st_value) _ 4 s.st_size
    { cur := pre.length + 4 + 4, is_32bit := true }
    (by rw [← hdata]; simp only [layout32, List.append_assoc]; try rfl)
    (by simp [hL]) (by norm_num; exact hsz) hs
  have r4 := read_core_type_stored host data
    (pre ++ hostBytes host 4 s.st_name ++ hostBytes host 4 s.st_value ++
      hostBytes host 4 s.st_size) _ 1 s.st_info
    { cur := pre.length + 4 + 4 + 4, is_32bit := true }
    (by rw [← hdata]; simp only [layout32, List.append_assoc]; try rfl)
    (by simp [hL]) (by norm_num; exact hinfo) hs
  have r5 := read_core_type_stored host data
    (pre ++ hostBytes host 4 s.st_name ++ hostBytes host 4 s.st_value ++
      hostBytes host 4 s.st_size ++ hostBytes host 1 s.st_info) _ 1 s.st_other
    { cur := pre.length + 4 + 4 + 4 + 1, is_32bit := true }
    (by rw [← hdata]; simp only [layout32, List.append_assoc]; try rfl)
    (by simp [hL]) (by norm_num; exact hother) hs
  have r6 := read_core_type_stored host data
    (pre ++ hostBytes host 4 s.st_name ++ hostBytes host 4 s.st_value ++
      hostBytes host 4 s.st_size ++ hostBytes host 1 s.st_info ++
      hostBytes host 1 s.st_other) post 2 s.st_shndx
    { cur := pre.length + 4 + 4 + 4 + 1 + 1, is_32bit := true }
    (by rw [← hdata]; simp only [layout32, List.append_assoc]; try rfl)
    (by simp [hL]) (by norm_num; exact hshndx) hs
  unfold read_sym
  rw [if_pos hclass]
  simp only [read_u32, read_ptr, read_u8, read_u16, r1, r2, r3, r4, r5, r6, bind_ok_eq,
    if_true]

/-- The 64-bit branch of `read_sym` on a stored record. -/
theorem read_sym_layout64 (host : Endian) (s : Elf64_Sym) (pre post : List UInt8)
    (ehdr : Elf64_Ehdr) (hclass : is_class32 ehdr.e_ident = false)
    (hname : s.st_name < 2 ^ 32) (hinfo : s.st_info < 2 ^ 8) (hother : s.st_other < 2 ^ 8)
    (hshndx : s.st_shndx < 2 ^ 16) (hvalue : s.st_value < 2 ^ 64) (hsz : s.st_size < 2 ^ 64)
    (hs : (pre ++ (layout64 host s ++ post)).length < WORD) :
    read_sym host (pre ++ (layout64 host s ++ post)) ehdr
        { cur := pre.length, is_32bit := false } =
      .ok (s, { cur := pre.length + 24, is_32bit := false }) := by
  generalize hdata : pre ++ (layout64 host s ++ post) = data at hs ⊢
  have hL := hostBytes_length host
  have r1 := read_core_type_stored host data pre _ 4 s.st_name
    { cur := pre.length, is_32bit := false }
    (by rw [← hdata]; simp only [layout64, List.append_assoc]; try rfl) rfl (by norm_num; exact hname) hs
  have r2 := read_core_type_stored host data (pre ++ hostBytes host 4 s.st_name) _ 1 s.st_info
    { cur := pre.length + 4, is_32bit := false }
    (by rw [← hdata]; simp only [layout64, List.append_assoc]; try rfl)
    (by simp [hL]) (by norm_num; exact hinfo) hs
  have r3 := read_core_type_stored host data
    (pre ++ hostBytes host 4 s.st_name ++ hostBytes host 1 s.st_info) _ 1 s.st_other
    { cur := pre.length + 4 + 1, is_32bit := false }
    (by rw [← hdata]; simp only [layout64, List.append_assoc]; try rfl)
    (by simp [hL]) (by norm_num; exact hother) hs
  have r4 := read_core_type_stored host data
    (pre ++ hostBytes host 4 s.st_name ++ hostBytes host 1 s.st_info ++
      hostBytes host 1 s.st_other) _ 2 s.st_shndx
    { cur := pre.length + 4 + 1 + 1, is_32bit := false }
    (by rw [← hdata]; simp only [layout64, List.append_assoc]; try rfl)
    (by simp [hL]) (by norm_num; exact hshndx) hs
  have r5 := read_core_type_stored host data
    (pre ++ hostBytes host 4 s.st_name ++ hostBytes host 1 s.st_info ++
      hostBytes host 1 s.st_other ++ hostBytes host 2 s.st_shndx) _ 8 s.st_value
    { cur := pre.length + 4 + 1 + 1 + 2, is_32bit := false }
    (by rw [← hdata]; simp only [layout64, List.append_assoc]; try rfl)
    (by simp [hL]) (by norm_num; exact hvalue) hs
  have r6 := read_core_type_stored host data
    (pre ++ hostBytes host 4 s.st_name ++ hostBytes host 1 s.st_info ++
      hostBytes host 1 s.st_other ++ hostBytes host 2 s.st_shndx ++
      hostBytes host 8 s.st_value) post 8 s.st_size
    { cur := pre.length + 4 + 1 + 1 + 2 + 8, is_32bit := false }
    (by rw [← hdata]; simp only [layout64, List.append_assoc]; try rfl)
    (by simp [hL]) (by norm_num; exact hsz) hs
  unfold read_sym
  rw [if_neg (by simp [hclass])]
  simp only [read_u32, read_ptr, read_u8, read_u16, read_u64, r1, r2, r3, r4, r5, r6,
    bind_ok_eq, Bool.false_eq_true, if_false]

/-- C8: for every symbol record content whose fields fit their types (name offset 32
bits, info and other 8 bits, section index 16 bits) and whose value and size are below
`2 ^ 32`: reading its 16-byte 32-bit layout (name, value, size, info, other, section
index) in 32-bit mode and reading its 24-byte 64-bit layout (name, info, other, section
index, value, size) in 64-bit mode, wherever the layouts stand in their buffers, produce
equal symbol records, namely the content itself. -/
theorem C8_layouts_give_equal_records (host : Endian) (s : Elf64_Sym)
    (pre32 post32 pre64 post64 : List UInt8) (ehdr32 ehdr64 : Elf64_Ehdr)
    (hclass32 : is_class32 ehdr32.e_ident = true)
    (hclass64 : is_class32 ehdr64.e_ident = false)
    (hname : s.st_name < 2 ^ 32) (hinfo : s.st_info < 2 ^ 8) (hother : s.st_other < 2 ^ 8)
    (hshndx : s.st_shndx < 2 ^ 16) (hvalue : s.st_value < 2 ^ 32) (hsz : s.st_size < 2 ^ 32)
    (hs32 : (pre32 ++ (layout32 host s ++ post32)).length < WORD)
    (hs64 : (pre64 ++ (layout64 host s ++ post64)).length < WORD) :
    (read_sym host (pre32 ++ (layout32 host s ++ post32)) ehdr32
        { cur := pre32.length, is_32bit := true }).map Prod.fst =
      (read_sym host (pre64 ++ (layout64 host s ++ post64)) ehdr64
        { cur := pre64.length, is_32bit := false }).map Prod.fst ∧
    (read_sym host (pre32 ++ (layout32 host s ++ post32)) ehdr32
        { cur := pre32.length, is_32bit := true }).map Prod.fst = .ok s := by
  rw [read_sym_layout32 host s pre32 post32 ehdr32 hclass32 hname hinfo hother hshndx hvalue
      hsz hs32,
    read_sym_layout64 host s pre64 post64 ehdr64 hclass64 hname hinfo hother hshndx
      (by omega) (by omega) hs64]
  exact ⟨rfl, rfl⟩

set_option maxRecDepth 100000 in
/-- C8 at the symbol `a` of `elf32_example`, stored at the start of two buffers. -/
theorem C8_layouts_give_equal_records_witness :
    (read_sym .little ([] ++ (layout32 .little sym_a ++ [])) elf32_ehdr
        { cur := ([] : List UInt8).length, is_32bit := true }).map Prod.fst =
      (read_sym .little ([] ++ (layout64 .little sym_a ++ [])) elf64_ehdr
        { cur := ([] : List UInt8).length, is_32bit := false }).map Prod.fst ∧
    (read_sym .little ([] ++ (layout32 .little sym_a ++ [])) elf32_ehdr
        { cur := ([] : List UInt8).length, is_32bit := true }).map Prod.fst = .ok sym_a :=
  C8_layouts_give_equal_records .little sym_a [] [] [] [] elf32_ehdr elf64_ehdr
    (by decide) (by decide) (by decide) (by decide) (by decide) (by decide) (by decide)
    (by decide) (by decide) (by decide)

/-! ## C9: the symbol of a slot is the first one with that value -/

/-- `std::find_if` returns the first element that passes the test: a symbol of value `v`
that no symbol of value `v` precedes. -/
theorem find_func_sym_first (pre post : List Symbol) (s : Symbol) (v : Nat)
    (hpre : ∀ p, p ∈ pre → p.1.st_value ≠ v) (hs : s.1.st_value = v) :
    find_func_sym (pre ++ s :: post) v = some s := by
  unfold find_func_sym
  induction pre with
  | nil => simp [hs]
  | cons p pre ih =>
    have hp : p.1.st_value ≠ v := hpre p (List.mem_cons_self _ _)
    rw [List.cons_append, List.find?_cons_of_neg _ (by simpa using hp)]
    exact ih (fun q hq => hpre q (List.mem_cons_of_mem _ hq))

/-- The lookup by table index: the symbol at index `j` is returned when its value is `v`
and no symbol at a lower index has the value `v`. -/
theorem find_func_sym_lowest (syms : List Symbol) (v j : Nat) (s : Symbol)
    (hj : syms[j]? = some s) (hs : s.1.st_value = v)
    (hfirst : ∀ j' s', j' < j → syms[j']? = some s' → s'.1.st_value ≠ v) :
    find_func_sym syms v = some s := by
  have hlt : j < syms.length := by
    rcases Nat.lt_or_ge j syms.length with h | h
    · exact h
    · rw [List.getElem?_eq_none_iff.mpr h] at hj
      simp at hj
  have hget : syms[j] = s := by
    rw [List.getElem?_eq_getElem hlt] at hj
    simpa using hj
  have hsplit : syms = syms.take j ++ s :: syms.drop (j + 1) := by
    rw [← hget, ← List.drop_eq_getElem_cons hlt, List.take_append_drop]
  rw [hsplit]
  refine find_func_sym_first _ _ s v ?_ hs
  intro p hp
  obtain ⟨j', hj', hp'⟩ := List.getElem_of_mem hp
  rw [List.length_take] at hj'
  have hj'' : j' < j := by omega
  refine hfirst j' p hj'' ?_
  rw [List.getElem_take] at hp'
  rw [List.getElem?_eq_getElem (by omega), hp']

/-- C9: for every symbol list and every slot whose value `v` passes the code range test:
if `s` is the symbol of the lowest table index whose value equals `v` (there is no
condition on its type or section, and later symbols may have the same value), then the
lookup of line 278 returns `s`, and the pass is decided by the name of `s`: the member
printed carries that name and its demangled form. -/
theorem C9_first_symbol_in_table_order (host : Endian)
    (demangle : List UInt8 → Option (List UInt8)) (data : List UInt8) (syms : List Symbol)
    (sh_text : Elf64_Shdr) (ptr_size : Nat) (sym : Symbol) (r : BinaryReader)
    (i v j : Nat) (s : Symbol)
    (hv : slot_value host data ptr_size sym r i = some v)
    (hc : in_code sh_text v = true)
    (hj : syms[j]? = some s) (hs : s.1.st_value = v)
    (hfirst : ∀ j' s', j' < j → syms[j']? = some s' → s'.1.st_value ≠ v) :
    find_func_sym syms v = some s ∧
    slot_result host demangle data syms sh_text ptr_size sym r i =
      (match cstr data s.2 with
       | none => .fault (.undefinedBehaviour .unterminatedString)
       | some mangled =>
         match demangle mangled with
         | none => .demangleFailed
         | some name => .entry { name := name, name_mangled := mangled }) := by
  have hfind := find_func_sym_lowest syms v j s hj hs hfirst
  refine ⟨hfind, ?_⟩
  rw [slot_result_of_value host demangle data syms sh_text ptr_size sym i r v hv]
  unfold slot_entry
  simp only [hc, hfind, not_true_eq_false, if_false]

set_option maxRecDepth 100000 in
/-- C9 at `vt_buf`: two symbols have the value 100 of the first slot; the one at index 0,
named "x", is used. -/
theorem C9_first_symbol_in_table_order_witness :
    find_func_sym [vt_symbol 100 32, vt_symbol 100 28] 100 = some (vt_symbol 100 32) ∧
    slot_result .little demangle_any vt_buf [vt_symbol 100 32, vt_symbol 100 28] vt_text 4
        vt_candidate { cur := 0, is_32bit := true } 0 =
      .entry { name := [0x78], name_mangled := [0x78] } :=
  C9_first_symbol_in_table_order .little demangle_any vt_buf
    [vt_symbol 100 32, vt_symbol 100 28] vt_text 4 vt_candidate
    { cur := 0, is_32bit := true } 0 100 0 (vt_symbol 100 32)
    (by decide) (by decide) (by decide) (by decide) (by intro j' s' h; omega)

/-! ## C10: a rejected name ends the walk -/

/-- C10: for every candidate walk that reaches the index `i` (the passes below `i` all go
on): if the symbol looked up for the value of slot `i` has a name that the demangler
rejects, the loop is left in the pass of index `i`.  The members printed by the passes
below `i` are the result, no member is added for `i` or a later index, and no later pass
is made. -/
theorem C10_walk_ends_at_rejected_name (host : Endian)
    (demangle : List UInt8 → Option (List UInt8)) (data : List UInt8) (syms : List Symbol)
    (sh_text : Elf64_Shdr) (ptr_size : Nat) (sym : Symbol) (fuel : Nat) (r : BinaryReader)
    (i v : Nat) (s : Symbol) (mangled : List UInt8)
    (hprev : ∀ j, j < i →
      continues (slot_result host demangle data syms sh_text ptr_size sym r j) = true)
    (hv : slot_value host data ptr_size sym r i = some v)
    (hc : in_code sh_text v = true)
    (hf : find_func_sym syms v = some s)
    (hm : cstr data s.2 = some mangled)
    (hd : demangle mangled = none)
    (hfuel : i < fuel) :
    (walk host demangle data syms sh_text ptr_size sym fuel r).map
        (fun w => (w.members, w.last, w.stop)) =
      some (members_of (slot_result host demangle data syms sh_text ptr_size sym r) 0 i,
            i, .demangleFailed) := by
  have hres : slot_result host demangle data syms sh_text ptr_size sym r i =
      .demangleFailed := by
    rw [slot_result_of_value host demangle data syms sh_text ptr_size sym i r v hv]
    exact slot_entry_demangleFailed demangle data syms sh_text v s mangled hc hf hm hd
  obtain ⟨r', -, hw⟩ := walk_stops host demangle data syms sh_text ptr_size sym fuel i r
    hprev (by rw [hres]; rfl) hfuel
  rw [hres] at hw
  rw [hw]
  rfl

set_option maxRecDepth 100000 in
/-- C10 at `vt_buf`: the name "x" of the symbol for the second slot is rejected; the walk
keeps the member "f" of the first slot and is left at index 1. -/
theorem C10_walk_ends_at_rejected_name_witness :
    (walk .little demangle_but_x vt_buf
        [vt_symbol 100 28, vt_symbol 104 32, vt_symbol 108 30] vt_text 4 vt_candidate 10
        { cur := 0, is_32bit := true }).map (fun w => (w.members, w.last, w.stop)) =
      some (members_of (slot_result .little demangle_but_x vt_buf
              [vt_symbol 100 28, vt_symbol 104 32, vt_symbol 108 30] vt_text 4 vt_candidate
              { cur := 0, is_32bit := true }) 0 1,
            1, .demangleFailed) ∧
    members_of (slot_result .little demangle_but_x vt_buf
        [vt_symbol 100 28, vt_symbol 104 32, vt_symbol 108 30] vt_text 4 vt_candidate
        { cur := 0, is_32bit := true }) 0 1 = [{ name := [0x66], name_mangled := [0x66] }] :=
  ⟨C10_walk_ends_at_rejected_name .little demangle_but_x vt_buf
    [vt_symbol 100 28, vt_symbol 104 32, vt_symbol 108 30] vt_text 4 vt_candidate 10
    { cur := 0, is_32bit := true } 1 104 (vt_symbol 104 32) [0x78]
    (by decide) (by decide) (by decide) (by decide) (by decide) (by decide) (by decide),
   by rfl⟩

/-! ## C11: the bounds assertion on a string table -/

/-- A string table that passes the check of the program lies inside the buffer with at
least one byte behind it, when its end is a `uint64_t` value. -/
theorem check_strtab_ok_iff (data : List UInt8) (a : Assertion) (hdr : Elf64_Shdr)
    (h : hdr.sh_offset + hdr.sh_size < WORD) :
    check_strtab data a hdr = .ok () ↔ hdr.sh_offset + hdr.sh_size < data.length := by
  unfold check_strtab
  rw [Nat.mod_eq_of_lt h]
  by_cases hlt : hdr.sh_offset + hdr.sh_size < data.length
  · rw [if_neg (by simpa using hlt), if_neg (by simp; omega)]
    simp [hlt]
  · rw [if_pos hlt]
    simp [hlt]

/-- A string table that ends with the last byte of the buffer fails the assertion. -/
theorem check_strtab_at_end (data : List UInt8) (a : Assertion) (hdr : Elf64_Shdr)
    (h : hdr.sh_offset + hdr.sh_size = data.length) (hs : data.length < WORD) :
    check_strtab data a hdr = .error (.assertFailed a) := by
  unfold check_strtab
  rw [h, Nat.mod_eq_of_lt hs, if_pos (by omega)]

set_option maxRecDepth 100000 in
/-- C11 (fails on the code): in `elf32_strtab_at_end` the string table occupies the bytes
268 to 294 of a buffer of 295 bytes, so `file_offset + size <= buffer length` holds, and
yet the run is aborted by the assertion of line 149, which asks for
`sh_offset + sh_size < file.size()`; the assertion of line 184 rejects the same header.
In the other direction, a header with offset `2 ^ 64 - 1` and size 2 exceeds every
buffer, but its `uint64_t` sum wraps to 1: the assertion passes and line 150 indexes the
vector outside its bounds. -/
theorem C11_strtab_at_end_of_file_rejected :
    strtab_at_end.sh_offset + strtab_at_end.sh_size ≤ elf32_strtab_at_end.length ∧
    (read_ehdr .little elf32_strtab_at_end >>= fun p =>
        read_shdr_at .little elf32_strtab_at_end p.1 p.1.e_shstrndx p.2).map Prod.fst =
      .ok strtab_at_end ∧
    parse .little elf32_strtab_at_end = .error (.assertFailed .shstrtabInFile) ∧
    run .little demangle_any none 10 elf32_strtab_at_end =
      some { tables := [], fault := some (.assertFailed .shstrtabInFile) } ∧
    check_strtab elf32_strtab_at_end .strtabInFile strtab_at_end =
      .error (.assertFailed .strtabInFile) ∧
    strtab_wrapped.sh_offset + strtab_wrapped.sh_size > elf32_strtab_at_end.length ∧
    check_strtab elf32_strtab_at_end .shstrtabInFile strtab_wrapped =
      .error (.undefinedBehaviour .indexOutsideBuffer) := by
  refine ⟨by decide, by rfl, by rfl, by rfl, by rfl, by decide, by rfl⟩

/-! ## C12: the assertion on the name offset of a symbol -/

theorem read_syms_succ (host : Endian) (data : List UInt8) (ehdr : Elf64_Ehdr)
    (sh_strtab : Elf64_Shdr) (n : Nat) (r : BinaryReader) :
    read_syms host data ehdr sh_strtab (n + 1) r =
      (read_sym host data ehdr r >>= fun p =>
        if ¬ (p.1.st_name < sh_strtab.sh_size) then
          .error (.assertFailed .symbolName)
        else
          read_syms host data ehdr sh_strtab n p.2 >>= fun q =>
            .ok ((p.1, sh_strtab.sh_offset + p.1.st_name) :: q.1, q.2)) := by
  rw [read_syms]

/-- The symbol loop for `a + b` records is the loop for `a` records followed by the loop
for `b` records. -/
theorem read_syms_add (host : Endian) (data : List UInt8) (ehdr : Elf64_Ehdr)
    (sh_strtab : Elf64_Shdr) (a b : Nat) (r : BinaryReader) :
    read_syms host data ehdr sh_strtab (a + b) r =
      (read_syms host data ehdr sh_strtab a r >>= fun p =>
        read_syms host data ehdr sh_strtab b p.2 >>= fun q => .ok (p.1 ++ q.1, q.2)) := by
  induction a generalizing r with
  | zero =>
    rw [Nat.zero_add]
    show _ = (Except.ok ([], r) >>= _)
    rw [bind_ok_eq]
    cases read_syms host data ehdr sh_strtab b r with
    | error e => rfl
    | ok q => rfl
  | succ a ih =>
    rw [show a + 1 + b = (a + b) + 1 by omega, read_syms_succ, read_syms_succ]
    cases read_sym host data ehdr r with
    | error e => rfl
    | ok p =>
      simp only [bind_ok_eq]
      split
      · rfl
      · rw [ih]
        cases read_syms host data ehdr sh_strtab a p.2 with
        | error e => rfl
        | ok xs =>
          simp only [bind_ok_eq]
          cases read_syms host data ehdr sh_strtab b xs.2 with
          | error e => rfl
          | ok ys => rfl

/-- C12: for every symbol record read during symbol parsing (record `j`, reached after
the `j` records before it were parsed): the parsing of the records up to `j` aborts
with the corrupt-symbol assertion of line 207 if and only if the name offset of the
record is greater than or equal to the size of `.strtab`, and then the parsing of all
`n` records aborts in this way; when the offset is smaller, the record becomes the
symbol of index `j`, and its name is the string that starts at that offset inside the
`.strtab` section. -/
theorem C12_name_offset_assertion (host : Endian) (data : List UInt8) (ehdr : Elf64_Ehdr)
    (sh_strtab : Elf64_Shdr) (j n : Nat) (r rj r' : BinaryReader) (before : List Symbol)
    (sym : Elf64_Sym) (hn : j < n)
    (hbefore : read_syms host data ehdr sh_strtab j r = .ok (before, rj))
    (hrec : read_sym host data ehdr rj = .ok (sym, r')) :
    (read_syms host data ehdr sh_strtab (j + 1) r = .error (.assertFailed .symbolName) ↔
      sh_strtab.sh_size ≤ sym.st_name) ∧
    (sh_strtab.sh_size ≤ sym.st_name →
      read_syms host data ehdr sh_strtab n r = .error (.assertFailed .symbolName)) ∧
    (sym.st_name < sh_strtab.sh_size →
      read_syms host data ehdr sh_strtab (j + 1) r =
        .ok (before ++ [(sym, sh_strtab.sh_offset + sym.st_name)], r') ∧
      cstr data (sh_strtab.sh_offset + sym.st_name) =
        cstrOf ((data.drop sh_strtab.sh_offset).drop sym.st_name)) := by
  have hone : read_syms host data ehdr sh_strtab 1 rj =
      if ¬ (sym.st_name < sh_strtab.sh_size) then .error (.assertFailed .symbolName)
      else .ok ([(sym, sh_strtab.sh_offset + sym.st_name)], r') := by
    rw [read_syms_succ, hrec]
    simp only [bind_ok_eq]
    split
    · rfl
    · rfl
  have hj : read_syms host data ehdr sh_strtab (j + 1) r =
      if ¬ (sym.st_name < sh_strtab.sh_size) then .error (.assertFailed .symbolName)
      else .ok (before ++ [(sym, sh_strtab.sh_offset + sym.st_name)], r') := by
    rw [read_syms_add, hbefore]
    simp only [bind_ok_eq, hone]
    split
    · rfl
    · rfl
  refine ⟨?_, ?_, ?_⟩
  · rw [hj]
    by_cases h : sym.st_name < sh_strtab.sh_size
    · simp [h]
    · simp [h]
      omega
  · intro h
    obtain ⟨m, rfl⟩ : ∃ m, n = (j + 1) + m := ⟨n - (j + 1), by omega⟩
    rw [read_syms_add, hj, if_pos (by omega)]
    rfl
  · intro h
    refine ⟨?_, ?_⟩
    · rw [hj, if_neg (by simpa using h)]
    · unfold cstr
      rw [List.drop_drop]

set_option maxRecDepth 100000 in
/-- C12 at `elf32_walk_off_end`: the record of index 1, read at the cursor 268, has the
name offset 23, below the size 32 of `.strtab`; it becomes the symbol named by the
string at offset 83, "_ZTV1A". -/
theorem C12_name_offset_assertion_witness :
    read_syms .little elf32_walk_off_end elf32_ehdr walk_strtab (1 + 1)
        { cur := 252, is_32bit := true } =
      .ok ([({ st_name := 0, st_info := 0, st_other := 0, st_shndx := 0, st_value := 0,
               st_size := 0 }, 60)] ++ [(walk_ztv, walk_strtab.sh_offset + walk_ztv.st_name)],
        { cur := 284, is_32bit := true }) ∧
    cstr elf32_walk_off_end (walk_strtab.sh_offset + walk_ztv.st_name) =
      cstrOf ((elf32_walk_off_end.drop walk_strtab.sh_offset).drop walk_ztv.st_name) :=
  (C12_name_offset_assertion .little elf32_walk_off_end elf32_ehdr walk_strtab 1 3
    { cur := 252, is_32bit := true } { cur := 268, is_32bit := true }
    { cur := 284, is_32bit := true }
    [({ st_name := 0, st_info := 0, st_other := 0, st_shndx := 0, st_value := 0,
        st_size := 0 }, 60)]
    walk_ztv (by decide) (by rfl) (by rfl)).2.2 (by decide)

/-! ## C13: how a walk can end -/

theorem slot_value_congr (host : Endian) (data : List UInt8) (ptr_size : Nat) (sym : Symbol)
    (i : Nat) (r r' : BinaryReader) (h : r.is_32bit = r'.is_32bit) :
    slot_value host data ptr_size sym r i = slot_value host data ptr_size sym r' i := by
  unfold slot_value
  rw [seek_congr r r' h]

/-- What the way a pass ends says about the slot. -/
theorem slot_result_cases (host : Endian) (demangle : List UInt8 → Option (List UInt8))
    (data : List UInt8) (syms : List Symbol) (sh_text : Elf64_Shdr) (ptr_size : Nat)
    (sym : Symbol) (r : BinaryReader) (i : Nat) :
    (slot_result host demangle data syms sh_text ptr_size sym r i = .nonCode →
      ∃ v, slot_value host data ptr_size sym r i = some v ∧ in_code sh_text v = false) ∧
    (slot_result host demangle data syms sh_text ptr_size sym r i = .demangleFailed →
      ∃ v s mangled, slot_value host data ptr_size sym r i = some v ∧
        in_code sh_text v = true ∧ find_func_sym syms v = some s ∧
        cstr data s.2 = some mangled ∧ demangle mangled = none) ∧
    (∀ f, slot_result host demangle data syms sh_text ptr_size sym r i = .fault f →
      (f = .assertFailed .walkOffset ∧ data.length ≤ slot_offset ptr_size sym i) ∨
      f = .undefinedBehaviour .unterminatedString ∨
      f = .undefinedBehaviour .loadOutsideBuffer) := by
  unfold slot_result walk_slot slot_value
  dsimp only
  by_cases hoff : slot_offset ptr_size sym i < data.length
  · rw [if_neg (by simpa using hoff), if_pos hoff]
    cases hrd : read_ptr host data (r.seek (slot_offset ptr_size sym i)) with
    | error e =>
      refine ⟨fun h => by simp at h, fun h => by simp at h, fun f h => ?_⟩
      simp only [SlotResult.fault.injEq] at h
      subst h
      right; right
      unfold read_ptr read_u32 read_u64 read_core_type at hrd
      split at hrd <;> split at hrd <;> (try split at hrd) <;> simp at hrd <;> exact hrd.symm
    | ok p =>
      obtain ⟨v, r1⟩ := p
      simp only
      unfold slot_entry
      by_cases hc : in_code sh_text v = true
      · rw [if_neg (by simpa using hc)]
        cases hf : find_func_sym syms v with
        | none =>
          exact ⟨fun h => by simp at h, fun h => by simp at h, fun f h => by simp at h⟩
        | some s =>
          simp only
          cases hn : cstr data s.2 with
          | none =>
            refine ⟨fun h => by simp at h, fun h => by simp at h, fun f h => ?_⟩
            simp only [SlotResult.fault.injEq] at h
            right; left; exact h.symm
          | some mangled =>
            simp only
            cases hd : demangle mangled with
            | none =>
              exact ⟨fun h => by simp at h,
                fun _ => ⟨v, s, mangled, rfl, hc, hf, hn, hd⟩, fun f h => by simp at h⟩
            | some name =>
              exact ⟨fun h => by simp at h, fun h => by simp at h, fun f h => by simp at h⟩
      · rw [if_pos (by simpa using hc)]
        exact ⟨fun _ => ⟨v, rfl, by simpa using hc⟩, fun h => by simp at h,
          fun f h => by simp at h⟩
  · rw [if_pos (by simpa using hoff), if_neg hoff]
    refine ⟨fun h => by simp at h, fun h => by simp at h, fun f h => ?_⟩
    simp only [SlotResult.fault.injEq] at h
    left
    exact ⟨h.symm, by omega⟩

/-- Where and why the loop is left: the reason is the way the last pass ended. -/
theorem walk_from_stop (host : Endian) (demangle : List UInt8 → Option (List UInt8))
    (data : List UInt8) (syms : List Symbol) (sh_text : Elf64_Shdr) (ptr_size : Nat)
    (sym : Symbol) (fuel i : Nat) (r r0 : BinaryReader) (acc : List Member) (w : WalkResult)
    (hflag : r.is_32bit = r0.is_32bit)
    (h : walk_from host demangle data syms sh_text ptr_size sym fuel i r acc = some w) :
    i ≤ w.last ∧ w.bin.is_32bit = r0.is_32bit ∧
    (w.stop = .nonCode ∧
      slot_result host demangle data syms sh_text ptr_size sym r0 w.last = .nonCode ∨
     w.stop = .demangleFailed ∧
      slot_result host demangle data syms sh_text ptr_size sym r0 w.last = .demangleFailed ∨
     ∃ f, w.stop = .fault f ∧
      slot_result host demangle data syms sh_text ptr_size sym r0 w.last = .fault f) := by
  induction fuel generalizing i r acc with
  | zero => simp [walk_from] at h
  | succ fuel ih =>
    have hres := slot_result_congr host demangle data syms sh_text ptr_size sym i r r0 hflag
    have hfl := walk_slot_flag host demangle data syms sh_text ptr_size sym i r
    unfold slot_result at hres
    rw [walk_from] at h
    cases hws : walk_slot host demangle data syms sh_text ptr_size sym i r with
    | mk res r1 =>
      rw [hws] at h hres hfl
      simp only at hres hfl
      cases res with
      | nonCode =>
        simp only [Option.some.injEq] at h
        subst h
        exact ⟨le_refl _, hfl.trans hflag, Or.inl ⟨rfl, hres.symm⟩⟩
      | noSymbol =>
        simp only at h
        obtain ⟨h1, h2, h3⟩ := ih (i + 1) r1 acc (hfl.trans hflag) h
        exact ⟨by omega, h2, h3⟩
      | demangleFailed =>
        simp only [Option.some.injEq] at h
        subst h
        exact ⟨le_refl _, hfl.trans hflag, Or.inr (Or.inl ⟨rfl, hres.symm⟩)⟩
      | entry m =>
        simp only at h
        obtain ⟨h1, h2, h3⟩ := ih (i + 1) r1 (acc ++ [m]) (hfl.trans hflag) h
        exact ⟨by omega, h2, h3⟩
      | fault f =>
        simp only [Option.some.injEq] at h
        subst h
        exact ⟨le_refl _, hfl.trans hflag, Or.inr (Or.inr ⟨f, rfl, hres.symm⟩)⟩

theorem strncmp_eq_error (data : List UInt8) (p : Nat) (lit : List UInt8) (e : Fault)
    (h : strncmp_eq data p lit = .error e) :
    e = .undefinedBehaviour .unterminatedString := by
  induction lit generalizing p with
  | nil => simp [strncmp_eq] at h
  | cons c cs ih =>
    unfold strncmp_eq at h
    split at h
    · simp only [Except.error.injEq] at h
      exact h.symm
    · split at h
      · exact ih _ h
      · simp at h

theorem select_candidate_error (demangle : List UInt8 → Option (List UInt8))
    (filter : Option (List UInt8 → Bool)) (data : List UInt8) (sym : Symbol) (e : Fault)
    (h : select_candidate demangle filter data sym = .error e) :
    ∃ u, e = .undefinedBehaviour u := by
  unfold select_candidate at h
  split at h
  · next f hf =>
    simp only [Except.error.injEq] at h
    subst h
    exact ⟨_, strncmp_eq_error data sym.2 ZTV f hf⟩
  · simp at h
  · split at h
    · simp only [Except.error.injEq] at h
      exact ⟨_, h.symm⟩
    · split at h
      · simp at h
      · split at h
        · simp only [Except.error.injEq] at h
          exact ⟨_, h.symm⟩
        · dsimp only at h
          split at h
          · split at h <;> simp at h
          · simp at h

/-- A fault of a walk is the failed offset assertion or undefined behaviour. -/
theorem walk_fault_cases (host : Endian) (demangle : List UInt8 → Option (List UInt8))
    (data : List UInt8) (syms : List Symbol) (sh_text : Elf64_Shdr) (ptr_size : Nat)
    (sym : Symbol) (fuel : Nat) (r : BinaryReader) (w : WalkResult) (f : Fault)
    (h : walk host demangle data syms sh_text ptr_size sym fuel r = some w)
    (hf : w.stop = .fault f) :
    f = .assertFailed .walkOffset ∨ ∃ u, f = .undefinedBehaviour u := by
  obtain ⟨-, -, hstop⟩ := walk_from_stop host demangle data syms sh_text ptr_size sym fuel 0 r r
    [] w rfl h
  rcases hstop with ⟨h1, -⟩ | ⟨h1, -⟩ | ⟨f', h1, h2⟩
  · rw [h1] at hf; simp at hf
  · rw [h1] at hf; simp at hf
  · rw [h1] at hf
    simp only [Stop.fault.injEq] at hf
    subst hf
    rcases (slot_result_cases host demangle data syms sh_text ptr_size sym r w.last).2.2 f' h2
      with ⟨h3, -⟩ | h3 | h3
    · exact Or.inl h3
    · exact Or.inr ⟨_, h3⟩
    · exact Or.inr ⟨_, h3⟩

/-- A fault of the dump loop is the failed offset assertion of a walk or undefined
behaviour. -/
theorem dump_fault_cases (host : Endian) (demangle : List UInt8 → Option (List UInt8))
    (filter : Option (List UInt8 → Bool)) (data : List UInt8) (syms : List Symbol)
    (sh_text : Elf64_Shdr) (ptr_size : Nat) (fuel : Nat) (todo : List Symbol)
    (r : BinaryReader) (out : List VTable) (o : Output) (f : Fault)
    (h : dump host demangle filter data syms sh_text ptr_size fuel todo r out = some o)
    (hf : o.fault = some f) :
    f = .assertFailed .walkOffset ∨ ∃ u, f = .undefinedBehaviour u := by
  induction todo generalizing r out with
  | nil =>
    simp only [dump, Option.some.injEq] at h
    subst h; simp at hf
  | cons sym rest ih =>
    unfold dump at h
    split at h
    · next e he =>
      simp only [Option.some.injEq] at h; subst h
      simp only [Option.some.injEq] at hf; subst hf
      exact Or.inr (select_candidate_error demangle filter data sym e he)
    · exact ih _ _ h
    · split at h
      · simp at h
      · next w hw =>
        dsimp only at h
        split at h
        · next f' hstop =>
          simp only [Option.some.injEq] at h; subst h
          simp only [Option.some.injEq] at hf; subst hf
          exact walk_fault_cases host demangle data syms sh_text ptr_size sym fuel r w f'
            hw hstop
        · exact ih _ _ h

set_option maxRecDepth 100000 in
/-- C13 as stated fails: `elf32_walk_off_end` passes header, section and symbol parsing;
the table of its candidate `_ZTV1A` (value 300) is printed with the member `f` of the
slot at offset 312, and then the offset 316 of the next slot is the length of the file:
the assertion of line 266 fails and the run is aborted after output has begun. -/
theorem C13_counterexample :
    parse .little elf32_walk_off_end = .ok walk_parsed ∧
    walk .little demangle_A elf32_walk_off_end walk_syms walk_text 4 (walk_ztv, 83) 10
        { cur := 300, is_32bit := true } =
      some { members := [{ name := [0x66], name_mangled := [0x66] }], last := 1,
             stop := .fault (.assertFailed .walkOffset),
             bin := { cur := 316, is_32bit := true } } ∧
    run .little demangle_A none 10 elf32_walk_off_end =
      some { tables := [{ classname := [0x41],
                          classname_mangled := [0x5f, 0x5a, 0x54, 0x56, 0x31, 0x41],
                          members := [{ name := [0x66], name_mangled := [0x66] }] }],
             fault := some (.assertFailed .walkOffset) } := by
  refine ⟨by rfl, by rfl, by rfl⟩

/-- C13, amended: for every file that passes header, section and symbol parsing, a run
that stops early stops by the failed offset assertion of line 266 (which can happen
after output has begun) or by undefined behaviour; and every walk ends because a slot
value lies outside the code range, because the demangler rejected the name of the
resolved symbol, because the offset of the next slot is not below the buffer length
(the fatal assertion), or because the behaviour is undefined (the name of the resolved
symbol has no terminator inside the buffer, or the load of the slot wraps around the
address space). -/
theorem C13_walk_ends_by_range_demangler_or_assertion (host : Endian)
    (demangle : List UInt8 → Option (List UInt8)) (filter : Option (List UInt8 → Bool))
    (data : List UInt8) (fuel : Nat) (p : Parsed) (o : Output)
    (hparse : parse host data = .ok p)
    (hrun : run host demangle filter fuel data = some o) :
    (o.fault = none ∨ o.fault = some (.assertFailed .walkOffset) ∨
      ∃ u, o.fault = some (.undefinedBehaviour u)) ∧
    (∀ (c : Symbol) (n : Nat) (r : BinaryReader) (w : WalkResult),
      walk host demangle data p.syms p.secs.sh_text (ptr_size p.ehdr) c n r = some w →
      (w.stop = .nonCode ∧
        ∃ v, slot_value host data (ptr_size p.ehdr) c r w.last = some v ∧
          in_code p.secs.sh_text v = false) ∨
      (w.stop = .demangleFailed ∧
        ∃ v s mangled, slot_value host data (ptr_size p.ehdr) c r w.last = some v ∧
          in_code p.secs.sh_text v = true ∧ find_func_sym p.syms v = some s ∧
          cstr data s.2 = some mangled ∧ demangle mangled = none) ∨
      (w.stop = .fault (.assertFailed .walkOffset) ∧
        data.length ≤ slot_offset (ptr_size p.ehdr) c w.last) ∨
      w.stop = .fault (.undefinedBehaviour .unterminatedString) ∨
      w.stop = .fault (.undefinedBehaviour .loadOutsideBuffer)) := by
  constructor
  · unfold run at hrun
    rw [hparse] at hrun
    simp only at hrun
    cases hf : o.fault with
    | none => exact Or.inl rfl
    | some f =>
      right
      rcases dump_fault_cases host demangle filter data _ _ _ fuel _ _ _ o f hrun hf with h | ⟨u, h⟩
      · exact Or.inl (by rw [h])
      · exact Or.inr ⟨u, by rw [h]⟩
  · intro c n r w hw
    obtain ⟨-, -, hstop⟩ := walk_from_stop host demangle data p.syms p.secs.sh_text
      (ptr_size p.ehdr) c n 0 r r [] w rfl hw
    have hcases := slot_result_cases host demangle data p.syms p.secs.sh_text
      (ptr_size p.ehdr) c r w.last
    rcases hstop with ⟨h1, h2⟩ | ⟨h1, h2⟩ | ⟨f, h1, h2⟩
    · exact Or.inl ⟨h1, hcases.1 h2⟩
    · exact Or.inr (Or.inl ⟨h1, hcases.2.1 h2⟩)
    · rcases hcases.2.2 f h2 with ⟨h3, h4⟩ | h3 | h3
      · exact Or.inr (Or.inr (Or.inl ⟨by rw [h1, h3], h4⟩))
      · exact Or.inr (Or.inr (Or.inr (Or.inl (by rw [h1, h3]))))
      · exact Or.inr (Or.inr (Or.inr (Or.inr (by rw [h1, h3]))))

set_option maxRecDepth 100000 in
/-- C13, amended, at `elf32_walk_off_end`: the run stops by the offset assertion. -/
theorem C13_walk_ends_by_range_demangler_or_assertion_witness :
    (some (Fault.assertFailed .walkOffset) = none ∨
      some (Fault.assertFailed .walkOffset) = some (.assertFailed .walkOffset) ∨
      ∃ u, some (Fault.assertFailed .walkOffset) = some (.undefinedBehaviour u)) :=
  (C13_walk_ends_by_range_demangler_or_assertion .little demangle_A none elf32_walk_off_end
    10 walk_parsed
    { tables := [{ classname := [0x41],
                   classname_mangled := [0x5f, 0x5a, 0x54, 0x56, 0x31, 0x41],
                   members := [{ name := [0x66], name_mangled := [0x66] }] }],
      fault := some (.assertFailed .walkOffset) }
    (by rfl) (by rfl)).1

/-! ## C14: the entries of a candidate do not depend on the candidates before it -/

/-- What a walk leaves in the output: the members printed, the index at which the loop
was left and why.  The reader is not part of it. -/
theorem walk_from_congr (host : Endian) (demangle : List UInt8 → Option (List UInt8))
    (data : List UInt8) (syms : List Symbol) (sh_text : Elf64_Shdr) (ptr_size : Nat)
    (sym : Symbol) (fuel i : Nat) (r r' : BinaryReader) (acc : List Member)
    (h : r.is_32bit = r'.is_32bit) :
    (walk_from host demangle data syms sh_text ptr_size sym fuel i r acc).map
        (fun w => (w.members, w.last, w.stop)) =
      (walk_from host demangle data syms sh_text ptr_size sym fuel i r' acc).map
        (fun w => (w.members, w.last, w.stop)) := by
  induction fuel generalizing i r r' acc with
  | zero => simp [walk_from]
  | succ fuel ih =>
    have hres := slot_result_congr host demangle data syms sh_text ptr_size sym i r r' h
    have hf1 := walk_slot_flag host demangle data syms sh_text ptr_size sym i r
    have hf2 := walk_slot_flag host demangle data syms sh_text ptr_size sym i r'
    unfold slot_result at hres
    rw [walk_from, walk_from]
    cases h1 : walk_slot host demangle data syms sh_text ptr_size sym i r with
    | mk res1 r1 =>
      cases h2 : walk_slot host demangle data syms sh_text ptr_size sym i r' with
      | mk res2 r2 =>
        rw [h1, h2] at hres
        rw [h1] at hf1
        rw [h2] at hf2
        dsimp only at hres hf1 hf2
        subst hres
        have hflag : r1.is_32bit = r2.is_32bit := by rw [hf1, hf2, h]
        cases res1 with
        | nonCode => rfl
        | noSymbol => exact ih (i + 1) r1 r2 acc hflag
        | demangleFailed => rfl
        | entry m => exact ih (i + 1) r1 r2 (acc ++ [m]) hflag
        | fault f => rfl

/-- The loop over the symbols only appends to the output. -/
theorem dump_appends (host : Endian) (demangle : List UInt8 → Option (List UInt8))
    (filter : Option (List UInt8 → Bool)) (data : List UInt8) (syms : List Symbol)
    (sh_text : Elf64_Shdr) (ptr_size : Nat) (fuel : Nat) (todo : List Symbol)
    (r : BinaryReader) (out : List VTable) (o : Output)
    (h : dump host demangle filter data syms sh_text ptr_size fuel todo r out = some o) :
    ∃ more, o.tables = out ++ more := by
  induction todo generalizing r out with
  | nil =>
    simp only [dump, Option.some.injEq] at h
    subst h
    exact ⟨[], by simp⟩
  | cons sym rest ih =>
    unfold dump at h
    split at h
    · simp only [Option.some.injEq] at h
      subst h
      exact ⟨[], by simp⟩
    · exact ih _ _ h
    · split at h
      · simp at h
      · dsimp only at h
        split at h
        · simp only [Option.some.injEq] at h
          subst h
          exact ⟨_, rfl⟩
        · obtain ⟨more, hmore⟩ := ih _ _ h
          rw [List.append_assoc] at hmore
          exact ⟨_, hmore⟩

/-- The loop over `before ++ todo`, when the part over `before` ends normally, goes on
over `todo` with a reader of the same width flag and the tables printed so far. -/
theorem dump_split (host : Endian) (demangle : List UInt8 → Option (List UInt8))
    (filter : Option (List UInt8 → Bool)) (data : List UInt8) (syms : List Symbol)
    (sh_text : Elf64_Shdr) (ptr_size : Nat) (fuel : Nat) (before : List Symbol)
    (r : BinaryReader) (out : List VTable) (ob : Output)
    (h : dump host demangle filter data syms sh_text ptr_size fuel before r out = some ob)
    (hok : ob.fault = none) :
    ∃ r', r'.is_32bit = r.is_32bit ∧ ∀ todo,
      dump host demangle filter data syms sh_text ptr_size fuel (before ++ todo) r out =
        dump host demangle filter data syms sh_text ptr_size fuel todo r' ob.tables := by
  induction before generalizing r out with
  | nil =>
    simp only [dump, Option.some.injEq] at h
    subst h
    exact ⟨r, rfl, fun todo => rfl⟩
  | cons sym rest ih =>
    unfold dump at h
    split at h
    · simp only [Option.some.injEq] at h
      subst h
      simp at hok
    · next hsel =>
      obtain ⟨r', hr', hgo⟩ := ih _ _ h
      refine ⟨r', hr', fun todo => ?_⟩
      rw [List.cons_append, dump, hsel]
      exact hgo todo
    · next classname mangled hsel =>
      split at h
      · simp at h
      · next w hw =>
        dsimp only at h
        split at h
        · simp only [Option.some.injEq] at h
          subst h
          simp at hok
        · next hstop =>
          obtain ⟨r', hr', hgo⟩ := ih _ _ h
          have hflag := (walk_from_stop host demangle data syms sh_text ptr_size sym fuel 0 r r
            [] w rfl hw).2.1
          refine ⟨r', hr'.trans hflag, fun todo => ?_⟩
          rw [List.cons_append, dump, hsel]
          dsimp only
          rw [hw]
          dsimp only
          rw [← hgo todo]
          cases hs : w.stop with
          | nonCode => rfl
          | demangleFailed => rfl
          | fault f => exact absurd hs (hstop f)

/-- C14: for every run of the candidate loop over `before ++ c :: rest` in which the
symbols before `c` are processed without abort and `c` is a candidate (its name begins
with "_ZTV", demangles and passes the filter): the entry list printed for `c`, the
index at which its walk is left and the reason are those of the walk of `c` started
from any reader with the same width flag; in particular the table printed for `c`
carries the entries of the walk started from the fresh reader at offset 0, whatever
symbols `before` holds: symbols skipped because their names did not demangle,
candidates whose walk ended on a demangle failure, or any other. -/
theorem C14_entries_independent_of_earlier_candidates (host : Endian)
    (demangle : List UInt8 → Option (List UInt8)) (filter : Option (List UInt8 → Bool))
    (data : List UInt8) (syms : List Symbol) (sh_text : Elf64_Shdr) (ptr_size : Nat)
    (fuel : Nat) (before rest : List Symbol) (c : Symbol) (r : BinaryReader)
    (out : List VTable) (ob o : Output) (header : List UInt8 × List UInt8)
    (hbefore :
      dump host demangle filter data syms sh_text ptr_size fuel before r out = some ob)
    (hok : ob.fault = none)
    (hsel : selected demangle filter data c = some header)
    (hrun : dump host demangle filter data syms sh_text ptr_size fuel (before ++ c :: rest)
      r out = some o) :
    (∀ r1 r2 : BinaryReader, r1.is_32bit = r2.is_32bit →
      (walk host demangle data syms sh_text ptr_size c fuel r1).map
          (fun w => (w.members, w.last, w.stop)) =
        (walk host demangle data syms sh_text ptr_size c fuel r2).map
          (fun w => (w.members, w.last, w.stop))) ∧
    ∃ w, walk host demangle data syms sh_text ptr_size c fuel
          { cur := 0, is_32bit := r.is_32bit } = some w ∧
      o.tables[ob.tables.length]? =
        some { classname := header.1, classname_mangled := header.2,
               members := w.members } := by
  refine ⟨fun r1 r2 h12 =>
    walk_from_congr host demangle data syms sh_text ptr_size c fuel 0 r1 r2 [] h12, ?_⟩
  obtain ⟨r', hr', hgo⟩ := dump_split host demangle filter data syms sh_text ptr_size fuel
    before r out ob hbefore hok
  rw [hgo (c :: rest)] at hrun
  obtain ⟨classname, mangled⟩ := header
  have hsc : select_candidate demangle filter data c = .ok (some (classname, mangled)) := by
    unfold selected at hsel
    split at hsel
    · next hd heq =>
      simp only [Option.some.injEq] at hsel
      rw [heq, hsel]
    · simp at hsel
  rw [dump, hsc] at hrun
  dsimp only at hrun
  have hcong := walk_from_congr host demangle data syms sh_text ptr_size c fuel 0 r'
    { cur := 0, is_32bit := r.is_32bit } [] hr'
  unfold walk at hrun ⊢
  cases hw : walk_from host demangle data syms sh_text ptr_size c fuel 0 r' [] with
  | none =>
    rw [hw] at hrun
    simp at hrun
  | some w =>
    rw [hw] at hrun hcong
    dsimp only at hrun
    cases hw0 : walk_from host demangle data syms sh_text ptr_size c fuel 0
        { cur := 0, is_32bit := r.is_32bit } [] with
    | none =>
      rw [hw0] at hcong
      simp at hcong
    | some w0 =>
      rw [hw0] at hcong
      simp only [Option.map_some', Option.some.injEq, Prod.mk.injEq] at hcong
      refine ⟨w0, rfl, ?_⟩
      have htables : ∃ more, o.tables =
          ob.tables ++ ({ classname := classname, classname_mangled := mangled,
                          members := w.members } :: more) := by
        split at hrun
        · simp only [Option.some.injEq] at hrun
          subst hrun
          exact ⟨[], rfl⟩
        · obtain ⟨more, hmore⟩ := dump_appends host demangle filter data syms sh_text
            ptr_size fuel rest w.bin _ o hrun
          rw [List.append_assoc] at hmore
          exact ⟨more, hmore⟩
      obtain ⟨more, hmore⟩ := htables
      rw [hmore, ← hcong.1, List.getElem?_append_right (le_refl _)]
      simp

set_option maxRecDepth 100000 in
/-- C14 at `two_buf`: the candidate `_ZTV1B` comes after `_ZTV1A`, whose walk ends on a
demangle failure; its table, the second of the output, has the entry `f` of the walk
from the fresh reader. -/
theorem C14_entries_independent_of_earlier_candidates_witness :
    ∃ w, walk .little demangle_AB two_buf two_syms vt_text 4
          ({ st_name := 7, st_info := 0x11, st_other := 0, st_shndx := 2, st_value := 16,
             st_size := 20 }, 43) 10 { cur := 0, is_32bit := true } = some w ∧
      [({ classname := [0x41], classname_mangled := [0x5f, 0x5a, 0x54, 0x56, 0x31, 0x41],
          members := [] } : VTable),
       { classname := [0x42], classname_mangled := [0x5f, 0x5a, 0x54, 0x56, 0x31, 0x42],
         members := [{ name := [0x66], name_mangled := [0x66] }] }][1]? =
        some { classname := [0x42],
               classname_mangled := [0x5f, 0x5a, 0x54, 0x56, 0x31, 0x42],
               members := w.members } :=
  (C14_entries_independent_of_earlier_candidates .little demangle_AB none two_buf two_syms
    vt_text 4 10
    [({ st_name := 0, st_info := 0x11, st_other := 0, st_shndx := 2, st_value := 0,
        st_size := 16 }, 36)]
    [({ st_name := 14, st_info := 0x12, st_other := 0, st_shndx := 1, st_value := 100,
        st_size := 4 }, 50),
     ({ st_name := 16, st_info := 0x12, st_other := 0, st_shndx := 1, st_value := 104,
        st_size := 4 }, 52)]
    ({ st_name := 7, st_info := 0x11, st_other := 0, st_shndx := 2, st_value := 16,
       st_size := 20 }, 43)
    { cur := 0, is_32bit := true } []
    { tables := [{ classname := [0x41],
                   classname_mangled := [0x5f, 0x5a, 0x54, 0x56, 0x31, 0x41],
                   members := [] }],
      fault := none }
    { tables := [{ classname := [0x41],
                   classname_mangled := [0x5f, 0x5a, 0x54, 0x56, 0x31, 0x41],
                   members := [] },
                 { classname := [0x42],
                   classname_mangled := [0x5f, 0x5a, 0x54, 0x56, 0x31, 0x42],
                   members := [{ name := [0x66], name_mangled := [0x66] }] }],
      fault := none }
    ([0x42], [0x5f, 0x5a, 0x54, 0x56, 0x31, 0x42])
    (by rfl) rfl (by rfl) (by rfl)).2

/-! ## C15: the class name is the demangled name without its label -/

/-- The pass of the candidate loop for a symbol that is selected: its walk returns, and
its table follows the tables printed so far. -/
theorem dump_cons_selected (host : Endian) (demangle : List UInt8 → Option (List UInt8))
    (filter : Option (List UInt8 → Bool)) (data : List UInt8) (syms : List Symbol)
    (sh_text : Elf64_Shdr) (ptr_size : Nat) (fuel : Nat) (sym : Symbol)
    (rest : List Symbol) (r : BinaryReader) (out : List VTable) (o : Output)
    (classname mangled : List UInt8)
    (hsel : select_candidate demangle filter data sym = .ok (some (classname, mangled)))
    (h : dump host demangle filter data syms sh_text ptr_size fuel (sym :: rest) r out =
      some o) :
    ∃ w more, walk host demangle data syms sh_text ptr_size sym fuel r = some w ∧
      o.tables = out ++ ({ classname := classname, classname_mangled := mangled,
                           members := w.members } :: more) := by
  rw [dump, hsel] at h
  dsimp only at h
  cases hw : walk host demangle data syms sh_text ptr_size sym fuel r with
  | none =>
    rw [hw] at h
    simp at h
  | some w =>
    rw [hw] at h
    dsimp only at h
    refine ⟨w, ?_⟩
    split at h
    · simp only [Option.some.injEq] at h
      subst h
      exact ⟨[], rfl, rfl⟩
    · obtain ⟨more, hmore⟩ := dump_appends host demangle filter data syms sh_text
        ptr_size fuel rest w.bin _ o h
      rw [List.append_assoc] at hmore
      exact ⟨more, rfl, hmore⟩

/-- C15: for every candidate (a symbol whose name begins with "_ZTV") whose demangled
name is the label "vtable for " followed by a string `c`: the label has 11 characters,
the string tested against the filter is `c`, the candidate is selected with the class
name `c` exactly when there is no filter or the filter accepts `c`, and the table
printed for it in any run of the candidate loop carries the class name `c`. -/
theorem C15_class_name_drops_the_label (demangle : List UInt8 → Option (List UInt8))
    (filter : Option (List UInt8 → Bool)) (data : List UInt8) (sym : Symbol)
    (mangled c : List UInt8)
    (hz : (data.drop sym.2).take 4 = ZTV) (hm : cstr data sym.2 = some mangled)
    (hd : demangle mangled = some (vtable_for ++ c)) :
    vtable_for.length = 11 ∧
    (vtable_for ++ c).drop vtable_for.length = c ∧
    select_candidate demangle filter data sym =
      .ok (match filter with
        | some regex_match => if regex_match c then some (c, mangled) else none
        | none => some (c, mangled)) ∧
    (∀ (host : Endian) (syms : List Symbol) (sh_text : Elf64_Shdr) (ptr_size fuel : Nat)
        (rest : List Symbol) (r : BinaryReader) (out : List VTable) (o : Output),
      (∀ regex_match, filter = some regex_match → regex_match c = true) →
      dump host demangle filter data syms sh_text ptr_size fuel (sym :: rest) r out =
        some o →
      (o.tables[out.length]?).map (fun t => (t.classname, t.classname_mangled)) =
        some (c, mangled)) := by
  have hsel : select_candidate demangle filter data sym =
      .ok (match filter with
        | some regex_match => if regex_match c then some (c, mangled) else none
        | none => some (c, mangled)) := by
    have hs : strncmp_eq data sym.2 ZTV = .ok true :=
      (strncmp_eq_true_iff data sym.2 ZTV).2 hz
    unfold select_candidate
    rw [hs]
    dsimp only
    rw [hm]
    dsimp only
    rw [hd]
    dsimp only
    have hlen : ¬ (vtable_for ++ c).length < 11 := by
      simp [vtable_for]
    rw [if_neg hlen]
    have hdrop : (vtable_for ++ c).drop 11 = c := by
      simp [vtable_for]
    rw [hdrop]
    cases filter with
    | none => rfl
    | some regex_match =>
      dsimp only
      cases regex_match c <;> simp
  refine ⟨rfl, by simp, hsel, ?_⟩
  intro host syms sh_text ptr_size fuel rest r out o hf hrun
  have hsel2 : select_candidate demangle filter data sym = .ok (some (c, mangled)) := by
    rw [hsel]
    cases filter with
    | none => rfl
    | some regex_match =>
      dsimp only
      rw [hf regex_match rfl]
      simp
  obtain ⟨w, more, -, htab⟩ := dump_cons_selected host demangle filter data syms sh_text
    ptr_size fuel sym rest r out o c mangled hsel2 hrun
  rw [htab, List.getElem?_append_right (le_refl _)]
  simp

set_option maxRecDepth 100000 in
/-- C15 at `dump_buf`: the name "_ZTV1A" demangles to "vtable for A", and the class name
is "A". -/
theorem C15_class_name_drops_the_label_witness :
    select_candidate demangle_A none dump_buf
        ({ st_name := 0, st_info := 0x11, st_other := 0, st_shndx := 2, st_value := 0,
           st_size := 20 }, 20) =
      .ok (some ([0x41], [0x5f, 0x5a, 0x54, 0x56, 0x31, 0x41])) :=
  (C15_class_name_drops_the_label demangle_A none dump_buf
    ({ st_name := 0, st_info := 0x11, st_other := 0, st_shndx := 2, st_value := 0,
       st_size := 20 }, 20)
    [0x5f, 0x5a, 0x54, 0x56, 0x31, 0x41] [0x41] (by decide) (by rfl) (by rfl)).2.2.1

/-! ## C16: the layout of the file header -/

/-- A read that lies inside the buffer, for a reader given by its two fields. -/
theorem read_core_type_at (host : Endian) (data : List UInt8) (w c : Nat) (b : Bool)
    (h : c + w ≤ data.length) (hs : data.length < WORD) :
    read_core_type host data w { cur := c, is_32bit := b } =
      .ok (int_at host data c w, { cur := c + w, is_32bit := b }) :=
  read_core_type_in host data w { cur := c, is_32bit := b } h hs

/-- The identity bytes of a buffer of 16 bytes or more that begins with the magic
number. -/
theorem read_ident_ok (host : Endian) (data : List UInt8)
    (hmagic : data.take 4 = ElfMagicBytes) (hlen : 16 ≤ data.length) :
    ∃ bs, read_ident host data BinaryReader.new = .ok (bs, { cur := 16, is_32bit := false }) ∧
      bs.getD 4 0 = (data.getD 4 0).toNat := by
  obtain ⟨bs, r', hbs, hl, hget, hcur, hflag⟩ :=
    read_bytes_spec host data 16 BinaryReader.new (by simp [BinaryReader.new, WORD])
  have hr' : r' = { cur := 16, is_32bit := false } := by
    cases r'
    simp only [BinaryReader.new] at hcur hflag
    simp only [BinaryReader.mk.injEq]
    exact ⟨by omega, hflag⟩
  subst hr'
  have hget' : ∀ j, j < 16 → bs.getD j 0 = (data.getD j 0).toNat := by
    intro j hj
    have := hget j hj
    simpa [BinaryReader.new] using this
  have hm := (ident_magic_iff data bs hl hget').2 hmagic
  refine ⟨bs, ?_, hget' 4 (by omega)⟩
  unfold read_ident
  rw [hbs]
  simp only [bind_ok_eq]
  rw [if_neg (by simp [hm])]

/-- The fields of a 32-bit header. -/
theorem read_ehdr_fields32 (host : Endian) (data : List UInt8) (e_ident : List Nat)
    (hclass : is_class32 e_ident = true) (hlen : 52 ≤ data.length)
    (hs : data.length < WORD) :
    read_ehdr_fields host data e_ident { cur := 16, is_32bit := false } =
      .ok ({ e_ident := e_ident, e_type := int_at host data 16 2,
             e_machine := int_at host data 18 2, e_version := int_at host data 20 4,
             e_entry := int_at host data 24 4, e_phoff := int_at host data 28 4,
             e_shoff := int_at host data 32 4, e_flags := int_at host data 36 4,
             e_ehsize := int_at host data 40 2, e_phentsize := int_at host data 42 2,
             e_phnum := int_at host data 44 2, e_shentsize := int_at host data 46 2,
             e_shnum := int_at host data 48 2, e_shstrndx := int_at host data 50 2 },
           { cur := 52, is_32bit := true }) := by
  have r1 := read_core_type_at host data 2 16 true (by omega) hs
  have r2 := read_core_type_at host data 2 18 true (by omega) hs
  have r3 := read_core_type_at host data 4 20 true (by omega) hs
  have r4 := read_core_type_at host data 4 24 true (by omega) hs
  have r5 := read_core_type_at host data 4 28 true (by omega) hs
  have r6 := read_core_type_at host data 4 32 true (by omega) hs
  have r7 := read_core_type_at host data 4 36 true (by omega) hs
  have r8 := read_core_type_at host data 2 40 true (by omega) hs
  have r9 := read_core_type_at host data 2 42 true (by omega) hs
  have r10 := read_core_type_at host data 2 44 true (by omega) hs
  have r11 := read_core_type_at host data 2 46 true (by omega) hs
  have r12 := read_core_type_at host data 2 48 true (by omega) hs
  have r13 := read_core_type_at host data 2 50 true (by omega) hs
  simp only [Nat.reduceAdd] at r1 r2 r3 r4 r5 r6 r7 r8 r9 r10 r11 r12 r13
  unfold read_ehdr_fields
  simp only [BinaryReader.set_is_32, hclass, read_u16, read_u32, read_ptr, read_u64, r1, r2,
    r3, r4, r5, r6, r7, r8, r9, r10, r11, r12, r13, bind_ok_eq, if_true]

/-- The fields of a 64-bit header. -/
theorem read_ehdr_fields64 (host : Endian) (data : List UInt8) (e_ident : List Nat)
    (hclass : is_class32 e_ident = false) (hlen : 64 ≤ data.length)
    (hs : data.length < WORD) :
    read_ehdr_fields host data e_ident { cur := 16, is_32bit := false } =
      .ok ({ e_ident := e_ident, e_type := int_at host data 16 2,
             e_machine := int_at host data 18 2, e_version := int_at host data 20 4,
             e_entry := int_at host data 24 8, e_phoff := int_at host data 32 8,
             e_shoff := int_at host data 40 8, e_flags := int_at host data 48 4,
             e_ehsize := int_at host data 52 2, e_phentsize := int_at host data 54 2,
             e_phnum := int_at host data 56 2, e_shentsize := int_at host data 58 2,
             e_shnum := int_at host data 60 2, e_shstrndx := int_at host data 62 2 },
           { cur := 64, is_32bit := false }) := by
  have r1 := read_core_type_at host data 2 16 false (by omega) hs
  have r2 := read_core_type_at host data 2 18 false (by omega) hs
  have r3 := read_core_type_at host data 4 20 false (by omega) hs
  have r4 := read_core_type_at host data 8 24 false (by omega) hs
  have r5 := read_core_type_at host data 8 32 false (by omega) hs
  have r6 := read_core_type_at host data 8 40 false (by omega) hs
  have r7 := read_core_type_at host data 4 48 false (by omega) hs
  have r8 := read_core_type_at host data 2 52 false (by omega) hs
  have r9 := read_core_type_at host data 2 54 false (by omega) hs
  have r10 := read_core_type_at host data 2 56 false (by omega) hs
  have r11 := read_core_type_at host data 2 58 false (by omega) hs
  have r12 := read_core_type_at host data 2 60 false (by omega) hs
  have r13 := read_core_type_at host data 2 62 false (by omega) hs
  simp only [Nat.reduceAdd] at r1 r2 r3 r4 r5 r6 r7 r8 r9 r10 r11 r12 r13
  unfold read_ehdr_fields
  simp only [BinaryReader.set_is_32, hclass, read_u16, read_u32, read_ptr, read_u64, r1, r2,
    r3, r4, r5, r6, r7, r8, r9, r10, r11, r12, r13, bind_ok_eq, if_false, Bool.false_eq_true]

/-- C16: for every buffer that begins with the magic number and holds the header
(52 bytes when the class byte, byte 4, is 1, else 64 bytes): header parsing returns with
the cursor at 52 (class byte 1) or at 64 (otherwise); `e_shoff`, `e_shentsize`,
`e_shnum` and `e_shstrndx` are the integers stored at offsets 32, 46, 48, 50 (widths 4,
2, 2, 2) or 40, 58, 60, 62 (widths 8, 2, 2, 2); the reader is 32-bit, and the pointer
size is 4, exactly when the class byte is 1. -/
theorem C16_header_layout (host : Endian) (data : List UInt8)
    (hmagic : data.take 4 = ElfMagicBytes) (hs : data.length < WORD)
    (hlen : (if (data.getD 4 0).toNat = 1 then 52 else 64) ≤ data.length) :
    ∃ ehdr r, read_ehdr host data = .ok (ehdr, r) ∧
      (r.is_32bit = true ↔ (data.getD 4 0).toNat = 1) ∧
      (ptr_size ehdr = 4 ↔ (data.getD 4 0).toNat = 1) ∧
      ((data.getD 4 0).toNat = 1 →
        r.cur = 52 ∧ ehdr.e_shoff = int_at host data 32 4 ∧
        ehdr.e_shentsize = int_at host data 46 2 ∧ ehdr.e_shnum = int_at host data 48 2 ∧
        ehdr.e_shstrndx = int_at host data 50 2) ∧
      ((data.getD 4 0).toNat ≠ 1 →
        r.cur = 64 ∧ ehdr.e_shoff = int_at host data 40 8 ∧
        ehdr.e_shentsize = int_at host data 58 2 ∧ ehdr.e_shnum = int_at host data 60 2 ∧
        ehdr.e_shstrndx = int_at host data 62 2) := by
  have h16 : 16 ≤ data.length := by
    split at hlen <;> omega
  obtain ⟨bs, hid, hb4⟩ := read_ident_ok host data hmagic h16
  unfold read_ehdr
  rw [hid]
  simp only [bind_ok_eq]
  by_cases hc : (data.getD 4 0).toNat = 1
  · rw [if_pos hc] at hlen
    have hclass : is_class32 bs = true := by
      unfold is_class32 EI_CLASS ELFCLASS32
      rw [hb4, hc]
      rfl
    rw [read_ehdr_fields32 host data bs hclass hlen hs]
    refine ⟨_, _, rfl, ⟨fun _ => hc, fun _ => rfl⟩, ⟨fun _ => hc, fun _ => ?_⟩, ?_, ?_⟩
    · simp only [ptr_size, hclass, if_true]
    · intro _
      exact ⟨rfl, rfl, rfl, rfl, rfl⟩
    · intro h
      exact absurd hc h
  · rw [if_neg hc] at hlen
    have hclass : is_class32 bs = false := by
      unfold is_class32 EI_CLASS ELFCLASS32
      rw [hb4, beq_eq_false_iff_ne]
      exact hc
    rw [read_ehdr_fields64 host data bs hclass hlen hs]
    refine ⟨_, _, rfl, ⟨fun h => absurd h Bool.false_ne_true, fun h => absurd h hc⟩,
      ⟨fun h => ?_, fun h => absurd h hc⟩, ?_, ?_⟩
    · simp only [ptr_size, hclass, Bool.false_eq_true, if_false] at h
      omega
    · intro h
      exact absurd h hc
    · intro _
      exact ⟨rfl, rfl, rfl, rfl, rfl⟩

set_option maxRecDepth 100000 in
/-- C16 at `elf32_example`, whose class byte is 1: the cursor ends at 52 and the four
fields are 136, 40, 4 and 3. -/
theorem C16_header_layout_witness :
    (int_at .little elf32_example 32 4, int_at .little elf32_example 46 2,
        int_at .little elf32_example 48 2, int_at .little elf32_example 50 2) =
      (136, 40, 4, 3) ∧
    ∃ ehdr r, read_ehdr .little elf32_example = .ok (ehdr, r) ∧
      (r.is_32bit = true ↔ (elf32_example.getD 4 0).toNat = 1) ∧
      (ptr_size ehdr = 4 ↔ (elf32_example.getD 4 0).toNat = 1) ∧
      ((elf32_example.getD 4 0).toNat = 1 →
        r.cur = 52 ∧ ehdr.e_shoff = int_at .little elf32_example 32 4 ∧
        ehdr.e_shentsize = int_at .little elf32_example 46 2 ∧
        ehdr.e_shnum = int_at .little elf32_example 48 2 ∧
        ehdr.e_shstrndx = int_at .little elf32_example 50 2) ∧
      ((elf32_example.getD 4 0).toNat ≠ 1 →
        r.cur = 64 ∧ ehdr.e_shoff = int_at .little elf32_example 40 8 ∧
        ehdr.e_shentsize = int_at .little elf32_example 58 2 ∧
        ehdr.e_shnum = int_at .little elf32_example 60 2 ∧
        ehdr.e_shstrndx = int_at .little elf32_example 62 2) :=
  ⟨by rfl, C16_header_layout .little elf32_example (by decide) (by decide) (by decide)⟩

/-! ## C17: the number of symbols -/

/-- The symbol loop, when it returns, has stored as many symbols as it was asked for. -/
theorem read_syms_length (host : Endian) (data : List UInt8) (ehdr : Elf64_Ehdr)
    (sh_strtab : Elf64_Shdr) (n : Nat) (r r' : BinaryReader) (syms : List Symbol)
    (h : read_syms host data ehdr sh_strtab n r = .ok (syms, r')) : syms.length = n := by
  induction n generalizing r r' syms with
  | zero =>
    simp only [read_syms, Except.ok.injEq, Prod.mk.injEq] at h
    rw [← h.1]
    rfl
  | succ n ih =>
    rw [read_syms_succ] at h
    cases h1 : read_sym host data ehdr r with
    | error e =>
      rw [h1] at h
      simp at h
    | ok p =>
      rw [h1] at h
      simp only [bind_ok_eq] at h
      split at h
      · simp at h
      · cases h2 : read_syms host data ehdr sh_strtab n p.2 with
        | error e =>
          rw [h2] at h
          simp at h
        | ok q =>
          rw [h2] at h
          simp only [bind_ok_eq, Except.ok.injEq, Prod.mk.injEq] at h
          rw [← h.1, List.length_cons, ih p.2 q.2 q.1 h2]

/-- A successful parse has parsed its symbols with the headers it reports. -/
theorem parse_symbols_of_parse (host : Endian) (data : List UInt8) (p : Parsed)
    (h : parse host data = .ok p) :
    ∃ r, parse_symbols host data p.ehdr p.secs r = .ok (p.syms, p.bin) := by
  unfold parse at h
  cases h1 : read_ehdr host data with
  | error e =>
    rw [h1] at h
    simp at h
  | ok a =>
    rw [h1] at h
    simp only [bind_ok_eq] at h
    cases h2 : find_sections host data a.1 a.2 with
    | error e =>
      rw [h2] at h
      simp at h
    | ok b =>
      rw [h2] at h
      simp only [bind_ok_eq] at h
      cases h3 : parse_symbols host data a.1 b.1 b.2 with
      | error e =>
        rw [h3] at h
        simp at h
      | ok c =>
        rw [h3] at h
        simp only [bind_ok_eq, Except.ok.injEq] at h
        subst h
        exact ⟨b.2, h3⟩

set_option maxRecDepth 100000 in
/-- C17 as stated fails: the `.symtab` header of `elf64_huge_symtab` has the entry size
1 and the size `2 ^ 60`, which is more than a vector of symbols can hold; the
constructor of line 188 throws `std::length_error`, the run is aborted, and no symbol
is parsed. -/
theorem C17_counterexample :
    (read_ehdr .little elf64_huge_symtab >>= fun p =>
        find_sections .little elf64_huge_symtab p.1 p.2).map
      (fun q => (q.1.sh_symtab.sh_size, q.1.sh_symtab.sh_entsize)) = .ok (2 ^ 60, 1) ∧
    vector_max_size < 2 ^ 60 / 1 ∧
    parse .little elf64_huge_symtab = .error .lengthError ∧
    run .little demangle_any none 10 elf64_huge_symtab =
      some { tables := [], fault := some .lengthError } := by
  refine ⟨by rfl, by decide, by rfl, by rfl⟩

/-- C17, amended: for every `.symtab` header whose entry size is positive, in either
file class: the number of elements asked of the symbol vector is `sh_size / sh_entsize`
(rounded down).  When that number is above `max_size()` of the vector, the constructor
throws and the run is aborted before a symbol is read.  Otherwise (memory is not a
resource of the model: the allocation succeeds), when the string table passes its
bounds assertion, the symbol loop is run for exactly that many records; and whenever
symbol parsing returns, as in every successful parse of a file with these sections,
the number of symbols parsed is `sh_size / sh_entsize`. -/
theorem C17_symbol_count_is_size_div_entsize (host : Endian) (data : List UInt8)
    (ehdr : Elf64_Ehdr) (secs : Sections) (r : BinaryReader)
    (hent : 0 < secs.sh_symtab.sh_entsize) :
    symbol_count secs.sh_symtab =
      .ok (secs.sh_symtab.sh_size / secs.sh_symtab.sh_entsize) ∧
    (check_strtab data .strtabInFile secs.sh_strtab = .ok () →
      vector_max_size < secs.sh_symtab.sh_size / secs.sh_symtab.sh_entsize →
      parse_symbols host data ehdr secs r = .error .lengthError) ∧
    (check_strtab data .strtabInFile secs.sh_strtab = .ok () →
      secs.sh_symtab.sh_size / secs.sh_symtab.sh_entsize ≤ vector_max_size →
      parse_symbols host data ehdr secs r =
        read_syms host data ehdr secs.sh_strtab
          (secs.sh_symtab.sh_size / secs.sh_symtab.sh_entsize) r) ∧
    (∀ syms r', parse_symbols host data ehdr secs r = .ok (syms, r') →
      syms.length = secs.sh_symtab.sh_size / secs.sh_symtab.sh_entsize) ∧
    (∀ p, parse host data = .ok p → p.secs = secs →
      p.syms.length = secs.sh_symtab.sh_size / secs.sh_symtab.sh_entsize) := by
  have hcount : symbol_count secs.sh_symtab =
      .ok (secs.sh_symtab.sh_size / secs.sh_symtab.sh_entsize) := by
    unfold symbol_count
    rw [if_neg (by omega)]
  have hlen : ∀ (ehdr : Elf64_Ehdr) (r : BinaryReader) syms r',
      parse_symbols host data ehdr secs r = .ok (syms, r') →
      syms.length = secs.sh_symtab.sh_size / secs.sh_symtab.sh_entsize := by
    intro ehdr r syms r' h
    unfold parse_symbols at h
    rw [hcount] at h
    cases hc : check_strtab data .strtabInFile secs.sh_strtab with
    | error e =>
      rw [hc] at h
      simp at h
    | ok u =>
      rw [hc] at h
      simp only [bind_ok_eq] at h
      unfold make_syms at h
      split at h
      · simp at h
      · simp only [bind_ok_eq] at h
        exact read_syms_length host data ehdr secs.sh_strtab _ r r' syms h
  refine ⟨hcount, ?_, ?_, hlen ehdr r, ?_⟩
  · intro hc hbig
    unfold parse_symbols
    rw [hc, hcount]
    simp only [bind_ok_eq]
    unfold make_syms
    rw [if_pos hbig]
    rfl
  · intro hc hsmall
    unfold parse_symbols
    rw [hc, hcount]
    simp only [bind_ok_eq]
    unfold make_syms
    rw [if_neg (by omega)]
    rfl
  · intro p hp hsecs
    obtain ⟨r1, h1⟩ := parse_symbols_of_parse host data p hp
    rw [hsecs] at h1
    exact hlen p.ehdr r1 p.syms p.bin h1

set_option maxRecDepth 100000 in
/-- C17, amended, at `elf32_walk_off_end`: the symbol table has 48 bytes in records of
16, and three symbols are parsed. -/
theorem C17_symbol_count_is_size_div_entsize_witness :
    parse .little elf32_walk_off_end = .ok walk_parsed ∧ walk_syms.length = 48 / 16 :=
  ⟨by rfl,
   (C17_symbol_count_is_size_div_entsize .little elf32_walk_off_end walk_ehdr
      { sh_text := walk_text, sh_symtab := walk_symtab, sh_strtab := walk_strtab }
      { cur := 252, is_32bit := true } (by decide)).2.2.2.2 walk_parsed (by rfl) rfl⟩

/-! ## C18: the walk terminates -/

set_option maxRecDepth 100000 in
/-- C18 as stated fails: in the 17-byte buffer `wrap_buf` with 8-byte pointers the
candidate `wrap_sym` has the value `2 ^ 64 - 24`, so that the offsets of its slots are
0, 8, 16, 24; every slot holds 0, which lies in the code section `wrap_text` and
resolves to no symbol.  Three passes do not end the loop (fuel 3 runs out); the fourth
pass, with `i = 3`, fails the assertion.  The loop body is entered 4 times, and
`17 / 8 + 1 = 3`. -/
theorem C18_counterexample :
    walk .little demangle_any wrap_buf [wrap_sym] wrap_text 8 wrap_sym 3
        { cur := 0, is_32bit := false } = none ∧
    walk .little demangle_any wrap_buf [wrap_sym] wrap_text 8 wrap_sym 4
        { cur := 0, is_32bit := false } =
      some { members := [], last := 3, stop := .fault (.assertFailed .walkOffset),
             bin := { cur := 16, is_32bit := false } } ∧
    ¬ (3 + 1 ≤ wrap_buf.length / 8 + 1) := by
  refine ⟨by rfl, by rfl, by decide⟩

/-- C18, amended: for every buffer (whose length leaves room for one pointer below
`2 ^ 64`), symbol list, code section, positive pointer width, candidate symbol, reader
and demangle function, also when every in-code slot resolves to no symbol: the walk
returns, with one and the same result for every fuel from `len / ptr_size + 2` on.  It
is left because a slot value is outside the code range, by a demangle failure, by the
assertion `off < file.size()`, or with undefined behaviour.  The number of slots read
is at most `len / ptr_size + 1`, and so is the final value of `i`, the number of passes
that go on to a next index; the pass at which the loop is left included, there are at
most `len / ptr_size + 2` passes, and at most `len / ptr_size + 1` when
`st_value + 3 * ptr_size` does not wrap around. -/
theorem C18_walk_terminates_within_bound (host : Endian)
    (demangle : List UInt8 → Option (List UInt8)) (data : List UInt8)
    (syms : List Symbol) (sh_text : Elf64_Shdr) (ptr_size : Nat) (sym : Symbol)
    (r : BinaryReader) (hw : 0 < ptr_size) (hs : data.length + ptr_size ≤ WORD) :
    ∃ wr, (∀ fuel, data.length / ptr_size + 2 ≤ fuel →
        walk host demangle data syms sh_text ptr_size sym fuel r = some wr) ∧
      (wr.stop = .nonCode ∨ wr.stop = .demangleFailed ∨
        wr.stop = .fault (.assertFailed .walkOffset) ∨
        ∃ u, wr.stop = .fault (.undefinedBehaviour u)) ∧
      slot_reads wr ≤ data.length / ptr_size + 1 ∧
      wr.last ≤ data.length / ptr_size + 1 ∧
      (sym.1.st_value + 3 * ptr_size < WORD →
        wr.last + 1 ≤ data.length / ptr_size + 1) := by
  have hdiv : data.length < data.length / ptr_size * ptr_size + ptr_size :=
    Nat.lt_div_mul_add hw
  have hmul : (data.length / ptr_size + 1) * ptr_size =
      data.length / ptr_size * ptr_size + ptr_size := by ring
  have hN : data.length ≤
      slot_offset ptr_size sym 0 + (data.length / ptr_size + 1) * ptr_size := by
    rw [hmul]
    omega
  obtain ⟨wr, hwr, h1, h2⟩ := walk_from_bounded host demangle data syms sh_text ptr_size
    sym hs (data.length / ptr_size + 1) 0 r [] hN
  have hrun := hwr (data.length / ptr_size + 2) (le_refl _)
  refine ⟨wr, fun fuel hf => hwr fuel (by omega), ?_, ?_, by omega, ?_⟩
  · cases hstop : wr.stop with
    | nonCode => exact Or.inl rfl
    | demangleFailed => exact Or.inr (Or.inl rfl)
    | fault f =>
      rcases walk_fault_cases host demangle data syms sh_text ptr_size sym _ r wr f hrun
        hstop with h | ⟨u, h⟩
      · exact Or.inr (Or.inr (Or.inl (by rw [h])))
      · exact Or.inr (Or.inr (Or.inr ⟨u, by rw [h]⟩))
  · unfold slot_reads
    split
    · omega
    · next hne =>
      have := h2 hne
      omega
  · intro hnowrap
    have hoff0 : slot_offset ptr_size sym 0 = sym.1.st_value + 3 * ptr_size := by
      unfold slot_offset
      rw [Nat.zero_add]
      exact Nat.mod_eq_of_lt hnowrap
    have hN' : data.length ≤
        slot_offset ptr_size sym 0 + data.length / ptr_size * ptr_size := by
      rw [hoff0]
      omega
    obtain ⟨wr', hwr', h1', -⟩ := walk_from_bounded host demangle data syms sh_text
      ptr_size sym hs (data.length / ptr_size) 0 r [] hN'
    have hrun' := hwr' (data.length / ptr_size + 2) (by omega)
    rw [hrun] at hrun'
    simp only [Option.some.injEq] at hrun'
    rw [hrun']
    omega

set_option maxRecDepth 100000 in
/-- C18, amended, at `wrap_buf`, where the bounds are attained: the slots at offsets 0,
8 and 16 are read, and the walk is left at index 3. -/
theorem C18_walk_terminates_within_bound_witness :
    ∃ wr, (∀ fuel, wrap_buf.length / 8 + 2 ≤ fuel →
        walk .little demangle_any wrap_buf [wrap_sym] wrap_text 8 wrap_sym fuel
          { cur := 0, is_32bit := false } = some wr) ∧
      (wr.stop = .nonCode ∨ wr.stop = .demangleFailed ∨
        wr.stop = .fault (.assertFailed .walkOffset) ∨
        ∃ u, wr.stop = .fault (.undefinedBehaviour u)) ∧
      slot_reads wr ≤ wrap_buf.length / 8 + 1 ∧
      wr.last ≤ wrap_buf.length / 8 + 1 ∧
      (wrap_sym.1.st_value + 3 * 8 < WORD → wr.last + 1 ≤ wrap_buf.length / 8 + 1) :=
  C18_walk_terminates_within_bound .little demangle_any wrap_buf [wrap_sym] wrap_text 8
    wrap_sym { cur := 0, is_32bit := false } (by decide) (by decide)

/-! ## C19: of several headers with a required name the last one is used -/

/-- The header `last_named` returns is the header of an index below `m` that has the
name, and no index between it and `m` has the name. -/
theorem last_named_spec (host : Endian) (data : List UInt8) (ehdr : Elf64_Ehdr)
    (shstrtabhdr : Elf64_Shdr) (r : BinaryReader) (lit : List UInt8) (m : Nat)
    (shdr : Elf64_Shdr)
    (h : last_named host data ehdr shstrtabhdr r lit m = some shdr) :
    ∃ i r', i < m ∧ section_name host data ehdr shstrtabhdr r i = some lit ∧
      read_shdr_at host data ehdr i r = .ok (shdr, r') ∧
      ∀ j, i < j → j < m → section_name host data ehdr shstrtabhdr r j ≠ some lit := by
  induction m with
  | zero => simp [last_named] at h
  | succ m ih =>
    rw [last_named_succ] at h
    split at h
    · next hname =>
      split at h
      · next s r' hrd =>
        simp only [Option.some.injEq] at h
        subst h
        exact ⟨m, r', by omega, hname, hrd, fun j h1 h2 => by omega⟩
      · simp at h
    · next hname =>
      obtain ⟨i, r', hi, hn, hrd, hlast⟩ := ih h
      refine ⟨i, r', by omega, hn, hrd, fun j h1 h2 => ?_⟩
      by_cases hj : j = m
      · rw [hj]
        exact hname
      · exact hlast j h1 (by omega)

set_option maxRecDepth 100000 in
/-- C19 as stated fails: in `elf32_two_text_no_symtab` the headers 1 and 2 are both
named ".text", so a required name occurs more than once, and no header is named
".symtab": section discovery fails at line 174, and the run ends with the
missing-required-section error. -/
theorem C19_counterexample :
    read_ehdr .little elf32_two_text_no_symtab =
      .ok (two_text_ehdr, { cur := 52, is_32bit := true }) ∧
    (section_name .little elf32_two_text_no_symtab two_text_ehdr two_text_strtab
        { cur := 52, is_32bit := true } 1 = some dot_text ∧
      section_name .little elf32_two_text_no_symtab two_text_ehdr two_text_strtab
        { cur := 52, is_32bit := true } 2 = some dot_text) ∧
    find_sections .little elf32_two_text_no_symtab two_text_ehdr
      { cur := 52, is_32bit := true } = .error .missingRequiredSection ∧
    run .little demangle_any none 10 elf32_two_text_no_symtab =
      some { tables := [], fault := some .missingRequiredSection } := by
  refine ⟨by rfl, ⟨by rfl, by rfl⟩, by rfl, by rfl⟩

/-- C19, amended: for every section header table whose section header string table
passes its bounds check, whose headers all have their name offset in bounds, and in
which each of ".text", ".symtab" and ".strtab" occurs once or more often.  The
behaviour is undefined exactly when the end of the file cuts a name off while it agrees
with a required name; otherwise section discovery returns, and the header it returns
for each of the three names is the header of the highest index that bears the name: no
header after it has the name. -/
theorem C19_last_match_wins (host : Endian) (data : List UInt8) (ehdr : Elf64_Ehdr)
    (r0 : BinaryReader) (shstrtabhdr : Elf64_Shdr) (r1 : BinaryReader)
    (hshstr : read_shdr_at host data ehdr ehdr.e_shstrndx r0 = .ok (shstrtabhdr, r1))
    (hbounds : check_strtab data .shstrtabInFile shstrtabhdr = .ok ())
    (hnames : ∀ i, i < ehdr.e_shnum →
      name_in_bounds host data ehdr shstrtabhdr r0 i = true)
    (htext : has_section host data ehdr shstrtabhdr r0 dot_text)
    (hsymtab : has_section host data ehdr shstrtabhdr r0 dot_symtab)
    (hstrtab : has_section host data ehdr shstrtabhdr r0 dot_strtab) :
    ((∃ i, i < ehdr.e_shnum ∧ name_cut host data ehdr shstrtabhdr r0 i = true) →
      find_sections host data ehdr r0 =
        .error (.undefinedBehaviour .unterminatedString)) ∧
    ((∀ i, i < ehdr.e_shnum → name_cut host data ehdr shstrtabhdr r0 i = false) →
      ∃ secs r', find_sections host data ehdr r0 = .ok (secs, r') ∧
        ∀ lit shdr, (lit = dot_text ∧ shdr = secs.sh_text ∨
            lit = dot_symtab ∧ shdr = secs.sh_symtab ∨
            lit = dot_strtab ∧ shdr = secs.sh_strtab) →
          ∃ i r'', i < ehdr.e_shnum ∧
            section_name host data ehdr shstrtabhdr r0 i = some lit ∧
            read_shdr_at host data ehdr i r0 = .ok (shdr, r'') ∧
            ∀ j, i < j → j < ehdr.e_shnum →
              section_name host data ehdr shstrtabhdr r0 j ≠ some lit) := by
  refine ⟨fun hcut =>
    find_sections_cut host data ehdr r0 shstrtabhdr r1 hshstr hbounds hnames hcut, ?_⟩
  intro hcut
  obtain ⟨rm, hfind⟩ := find_sections_last_named host data ehdr r0 shstrtabhdr r1 hshstr
    hbounds hnames hcut
  have hsome : ∀ lit, has_section host data ehdr shstrtabhdr r0 lit →
      ∃ shdr, last_named host data ehdr shstrtabhdr r0 lit ehdr.e_shnum = some shdr := by
    intro lit hl
    exact Option.isSome_iff_exists.mp
      ((last_named_isSome host data ehdr shstrtabhdr r0 lit ehdr.e_shnum).mpr hl)
  obtain ⟨a, ha⟩ := hsome dot_text htext
  obtain ⟨b, hb⟩ := hsome dot_symtab hsymtab
  obtain ⟨c, hc⟩ := hsome dot_strtab hstrtab
  rw [ha, hb, hc] at hfind
  refine ⟨{ sh_text := a, sh_symtab := b, sh_strtab := c }, rm, hfind, ?_⟩
  intro lit shdr hl
  rcases hl with ⟨h1, h2⟩ | ⟨h1, h2⟩ | ⟨h1, h2⟩
  · rw [h1, h2]
    exact last_named_spec host data ehdr shstrtabhdr r0 dot_text ehdr.e_shnum a ha
  · rw [h1, h2]
    exact last_named_spec host data ehdr shstrtabhdr r0 dot_symtab ehdr.e_shnum b hb
  · rw [h1, h2]
    exact last_named_spec host data ehdr shstrtabhdr r0 dot_strtab ehdr.e_shnum c hc

set_option maxRecDepth 100000 in
/-- C19, amended, at `elf32_two_text`: the headers 1 and 2 are both named ".text" and
no name is cut off; the lookup returns, and its `.text` header is header 2, the one for
the file offset 60. -/
theorem C19_last_match_wins_witness :
    (section_name .little elf32_two_text two_text_ehdr two_text_strtab
        { cur := 52, is_32bit := true } 1 = some dot_text ∧
      section_name .little elf32_two_text two_text_ehdr two_text_strtab
        { cur := 52, is_32bit := true } 2 = some dot_text) ∧
    (find_sections .little elf32_two_text two_text_ehdr
        { cur := 52, is_32bit := true }).map (fun p => p.1.sh_text.sh_offset) = .ok 60 ∧
    ∃ secs r', find_sections .little elf32_two_text two_text_ehdr
        { cur := 52, is_32bit := true } = .ok (secs, r') ∧
      ∀ lit shdr, (lit = dot_text ∧ shdr = secs.sh_text ∨
          lit = dot_symtab ∧ shdr = secs.sh_symtab ∨
          lit = dot_strtab ∧ shdr = secs.sh_strtab) →
        ∃ i r'', i < two_text_ehdr.e_shnum ∧
          section_name .little elf32_two_text two_text_ehdr two_text_strtab
            { cur := 52, is_32bit := true } i = some lit ∧
          read_shdr_at .little elf32_two_text two_text_ehdr i
            { cur := 52, is_32bit := true } = .ok (shdr, r'') ∧
          ∀ j, i < j → j < two_text_ehdr.e_shnum →
            section_name .little elf32_two_text two_text_ehdr two_text_strtab
              { cur := 52, is_32bit := true } j ≠ some lit :=
  ⟨⟨by rfl, by rfl⟩, by rfl,
   (C19_last_match_wins .little elf32_two_text two_text_ehdr { cur := 52, is_32bit := true }
     two_text_strtab { cur := 312, is_32bit := true } (by rfl) (by rfl) (by decide)
     ⟨1, by decide, by rfl⟩ ⟨3, by decide, by rfl⟩ ⟨4, by decide, by rfl⟩).2 (by decide)⟩

/-! ## C20: what a read returns and where it leaves the cursor -/

set_option maxRecDepth 100000 in
/-- C20 (fails on the code): with the cursor at `2 ^ 64 - 1` over a buffer of one byte,
`c + 1` exceeds the buffer length, and the claim has the read leave the cursor where it
is; but the `size_t` sum `cur + sizeof(T)` wraps to 0, the guard of line 45 does not
fire, and `read_u8` (and with it `read_bytes`) loads `data[2 ^ 64 - 1]`, outside the
buffer.  Everything else the claim says holds whenever `c + w` is below `2 ^ 64`: a
read inside the buffer returns the integer stored at the cursor and moves the cursor
behind it; a read that does not fit returns zero and leaves the reader unchanged, so
that a narrower read that fits then succeeds at the same cursor; `read_ptr` is the read
of 4 or 8 bytes according to the width flag; `read_bytes` returns the bytes up to the
end of the buffer, then zeros, and leaves the cursor at the end of the buffer or where
it was. -/
theorem C20_cursor_plus_width_wraps :
    ((2 ^ 64 - 1) + 1 > ([1] : List UInt8).length ∧
      read_u8 .little [1] { cur := 2 ^ 64 - 1, is_32bit := false } =
        .error (.undefinedBehaviour .loadOutsideBuffer) ∧
      read_bytes .little [1] 1 { cur := 2 ^ 64 - 1, is_32bit := false } =
        .error (.undefinedBehaviour .loadOutsideBuffer)) ∧
    (∀ (host : Endian) (data : List UInt8) (w : Nat) (r : BinaryReader),
      data.length < WORD → r.cur + w ≤ data.length →
      read_core_type host data w r =
        .ok (int_at host data r.cur w, { r with cur := r.cur + w })) ∧
    (∀ (host : Endian) (data : List UInt8) (w : Nat) (r : BinaryReader),
      data.length < r.cur + w → r.cur + w < WORD →
      read_core_type host data w r = .ok (0, r)) ∧
    (∀ (host : Endian) (data : List UInt8) (w v : Nat) (r : BinaryReader),
      data.length < r.cur + w → r.cur + w < WORD → r.cur + v ≤ data.length →
      (read_core_type host data w r >>= fun p => read_core_type host data v p.2) =
        .ok (int_at host data r.cur v, { r with cur := r.cur + v })) ∧
    (∀ (host : Endian) (data : List UInt8) (r : BinaryReader),
      read_u8 host data r = read_core_type host data 1 r ∧
      read_u16 host data r = read_core_type host data 2 r ∧
      read_u32 host data r = read_core_type host data 4 r ∧
      read_u64 host data r = read_core_type host data 8 r ∧
      read_ptr host data r = read_core_type host data (if r.is_32bit then 4 else 8) r) ∧
    (∀ (host : Endian) (data : List UInt8) (len : Nat) (r : BinaryReader),
      r.cur + len < WORD →
      ∃ bs r', read_bytes host data len r = .ok (bs, r') ∧ bs.length = len ∧
        (∀ j, j < len → r.cur + j < data.length →
          bs.getD j 0 = (data.getD (r.cur + j) 0).toNat) ∧
        (∀ j, j < len → data.length ≤ r.cur + j → bs.getD j 0 = 0) ∧
        r'.cur = max r.cur (min (r.cur + len) data.length)) := by
  refine ⟨⟨by decide, by rfl, by rfl⟩, ?_, ?_, ?_, ?_, ?_⟩
  · intro host data w r hs h
    exact read_core_type_in host data w r h hs
  · intro host data w r h hw
    exact read_core_type_out host data w r h hw
  · intro host data w v r h hw hv
    rw [read_core_type_out host data w r h hw]
    simp only [bind_ok_eq]
    exact read_core_type_in host data v r hv (by omega)
  · intro host data r
    refine ⟨rfl, rfl, rfl, rfl, ?_⟩
    unfold read_ptr read_u32 read_u64
    split <;> rfl
  · intro host data len r hw
    obtain ⟨bs, r', hbs, hlen, hget, hcur, -⟩ := read_bytes_spec host data len r hw
    refine ⟨bs, r', hbs, hlen, fun j hj _ => hget j hj, fun j hj hout => ?_, hcur⟩
    rw [hget j hj]
    exact getD_toNat_of_le data (r.cur + j) hout

/-! ## C6: which candidates are walked -/

end VTableDump
